import Mathlib

/-!
# SPERR: CDF 9/7 wavelet engine and chunked bitstream framing

A shallow embedding of `CDF97.cpp` and `SPECK3D_OMP_C.cpp`.

Conventions of the embedding.

* An array `double* p` is a `List F`; the read `p[i]` is `rd p i` and the write
  `p[i] = v` is `wr p i v`.  A pointer `p + k` into an array is the suffix
  `p.drop k`.  The scalar type `F` is an arbitrary field, so every statement is
  one of exact arithmetic; rounding of `double` is not modelled.
* Lengths, extents and loop indices are `long` values that stay far below
  `2^63` (they are array extents), so they are natural numbers; a level argument
  that the code lets go negative is an `Int`.
* `assert` is compiled out (`NDEBUG`): a function is embedded by what it
  computes, and the asserted condition is a separate predicate where a
  statement is about it.
-/

namespace Sperr

/-! ## Loops -/

/-- The loop `for (i = start; i < stop; i += step) s = body(i, s)`, started at
`i` with `fuel` iterations allowed; `fuel = stop` always suffices for `step ≥ 1`. -/
def forLoop {σ : Type} (stop step : Nat) (body : Nat → σ → σ) : Nat → Nat → σ → σ
  | 0, _, s => s
  | fuel + 1, i, s =>
    if i < stop then forLoop stop step body fuel (i + step) (body i s) else s

/-- The loop `for (i = n - 1; i >= 0; i--) s = body(i, s)`. -/
def forDown {σ : Type} (body : Nat → σ → σ) : Nat → σ → σ
  | 0, s => s
  | n + 1, s => forDown body n (body n s)

/-! ## Arrays -/

/-- The read `p[i]`. -/
def rd {F : Type} [Zero F] (p : List F) (i : Nat) : F := p.getD i 0

/-- The write `p[i] = v`. -/
def wr {F : Type} (p : List F) (i : Nat) (v : F) : List F := p.set i v

/-! ## Level selection (`CDF97.cpp`, lines 246-283) -/

/-- One pass of the loop body of `m_calc_approx_len`. -/
def halve (low_len : Nat) : Nat :=
  if low_len % 2 = 0 then low_len / 2 else (low_len + 1) / 2

/-- `CDF97::m_calc_approx_len`: the loop `for (i = 0; i < lev; i++)` runs
`lev` times for `lev ≥ 0` and not at all for a negative `lev`. -/
def m_calc_approx_len (orig_len : Nat) (lev : Int) : Nat :=
  forLoop lev.toNat 1 (fun _ low_len => halve low_len) lev.toNat 0 orig_len

/-- The condition of `assert( lev >= 0 )` in `m_calc_approx_len`. -/
def m_calc_approx_len_assert (lev : Int) : Prop := 0 ≤ lev

instance (lev : Int) : Decidable (m_calc_approx_len_assert lev) :=
  inferInstanceAs (Decidable (0 ≤ lev))

/-- The integer part of `log2 n` for `n ≥ 1`, by repeated halving. -/
def floor_log2 : Nat → Nat → Nat
  | 0, _ => 0
  | fuel + 1, n => if n < 2 then 0 else floor_log2 fuel (n / 2) + 1

/-- The first two lines of the level functions:
`float f = std::log2(float(len) / 9.0f); long n = f < 0.0f ? 0 : long(f) + 1;`
with the logarithm taken exactly: `f < 0` iff `len < 9`, and for `len ≥ 9` the
truncation of `log2(len / 9)` is the integer logarithm of `⌊len / 9⌋`. -/
def num_level_raw (len : Nat) : Nat :=
  if len < 9 then 0 else floor_log2 len (len / 9) + 1

/-- The level argument `num_level - 1` that the level functions hand to
`m_calc_approx_len`. -/
def num_level_arg (len : Nat) : Int := (num_level_raw len : Int) - 1

/-- `CDF97::m_num_of_levels_z` as a function of `m_dim_z`. -/
def m_num_of_levels_z (m_dim_z : Nat) : Nat :=
  let num_level_z := num_level_raw m_dim_z
  if m_calc_approx_len m_dim_z (num_level_arg m_dim_z) = 8 then num_level_z + 1
  else num_level_z

/-- `CDF97::m_num_of_levels_xy` as a function of `m_dim_x` and `m_dim_y`. -/
def m_num_of_levels_xy (m_dim_x m_dim_y : Nat) : Nat :=
  let min_xy := min m_dim_x m_dim_y
  let num_level_xy := num_level_raw min_xy
  if m_calc_approx_len min_xy (num_level_arg min_xy) = 8 then num_level_xy + 1
  else num_level_xy

/-! ## Lifting kernels (`CDF97.cpp`, lines 337-457) -/

/-- The five lifting constants `ALPHA`, `BETA`, `GAMMA`, `DELTA`, `EPSILON` that
`CDF97.h` declares; the kernels take them as a parameter. -/
structure Lifting (F : Type) where
  ALPHA : F
  BETA : F
  GAMMA : F
  DELTA : F
  EPSILON : F

/-- Modelled from the spec: the values of the lifting constants of section 4.2
(`CDF97.h`, which declares them, is not among the sources), as exact rationals. -/
def specLifting : Lifting ℚ where
  ALPHA := -1586134342 / 1000000000
  BETA := -52980118 / 1000000000
  GAMMA := 882911075 / 1000000000
  DELTA := 443506852 / 1000000000
  EPSILON := 1149604398 / 1000000000

section Kernels

variable {F : Type} [Field F]

/-- `CDF97::QccWAVCDF97AnalysisSymmetricEvenEven`. -/
def QccWAVCDF97AnalysisSymmetricEvenEven (c : Lifting F) (signal : List F)
    (signal_length : Nat) : List F :=
  let signal := forLoop (signal_length - 2) 2 (fun index signal =>
    wr signal index
      (rd signal index + c.ALPHA * (rd signal (index - 1) + rd signal (index + 1))))
    signal_length 1 signal
  let signal := wr signal (signal_length - 1)
    (rd signal (signal_length - 1) + 2 * c.ALPHA * rd signal (signal_length - 2))
  let signal := wr signal 0 (rd signal 0 + 2 * c.BETA * rd signal 1)
  let signal := forLoop signal_length 2 (fun index signal =>
    wr signal index
      (rd signal index + c.BETA * (rd signal (index + 1) + rd signal (index - 1))))
    signal_length 2 signal
  let signal := forLoop (signal_length - 2) 2 (fun index signal =>
    wr signal index
      (rd signal index + c.GAMMA * (rd signal (index - 1) + rd signal (index + 1))))
    signal_length 1 signal
  let signal := wr signal (signal_length - 1)
    (rd signal (signal_length - 1) + 2 * c.GAMMA * rd signal (signal_length - 2))
  let signal := wr signal 0
    (c.EPSILON * (rd signal 0 + 2 * c.DELTA * rd signal 1))
  let signal := forLoop signal_length 2 (fun index signal =>
    wr signal index
      (c.EPSILON * (rd signal index +
        c.DELTA * (rd signal (index + 1) + rd signal (index - 1)))))
    signal_length 2 signal
  forLoop signal_length 2 (fun index signal =>
    wr signal index (rd signal index / (-c.EPSILON)))
    signal_length 1 signal

/-- `CDF97::QccWAVCDF97SynthesisSymmetricEvenEven`. -/
def QccWAVCDF97SynthesisSymmetricEvenEven (c : Lifting F) (signal : List F)
    (signal_length : Nat) : List F :=
  let signal := forLoop signal_length 2 (fun index signal =>
    wr signal index (rd signal index * (-c.EPSILON)))
    signal_length 1 signal
  let signal := wr signal 0
    (rd signal 0 / c.EPSILON - 2 * c.DELTA * rd signal 1)
  let signal := forLoop signal_length 2 (fun index signal =>
    wr signal index
      (rd signal index / c.EPSILON -
        c.DELTA * (rd signal (index + 1) + rd signal (index - 1))))
    signal_length 2 signal
  let signal := forLoop (signal_length - 2) 2 (fun index signal =>
    wr signal index
      (rd signal index - c.GAMMA * (rd signal (index - 1) + rd signal (index + 1))))
    signal_length 1 signal
  let signal := wr signal (signal_length - 1)
    (rd signal (signal_length - 1) - 2 * c.GAMMA * rd signal (signal_length - 2))
  let signal := wr signal 0 (rd signal 0 - 2 * c.BETA * rd signal 1)
  let signal := forLoop signal_length 2 (fun index signal =>
    wr signal index
      (rd signal index - c.BETA * (rd signal (index + 1) + rd signal (index - 1))))
    signal_length 2 signal
  let signal := forLoop (signal_length - 2) 2 (fun index signal =>
    wr signal index
      (rd signal index - c.ALPHA * (rd signal (index - 1) + rd signal (index + 1))))
    signal_length 1 signal
  wr signal (signal_length - 1)
    (rd signal (signal_length - 1) - 2 * c.ALPHA * rd signal (signal_length - 2))

/-- `CDF97::QccWAVCDF97SynthesisSymmetricOddEven`. -/
def QccWAVCDF97SynthesisSymmetricOddEven (c : Lifting F) (signal : List F)
    (signal_length : Nat) : List F :=
  let signal := forLoop (signal_length - 1) 2 (fun index signal =>
    wr signal index (rd signal index * (-c.EPSILON)))
    signal_length 1 signal
  let signal := wr signal 0
    (rd signal 0 / c.EPSILON - 2 * c.DELTA * rd signal 1)
  let signal := forLoop (signal_length - 2) 2 (fun index signal =>
    wr signal index
      (rd signal index / c.EPSILON -
        c.DELTA * (rd signal (index + 1) + rd signal (index - 1))))
    signal_length 2 signal
  let signal := wr signal (signal_length - 1)
    (rd signal (signal_length - 1) / c.EPSILON -
      2 * c.DELTA * rd signal (signal_length - 2))
  let signal := forLoop (signal_length - 1) 2 (fun index signal =>
    wr signal index
      (rd signal index - c.GAMMA * (rd signal (index - 1) + rd signal (index + 1))))
    signal_length 1 signal
  let signal := wr signal 0 (rd signal 0 - 2 * c.BETA * rd signal 1)
  let signal := forLoop (signal_length - 2) 2 (fun index signal =>
    wr signal index
      (rd signal index - c.BETA * (rd signal (index + 1) + rd signal (index - 1))))
    signal_length 2 signal
  let signal := wr signal (signal_length - 1)
    (rd signal (signal_length - 1) - 2 * c.BETA * rd signal (signal_length - 2))
  forLoop (signal_length - 1) 2 (fun index signal =>
    wr signal index
      (rd signal index - c.ALPHA * (rd signal (index - 1) + rd signal (index + 1))))
    signal_length 1 signal

/-- `CDF97::QccWAVCDF97AnalysisSymmetricOddEven`. -/
def QccWAVCDF97AnalysisSymmetricOddEven (c : Lifting F) (signal : List F)
    (signal_length : Nat) : List F :=
  let signal := forLoop (signal_length - 1) 2 (fun index signal =>
    wr signal index
      (rd signal index + c.ALPHA * (rd signal (index - 1) + rd signal (index + 1))))
    signal_length 1 signal
  let signal := wr signal 0 (rd signal 0 + 2 * c.BETA * rd signal 1)
  let signal := forLoop (signal_length - 2) 2 (fun index signal =>
    wr signal index
      (rd signal index + c.BETA * (rd signal (index + 1) + rd signal (index - 1))))
    signal_length 2 signal
  let signal := wr signal (signal_length - 1)
    (rd signal (signal_length - 1) + 2 * c.BETA * rd signal (signal_length - 2))
  let signal := forLoop (signal_length - 1) 2 (fun index signal =>
    wr signal index
      (rd signal index + c.GAMMA * (rd signal (index - 1) + rd signal (index + 1))))
    signal_length 1 signal
  let signal := wr signal 0
    (c.EPSILON * (rd signal 0 + 2 * c.DELTA * rd signal 1))
  let signal := forLoop (signal_length - 2) 2 (fun index signal =>
    wr signal index
      (c.EPSILON * (rd signal index +
        c.DELTA * (rd signal (index + 1) + rd signal (index - 1)))))
    signal_length 2 signal
  let signal := wr signal (signal_length - 1)
    (c.EPSILON * (rd signal (signal_length - 1) +
      2 * c.DELTA * rd signal (signal_length - 2)))
  forLoop (signal_length - 1) 2 (fun index signal =>
    wr signal index (rd signal index / (-c.EPSILON)))
    signal_length 1 signal

end Kernels

/-! ## Gather and scatter (`CDF97.cpp`, lines 286-331) -/

section GatherScatter

variable {F : Type} [Zero F]

/-- The loop `for (i = 0; i < count; i++) dest[counter++] = orig[i*2 + off]`
of the gather functions; the state is `(dest, counter)`. -/
def gather_loop (orig : List F) (off count : Nat) (st : List F × Nat) : List F × Nat :=
  forLoop count 1 (fun i st => (wr st.1 st.2 (rd orig (i * 2 + off)), st.2 + 1))
    count 0 st

/-- The loop `for (i = 0; i < count; i++) dest[i*2 + off] = orig[counter++]`
of the scatter functions; the state is `(dest, counter)`. -/
def scatter_loop (orig : List F) (off count : Nat) (st : List F × Nat) : List F × Nat :=
  forLoop count 1 (fun i st => (wr st.1 (i * 2 + off) (rd orig st.2), st.2 + 1))
    count 0 st

/-- `CDF97::m_gather_even`; the result is the array at `dest` afterwards. -/
def m_gather_even (dest orig : List F) (len : Nat) : List F :=
  let low_count := len / 2
  let high_count := len / 2
  let st := gather_loop orig 0 low_count (dest, 0)
  (gather_loop orig 1 high_count st).1

/-- `CDF97::m_gather_odd`. -/
def m_gather_odd (dest orig : List F) (len : Nat) : List F :=
  let low_count := len / 2 + 1
  let high_count := len / 2
  let st := gather_loop orig 0 low_count (dest, 0)
  (gather_loop orig 1 high_count st).1

/-- `CDF97::m_scatter_even`. -/
def m_scatter_even (dest orig : List F) (len : Nat) : List F :=
  let low_count := len / 2
  let high_count := len / 2
  let st := scatter_loop orig 0 low_count (dest, 0)
  (scatter_loop orig 1 high_count st).1

/-- `CDF97::m_scatter_odd`. -/
def m_scatter_odd (dest orig : List F) (len : Nat) : List F :=
  let low_count := len / 2 + 1
  let high_count := len / 2
  let st := scatter_loop orig 0 low_count (dest, 0)
  (scatter_loop orig 1 high_count st).1

end GatherScatter


/-! ## Lifting steps

The statements of the kernels are of three shapes: a loop over every other
index, an assignment to `signal[0]` that reads `signal[1]`, and an assignment to
`signal[signal_length - 1]` that reads `signal[signal_length - 2]`.  The
following names for these shapes are used to reason about the kernels; each
kernel above is, by unfolding, a composition of them. -/

section Steps

variable {F : Type} [Zero F]

/-- The loop `for (index = lo; index < hi; index += 2)` whose body assigns
`phi(signal[index], signal[index - 1], signal[index + 1])` to `signal[index]`. -/
def loopStep (phi : F → F → F → F) (hi fuel lo : Nat) (signal : List F) : List F :=
  forLoop hi 2 (fun index signal =>
    wr signal index (phi (rd signal index) (rd signal (index - 1)) (rd signal (index + 1))))
    fuel lo signal

/-- The assignment `signal[0] = psi(signal[0], signal[1])`. -/
def firstStep (psi : F → F → F) (signal : List F) : List F :=
  wr signal 0 (psi (rd signal 0) (rd signal 1))

/-- The assignment `signal[n - 1] = psi(signal[n - 1], signal[n - 2])`. -/
def lastStep (psi : F → F → F) (n : Nat) (signal : List F) : List F :=
  wr signal (n - 1) (psi (rd signal (n - 1)) (rd signal (n - 2)))

/-- The left neighbour `signal[j - 1]` of an index, absent for `j = 0`. -/
def leftOf (signal : List F) (j : Nat) : F := if j = 0 then 0 else rd signal (j - 1)

/-- A transformation `T` of arrays is a lifting step of parity `p` on the first
`n` elements with update rule `u`: it keeps the length, rewrites every element
of index `j < n`, `j % 2 = p`, to `u j` of the element and its two neighbours,
and leaves every other element alone. -/
def IsLift (p n : Nat) (u : Nat → F → F → F → F) (T : List F → List F) : Prop :=
  ∀ l : List F, n ≤ l.length →
    (T l).length = l.length ∧
    ∀ j, rd (T l) j =
      if j < n ∧ j % 2 = p then u j (rd l j) (leftOf l j) (rd l (j + 1)) else rd l j

end Steps

/-! ## Copying -/

section Copy

variable {F : Type} [Zero F]

/-- `std::memcpy(dst, src, n * sizeof(T))`: the first `n` elements of `src` are
copied, element by element, to the first `n` places of `dst`. -/
def memcpy (dst src : List F) (n : Nat) : List F :=
  forLoop n 1 (fun k dst => wr dst k (rd src k)) n 0 dst

/-- A call `f(p + k, ...)` that writes through the pointer `p + k`: `f` runs on
the part of the array from index `k` on and the part before it is untouched. -/
def through (p : List F) (k : Nat) (f : List F → List F) : List F :=
  p.take k ++ f (p.drop k)

end Copy

/-! ## Top header of the chunked bitstream (`SPECK3D_OMP_C.cpp`, lines 171-218) -/

/-- `speck::dims_type`, a `std::array<size_t, 3>`. -/
structure dims_type where
  x : Nat
  y : Nat
  z : Nat
deriving DecidableEq, Repr

/-- Modelled from the spec: the result codes `speck::RTNType` (`speck_helper.h`
is not among the sources), those of section 6 together with the ones the
sources name. -/
inductive RTNType where
  | Good
  | InvalidParam
  | WrongSize
  | VersionMismatch
  | DimMismatch
  | CompressionError
  | BitBudgetMet
  | ZSTDMismatch
  | ZSTDError
  | Error
deriving DecidableEq, Repr

/-- What `SPECK3D_OMP_C.cpp` and `SPECK3D_Decompressor.cpp` use and the sources
do not contain: the version macros, the build flags `USE_ZSTD` and `QZ_TERM`,
the member constant `m_header_magic` (`SPECK3D_OMP_C.h`), the helpers
`speck::chunk_volume` (a chunk is an array of six `size_t`),
`speck::gather_chunk` and `speck::pack_8_booleans`, and the readers
`SPECK_Storage::get_speck_stream_size` and `SPERR::get_sperr_stream_size`.
They are parameters. -/
structure Env where
  SPERR_VERSION_MAJOR : Nat
  SPERR_VERSION_MINOR : Nat
  USE_ZSTD : Bool
  QZ_TERM : Bool
  m_header_magic : Nat
  chunk_volume : dims_type → dims_type → List (List Nat)
  gather_chunk : List ℚ → dims_type → List Nat → List ℚ
  pack_8_booleans : List Bool → Nat
  get_speck_stream_size : List Nat → Nat
  get_sperr_stream_size : List Nat → Nat

/-- The data members of `SPECK3D_OMP_C`; a sample buffer `speck::vecd_type` is a
list of (exact) numbers and a byte stream `speck::vec8_type` a list of bytes.
`m_bpp` belongs to the build without `QZ_TERM`; `m_qz_lev`, `m_tol` and
`m_outlier_stats` to the build with it. -/
structure SPECK3D_OMP_C where
  m_dims : dims_type
  m_chunk_dims : dims_type
  m_num_threads : Nat
  m_chunk_buffers : List (List ℚ)
  m_encoded_streams : List (List Nat)
  m_bpp : ℚ
  m_qz_lev : Int
  m_tol : ℚ
  m_outlier_stats : List (Nat × Nat)

/-- The conversion to `uint32_t`. -/
def uint32_t (v : Nat) : Nat := v % 2 ^ 32

/-- The four bytes of a `uint32_t` in memory, least significant first (the
byte order of the hosts the code is built for). -/
def bytes_of_uint32 (v : Nat) : List Nat :=
  [v % 256, v / 256 % 256, v / 65536 % 256, v / 16777216 % 256]

/-- The array `vcdim` of `m_generate_header` as it lies in memory. -/
def vcdim_bytes (st : SPECK3D_OMP_C) : List Nat :=
  bytes_of_uint32 (uint32_t st.m_dims.x) ++ bytes_of_uint32 (uint32_t st.m_dims.y) ++
  bytes_of_uint32 (uint32_t st.m_dims.z) ++ bytes_of_uint32 (uint32_t st.m_chunk_dims.x) ++
  bytes_of_uint32 (uint32_t st.m_chunk_dims.y) ++ bytes_of_uint32 (uint32_t st.m_chunk_dims.z)

/-- The body of `SPECK3D_OMP_C::m_generate_header`: the header it returns
together with the final write position `loc` (0 on the early return). -/
def m_generate_header_run (env : Env) (st : SPECK3D_OMP_C) : List Nat × Nat :=
  let chunks := env.chunk_volume st.m_dims st.m_chunk_dims
  let num_chunks := chunks.length
  if num_chunks ≠ st.m_encoded_streams.length then ([], 0)
  else
    let header_size := env.m_header_magic + num_chunks * 4
    let header := List.replicate header_size 0
    let header := wr header 0 ((10 * env.SPERR_VERSION_MAJOR + env.SPERR_VERSION_MINOR) % 256)
    let loc := 1
    let b := [env.USE_ZSTD, true, false, false, false, false, false, false]
    let header := wr header loc (env.pack_8_booleans b)
    let loc := loc + 1
    let header := through header loc (fun p => memcpy p (vcdim_bytes st) 24)
    let loc := loc + 24
    st.m_encoded_streams.foldl (fun (acc : List Nat × Nat) stream =>
      let len := uint32_t stream.length
      (through acc.1 acc.2 (fun p => memcpy p (bytes_of_uint32 len) 4), acc.2 + 4))
      (header, loc)

/-- `SPECK3D_OMP_C::m_generate_header`. -/
def m_generate_header (env : Env) (st : SPECK3D_OMP_C) : List Nat :=
  (m_generate_header_run env st).1

/-- The condition of the final `assert( loc == header_size )` of
`m_generate_header`. -/
def m_generate_header_assert (env : Env) (st : SPECK3D_OMP_C) : Prop :=
  (m_generate_header_run env st).2 =
    env.m_header_magic + (env.chunk_volume st.m_dims st.m_chunk_dims).length * 4

instance (env : Env) (st : SPECK3D_OMP_C) : Decidable (m_generate_header_assert env st) :=
  inferInstanceAs (Decidable (_ = _))

/-- Modelled from the spec: `speck::pack_8_booleans` (`speck_helper`, not among
the sources) after section 4.5, "bit 0 = generic-compression applied, bit 1 = 3D
payload": the boolean of index `i` is bit `i` of the byte. -/
def spec_pack_8_booleans (b : List Bool) : Nat :=
  (List.range 8).foldl (fun acc i => acc + (if b.getD i false then 2 ^ i else 0)) 0

/-- Modelled from the spec: `speck::chunk_volume` (`speck_helper`, not among the
sources) after section 4.5: per axis the offsets `0, C, 2C, ...` below `D`, the
last chunk clipped to `D`; chunks in z-outer, y-middle, x-inner order, each as
`(ox, lx, oy, ly, oz, lz)`. -/
def spec_chunk_volume (vol chunk : dims_type) : List (List Nat) :=
  let segs := fun (D C : Nat) =>
    (List.range ((D + C - 1) / C)).map (fun i => (i * C, min C (D - i * C)))
  (segs vol.z chunk.z).flatMap (fun sz =>
    (segs vol.y chunk.y).flatMap (fun sy =>
      (segs vol.x chunk.x).map (fun sx => [sx.1, sx.2, sy.1, sy.2, sz.1, sz.2])))

/-- Modelled from the spec: `speck::gather_chunk` (`speck_helper`, not among the
sources) after section 4.5, "extract its samples (dense copy with x fastest)";
a chunk is `(ox, lx, oy, ly, oz, lz)`. -/
def spec_gather_chunk (vol : List ℚ) (dims : dims_type) (chunk : List Nat) : List ℚ :=
  (List.range (rd chunk 5)).flatMap (fun z =>
    (List.range (rd chunk 3)).flatMap (fun y =>
      (List.range (rd chunk 1)).map (fun x =>
        rd vol (((rd chunk 4 + z) * dims.y + (rd chunk 2 + y)) * dims.x + (rd chunk 0 + x)))))

/-- The value of four bytes in memory read as a `uint32_t`, least significant
byte first. -/
def uint32_of_bytes (b : List Nat) : Nat :=
  rd b 0 + 256 * rd b 1 + 65536 * rd b 2 + 16777216 * rd b 3

/-- Modelled from the spec: `get_speck_stream_size` after section 4.6, a fixed
24-byte header whose last field is the encoded bit count: the stream is the
header and the bits, packed into bytes.  The field is taken as the 32-bit
integer at byte 20. -/
def spec_get_speck_stream_size (p : List Nat) : Nat :=
  24 + (uint32_of_bytes (p.drop 20) + 7) / 8

/-- An environment for examples: version 0.1, no ZSTD, no `QZ_TERM`, the
helpers as modelled from the spec, and `m_header_magic = 26`, the size of the
fixed fields that `m_generate_header` writes (1 + 1 + 24 bytes). -/
def exampleEnv : Env where
  SPERR_VERSION_MAJOR := 0
  SPERR_VERSION_MINOR := 1
  USE_ZSTD := false
  QZ_TERM := false
  m_header_magic := 26
  chunk_volume := spec_chunk_volume
  gather_chunk := spec_gather_chunk
  pack_8_booleans := spec_pack_8_booleans
  get_speck_stream_size := spec_get_speck_stream_size
  get_sperr_stream_size := spec_get_speck_stream_size

/-- A compressor state for examples: an 8 x 8 x 8 volume in one chunk with an
encoded stream of three bytes. -/
def exampleState : SPECK3D_OMP_C where
  m_dims := ⟨8, 8, 8⟩
  m_chunk_dims := ⟨8, 8, 8⟩
  m_num_threads := 1
  m_chunk_buffers := []
  m_encoded_streams := [[1, 2, 3]]
  m_bpp := 0
  m_qz_lev := 0
  m_tol := 0
  m_outlier_stats := []

/-! ## The chunked compressor (`SPECK3D_OMP_C.cpp`, lines 10-168) -/

/-- `SPECK3D_OMP_C::set_dims`. -/
def set_dims (st : SPECK3D_OMP_C) (dims : dims_type) : SPECK3D_OMP_C :=
  { st with m_dims := dims }

/-- `SPECK3D_OMP_C::prefer_chunk_dims`. -/
def prefer_chunk_dims (st : SPECK3D_OMP_C) (dims : dims_type) : SPECK3D_OMP_C :=
  { st with m_chunk_dims := dims }

/-- `SPECK3D_OMP_C::set_num_threads`. -/
def set_num_threads (st : SPECK3D_OMP_C) (n : Nat) : SPECK3D_OMP_C :=
  if n > 0 then { st with m_num_threads := n } else st

/-- `SPECK3D_OMP_C::set_qz_level` (build with `QZ_TERM`). -/
def set_qz_level (st : SPECK3D_OMP_C) (q : Int) : SPECK3D_OMP_C :=
  { st with m_qz_lev := q }

/-- `SPECK3D_OMP_C::set_tolerance` (build with `QZ_TERM`); the `double` is an
exact number. -/
def set_tolerance (st : SPECK3D_OMP_C) (t : ℚ) : RTNType × SPECK3D_OMP_C :=
  if t ≤ 0 then (RTNType.InvalidParam, st)
  else (RTNType.Good, { st with m_tol := t })

/-- What one iteration of the loop of `compress` gets from its
`SPECK3D_Compressor` (a class that is not among the sources): the result of
`compress()`, the stream of `view_encoded_bitstream()` and the pair of
`get_outlier_stats()`. -/
structure ChunkOutcome where
  rtn : RTNType
  stream : List Nat
  outlier_stats : Nat × Nat

/-- The state of the loop of `compress`: the chunk buffers (moved from, one by
one), `chunk_rtn`, the encoded streams and the outlier statistics. -/
structure CompressLoop where
  m_chunk_buffers : List (List ℚ)
  chunk_rtn : List RTNType
  m_encoded_streams : List (List Nat)
  m_outlier_stats : List (Nat × Nat)

/-- `SPECK3D_OMP_C::compress`.  `outcome i` is what the compressor instance
that handles chunk `i` returns; the parallel loop writes slot `i` in iteration
`i` and is run in index order.  A buffer that was moved from is empty. -/
def compress (env : Env) (outcome : Nat → ChunkOutcome) (st : SPECK3D_OMP_C) :
    RTNType × SPECK3D_OMP_C :=
  let chunks := env.chunk_volume st.m_dims st.m_chunk_dims
  let num_chunks := chunks.length
  if st.m_chunk_buffers.length ≠ num_chunks then (RTNType.Error, st)
  else if st.m_chunk_buffers.any (fun v => v.isEmpty) then (RTNType.Error, st)
  else
    let start : CompressLoop :=
      { m_chunk_buffers := st.m_chunk_buffers
        chunk_rtn := List.replicate num_chunks RTNType.Good
        m_encoded_streams := List.replicate num_chunks []
        m_outlier_stats :=
          if env.QZ_TERM then List.replicate num_chunks (0, 0) else st.m_outlier_stats }
    let fin := forLoop num_chunks 1 (fun i (s : CompressLoop) =>
      { m_chunk_buffers := wr s.m_chunk_buffers i []
        chunk_rtn := wr s.chunk_rtn i (outcome i).rtn
        m_encoded_streams := wr s.m_encoded_streams i (outcome i).stream
        m_outlier_stats :=
          if env.QZ_TERM then wr s.m_outlier_stats i (outcome i).outlier_stats
          else s.m_outlier_stats }) num_chunks 0 start
    let st' : SPECK3D_OMP_C :=
      { st with m_chunk_buffers := fin.m_chunk_buffers
                m_encoded_streams := fin.m_encoded_streams
                m_outlier_stats := fin.m_outlier_stats }
    if fin.chunk_rtn.any (fun r => r ≠ RTNType.Good) then (RTNType.Error, st')
    else if fin.m_encoded_streams.any (fun s => s.isEmpty) then (RTNType.Error, st')
    else (RTNType.Good, st')

/-- `SPECK3D_OMP_C::get_encoded_bitstream`; `std::copy` of a whole vector to a
position is `memcpy` of its length through that position. -/
def get_encoded_bitstream (env : Env) (st : SPECK3D_OMP_C) : List Nat :=
  let header := m_generate_header env st
  if header.isEmpty then []
  else
    let total_size := st.m_encoded_streams.foldl (fun a b => a + b.length) header.length
    let buf : List Nat := List.replicate total_size 0
    let buf := memcpy buf header header.length
    let itr := header.length
    (st.m_encoded_streams.foldl (fun (acc : List Nat × Nat) s =>
      (through acc.1 acc.2 (fun p => memcpy p s s.length), acc.2 + s.length)) (buf, itr)).1

/-! ## The decompressor (`SPECK3D_Decompressor.cpp`, lines 7-45) -/

/-- The data members of `SPECK3D_Decompressor` that `use_bitstream`, `set_bpp`
and the output stage use: a stream `{pointer, size}` is the list of its bytes
(`{nullptr, 0}` the empty list), an outlier a location and a signed error, and
`m_cdf_data` the samples held by `m_cdf`. -/
structure SPECK3D_Decompressor where
  m_speck_stream : List Nat
  m_sperr_stream : List Nat
  m_sperr_los : List (Nat × ℚ)
  m_bpp : ℚ
  m_cdf_data : List ℚ

/-- `SPECK3D_Decompressor::use_bitstream`; `p` is the memory at the pointer. -/
def use_bitstream (env : Env) (st : SPECK3D_Decompressor) (p : List Nat) (len : Nat) :
    RTNType × SPECK3D_Decompressor :=
  let st := { st with m_speck_stream := [] }
  let speck_size := env.get_speck_stream_size p
  if speck_size > len then (RTNType.WrongSize, st)
  else
    let buf : List Nat := List.replicate speck_size 0
    let buf := memcpy buf p speck_size
    let st := { st with m_speck_stream := buf }
    if env.QZ_TERM then
      let st := { st with m_sperr_stream := [] }
      if speck_size < len then
        let sperr_p := p.drop speck_size
        let sperr_size := env.get_sperr_stream_size sperr_p
        if sperr_size ≠ len - speck_size then (RTNType.WrongSize, st)
        else
          let buf : List Nat := List.replicate sperr_size 0
          let buf := memcpy buf sperr_p sperr_size
          (RTNType.Good, { st with m_sperr_stream := buf, m_sperr_los := [] })
      else (RTNType.Good, st)
    else (RTNType.Good, st)

/-- A decompressor state for examples. -/
def exampleDecompressor : SPECK3D_Decompressor where
  m_speck_stream := [9, 9]
  m_sperr_stream := []
  m_sperr_los := []
  m_bpp := 1
  m_cdf_data := []

/-- A SPECK stream for examples: a 24-byte header that declares 16 bits, and
two bytes of payload. -/
def exampleStream : List Nat :=
  [8, 0, 0, 0, 8, 0, 0, 0, 8, 0, 0, 0, 0, 0, 0, 0, 0, 0, 0, 0, 16, 0, 0, 0, 170, 85]

/-- A compressor state for examples whose x extent needs 33 bits: a volume of
2^32 x 1 x 1 samples in one chunk. -/
def wideState : SPECK3D_OMP_C :=
  { exampleState with m_dims := ⟨4294967296, 1, 1⟩, m_chunk_dims := ⟨4294967296, 1, 1⟩ }

/-- Chunk compressors for examples that all succeed: chunk `i` yields the
one-byte stream `[i + 1]`. -/
def goodOutcome : Nat → ChunkOutcome :=
  fun i => { rtn := RTNType.Good, stream := [i + 1], outlier_stats := (0, 0) }

/-- Chunk compressors for examples of which the one of chunk 0 fails with an
empty stream and the others succeed with the stream `[7]`. -/
def failingOutcome : Nat → ChunkOutcome :=
  fun i => if i = 0 then { rtn := RTNType.CompressionError, stream := [], outlier_stats := (0, 0) }
    else { rtn := RTNType.Good, stream := [7], outlier_stats := (0, 0) }

/-- A compressor state for examples that is ready for `compress`: an
8 x 8 x 8 volume in one chunk whose buffer is filled. -/
def readyState : SPECK3D_OMP_C :=
  { exampleState with m_chunk_buffers := [List.replicate 512 1], m_encoded_streams := [] }

/-! ## The 2D transform (`CDF97.cpp`, lines 26-244) -/

section Transform

variable {F : Type} [Field F]

/-- The data members of `speck::CDF97`. -/
structure CDF97 (F : Type) where
  m_dim_x : Nat
  m_dim_y : Nat
  m_dim_z : Nat
  m_data_buf : List F
  m_data_mean : F

/-- The loop `for (k = 0; k < n; k++) sum += buf[counter++]` of `m_calc_mean`;
the state is `(sum, counter)`. -/
def sum_loop (buf : List F) (n : Nat) (st : F × Nat) : F × Nat :=
  forLoop n 1 (fun _ (a : F × Nat) => (a.1 + rd buf a.2, a.2 + 1)) n 0 st

/-- One round of the mean loops of `m_calc_mean`: sum `n` elements of `buf`
from `counter1` on and store `sum * w` at `means[counter2++]`; the state is
`(means, counter1, counter2)`. -/
def mean_step (buf : List F) (n : Nat) (w : F) (s : List F × Nat × Nat) : List F × Nat × Nat :=
  let r := sum_loop buf n (0, s.2.1)
  (wr s.1 s.2.2 (r.1 * w), r.2, s.2.2 + 1)

/-- `CDF97::m_calc_mean`. -/
def m_calc_mean (st : CDF97 F) : CDF97 F :=
  let row_means : List F := List.replicate (st.m_dim_y * st.m_dim_z) 0
  let dim_x1 : F := 1 / (st.m_dim_x : F)
  let s1 := forLoop st.m_dim_z 1 (fun _ s =>
    forLoop st.m_dim_y 1 (fun _ s => mean_step st.m_data_buf st.m_dim_x dim_x1 s)
      st.m_dim_y 0 s) st.m_dim_z 0 (row_means, 0, 0)
  let row_means := s1.1
  let layer_means : List F := List.replicate st.m_dim_z 0
  let dim_y1 : F := 1 / (st.m_dim_y : F)
  let s2 := forLoop st.m_dim_z 1 (fun _ s => mean_step row_means st.m_dim_y dim_y1 s)
    st.m_dim_z 0 (layer_means, 0, 0)
  let layer_means := s2.1
  let sum := forLoop st.m_dim_z 1 (fun z (sum : F) => sum + rd layer_means z) st.m_dim_z 0 0
  { st with m_data_mean := sum / (st.m_dim_z : F) }

/-- The pre-processing of `CDF97::dwt2d` (lines 31-34): compute the mean and
subtract it from every sample. -/
def dwt2d_preprocess (st : CDF97 F) : CDF97 F :=
  let st := m_calc_mean st
  let num_of_vals := st.m_dim_x * st.m_dim_y * st.m_dim_z
  { st with m_data_buf := forLoop num_of_vals 1 (fun i buf =>
      wr buf i (rd buf i - st.m_data_mean)) num_of_vals 0 st.m_data_buf }

/-- The loop `for (y = 0; y < len_y; y++) buf_ptr[y] = plane[y * m_dim_x + x]`. -/
def read_column (m_dim_x : Nat) (plane : List F) (x len_y : Nat) : List F :=
  forLoop len_y 1 (fun y buf => wr buf y (rd plane (y * m_dim_x + x))) len_y 0
    (List.replicate len_y 0)

/-- The loop `for (y = 0; y < len_y; y++) plane[y * m_dim_x + x] = buf_ptr2[y]`. -/
def write_column (m_dim_x : Nat) (plane : List F) (x len_y : Nat) (buf2 : List F) : List F :=
  forLoop len_y 1 (fun y plane => wr plane (y * m_dim_x + x) (rd buf2 y)) len_y 0 plane

/-- `CDF97::m_dwt2d_one_level`.  Of each half of the scratch buffer the model
keeps the part that an iteration uses, `len` elements, fresh in every
iteration (an iteration overwrites that part before it reads it). -/
def m_dwt2d_one_level (c : Lifting F) (m_dim_x : Nat) (plane : List F) (len_x len_y : Nat) :
    List F :=
  let plane :=
    if len_x % 2 = 0 then
      forLoop len_y 1 (fun i plane =>
        let buf := memcpy (List.replicate len_x 0) (plane.drop (i * m_dim_x)) len_x
        let buf := QccWAVCDF97AnalysisSymmetricEvenEven c buf len_x
        through plane (i * m_dim_x) (fun pos => m_gather_even pos buf len_x)) len_y 0 plane
    else
      forLoop len_y 1 (fun i plane =>
        let buf := memcpy (List.replicate len_x 0) (plane.drop (i * m_dim_x)) len_x
        let buf := QccWAVCDF97AnalysisSymmetricOddEven c buf len_x
        through plane (i * m_dim_x) (fun pos => m_gather_odd pos buf len_x)) len_y 0 plane
  if len_y % 2 = 0 then
    forLoop len_x 1 (fun x plane =>
      let buf := read_column m_dim_x plane x len_y
      let buf := QccWAVCDF97AnalysisSymmetricEvenEven c buf len_y
      let buf2 := m_gather_even (List.replicate len_y 0) buf len_y
      write_column m_dim_x plane x len_y buf2) len_x 0 plane
  else
    forLoop len_x 1 (fun x plane =>
      let buf := read_column m_dim_x plane x len_y
      let buf := QccWAVCDF97AnalysisSymmetricOddEven c buf len_y
      let buf2 := m_gather_odd (List.replicate len_y 0) buf len_y
      write_column m_dim_x plane x len_y buf2) len_x 0 plane

/-- `CDF97::m_idwt2d_one_level`, with the scratch buffer as in
`m_dwt2d_one_level`. -/
def m_idwt2d_one_level (c : Lifting F) (m_dim_x : Nat) (plane : List F) (len_x len_y : Nat) :
    List F :=
  let plane :=
    if len_y % 2 = 0 then
      forLoop len_x 1 (fun x plane =>
        let buf := read_column m_dim_x plane x len_y
        let buf2 := m_scatter_even (List.replicate len_y 0) buf len_y
        let buf2 := QccWAVCDF97SynthesisSymmetricEvenEven c buf2 len_y
        write_column m_dim_x plane x len_y buf2) len_x 0 plane
    else
      forLoop len_x 1 (fun x plane =>
        let buf := read_column m_dim_x plane x len_y
        let buf2 := m_scatter_odd (List.replicate len_y 0) buf len_y
        let buf2 := QccWAVCDF97SynthesisSymmetricOddEven c buf2 len_y
        write_column m_dim_x plane x len_y buf2) len_x 0 plane
  if len_x % 2 = 0 then
    forLoop len_y 1 (fun i plane =>
      let buf := m_scatter_even (List.replicate len_x 0) (plane.drop (i * m_dim_x)) len_x
      let buf := QccWAVCDF97SynthesisSymmetricEvenEven c buf len_x
      through plane (i * m_dim_x) (fun pos => memcpy pos buf len_x)) len_y 0 plane
  else
    forLoop len_y 1 (fun i plane =>
      let buf := m_scatter_odd (List.replicate len_x 0) (plane.drop (i * m_dim_x)) len_x
      let buf := QccWAVCDF97SynthesisSymmetricOddEven c buf len_x
      through plane (i * m_dim_x) (fun pos => memcpy pos buf len_x)) len_y 0 plane

/-- `CDF97::dwt2d`. -/
def dwt2d (c : Lifting F) (st : CDF97 F) : CDF97 F :=
  let st := dwt2d_preprocess st
  let num_level_xy := m_num_of_levels_xy st.m_dim_x st.m_dim_y
  { st with m_data_buf := forLoop num_level_xy 1 (fun lev buf =>
      let len_x := m_calc_approx_len st.m_dim_x lev
      let len_y := m_calc_approx_len st.m_dim_y lev
      m_dwt2d_one_level c st.m_dim_x buf len_x len_y) num_level_xy 0 st.m_data_buf }

/-- `CDF97::idwt2d`. -/
def idwt2d (c : Lifting F) (st : CDF97 F) : CDF97 F :=
  let num_level_xy := m_num_of_levels_xy st.m_dim_x st.m_dim_y
  let buf := forDown (fun lev buf =>
      let len_x := m_calc_approx_len st.m_dim_x lev
      let len_y := m_calc_approx_len st.m_dim_y lev
      m_idwt2d_one_level c st.m_dim_x buf len_x len_y) num_level_xy st.m_data_buf
  let num_of_vals := st.m_dim_x * st.m_dim_y * st.m_dim_z
  { st with m_data_buf := forLoop num_of_vals 1 (fun i buf =>
      wr buf i (rd buf i + st.m_data_mean)) num_of_vals 0 buf }

end Transform

/-- A plane of 9 x 10 samples for examples, sample `i` being `i^2 mod 17`. -/
def examplePlane : CDF97 ℚ where
  m_dim_x := 9
  m_dim_y := 10
  m_dim_z := 1
  m_data_buf := (List.range 90).map (fun i => ((i * i % 17 : Nat) : ℚ))
  m_data_mean := 0

/-! ## Lines of a plane

The passes of the 2D transform work line by line: a row or a column is read,
transformed and written back.  The following notions are used to reason about
them. -/

section Lines

variable {F : Type} [Zero F]

/-- The `n` elements of `p` at the places `idx 0, ..., idx (n - 1)`. -/
def lineOf (p : List F) (idx : Nat → Nat) (n : Nat) : List F :=
  (List.range n).map (fun k => rd p (idx k))

/-- `p'` is `p` with the line at the places `idx 0, ..., idx (n - 1)` replaced
by its image under `T`, and nothing else changed. -/
def LineUpdate (idx : Nat → Nat) (n : Nat) (T : List F → List F) (p p' : List F) : Prop :=
  p'.length = p.length ∧
  (∀ k, k < n → rd p' (idx k) = rd (T (lineOf p idx n)) k) ∧
  (∀ j, (∀ k, k < n → j ≠ idx k) → rd p' j = rd p j)

/-- `G dest orig n` writes the first `n` elements of `dest`, element `j` being
`orig[sigma j]`, and nothing else; `sigma` stays below `n`. -/
def IsRearr (sigma : Nat → Nat) (n : Nat) (G : List F → List F → Nat → List F) : Prop :=
  (∀ j, j < n → sigma j < n) ∧
  ∀ dest orig : List F, n ≤ dest.length →
    (G dest orig n).length = dest.length ∧
    ∀ j, rd (G dest orig n) j = if j < n then rd orig (sigma j) else rd dest j

end Lines

/-- The object that holds a buffer of `X * Y * Z` samples which all equal `v`,
with stored mean `mean`. -/
def constantPlane {F : Type} (X Y Z : Nat) (v mean : F) : CDF97 F where
  m_dim_x := X
  m_dim_y := Y
  m_dim_z := Z
  m_data_buf := List.replicate (X * Y * Z) v
  m_data_mean := mean

/-! ## Decompression (`SPECK3D_Decompressor.cpp`, lines 48-115) -/

/-- `SPECK3D_Decompressor::get_decompressed_volume`, which returns the pair of
the output buffer and its length (`{nullptr, 0}` the empty list and 0).  The
volume that `m_cdf.get_read_only_data()` hands out is `m_cdf_data`; the
conversion of the samples to the output type `T` is not modelled. -/
def get_decompressed_volume (env : Env) (st : SPECK3D_Decompressor) : List ℚ × Nat :=
  let vol := st.m_cdf_data
  let len := vol.length
  if len = 0 then ([], 0)
  else
    let out_buf : List ℚ := List.replicate len 0
    let out_buf := memcpy out_buf vol len
    let out_buf :=
      if env.QZ_TERM then
        st.m_sperr_los.foldl (fun out_buf outlier =>
          wr out_buf outlier.1 (rd out_buf outlier.1 + outlier.2)) out_buf
      else out_buf
    (out_buf, len)

/-- What `SPECK3D_Decompressor::decompress` calls and the sources do not
contain: the methods of the SPECK decoder `m_decoder`, of the wavelet engine
`m_cdf` and of the outlier decoder `m_sperr`.  They are parameters; each takes
what the object it belongs to was handed before the call (the stream it parsed,
the bit budget, the dims, the mean and the coefficients). -/
structure Decoders where
  parse_encoded_bitstream : List Nat → RTNType
  get_dims : List Nat → dims_type
  decode : List Nat → Nat → RTNType
  get_image_mean : List Nat → ℚ
  release_data : List Nat → Nat → List ℚ
  idwt3d : dims_type → ℚ → List ℚ → List ℚ
  sperr_parse_encoded_bitstream : List Nat → RTNType
  sperr_decode : List Nat → RTNType
  release_outliers : List Nat → List (Nat × ℚ)

/-- `SPECK3D_Decompressor::decompress`; `speck::empty_buf` holds of the empty
stream. -/
def decompress (env : Env) (dec : Decoders) (st : SPECK3D_Decompressor) :
    RTNType × SPECK3D_Decompressor :=
  if st.m_speck_stream.length = 0 then (RTNType.Error, st)
  else
    let rtn := dec.parse_encoded_bitstream st.m_speck_stream
    if rtn ≠ RTNType.Good then (rtn, st)
    else
      let dims := dec.get_dims st.m_speck_stream
      let total_vals := dims.x * dims.y * dims.z
      let budget := ⌊st.m_bpp * (total_vals : ℚ)⌋₊
      let rtn := dec.decode st.m_speck_stream budget
      if rtn ≠ RTNType.Good then (rtn, st)
      else
        let mean := dec.get_image_mean st.m_speck_stream
        let coeffs := dec.release_data st.m_speck_stream budget
        let st := { st with m_cdf_data := dec.idwt3d dims mean coeffs }
        if env.QZ_TERM then
          if st.m_sperr_stream.length ≠ 0 then
            let rtn := dec.sperr_parse_encoded_bitstream st.m_sperr_stream
            if rtn ≠ RTNType.Good then (rtn, st)
            else
              let rtn := dec.sperr_decode st.m_sperr_stream
              if rtn ≠ RTNType.Good then (rtn, st)
              else (RTNType.Good, { st with m_sperr_los := dec.release_outliers st.m_sperr_stream })
          else (RTNType.Good, st)
        else (RTNType.Good, st)

/-- Modelled from the spec: the outliers of section 4.4 (the code that finds
them, in the compressor of a chunk and in SPERR, is not among the sources):
"any position whose absolute residual exceeds the user-provided tolerance is
recorded as an outlier (location index, signed error)", the residual being
"original minus reconstructed". -/
def spec_outliers (tol : ℚ) (orig recon : List ℚ) : List (Nat × ℚ) :=
  ((List.range recon.length).filter (fun i => decide (tol < |rd orig i - rd recon i|))).map
    (fun i => (i, rd orig i - rd recon i))

/-- Modelled from the spec: what section 4.4 promises of the coded outliers,
"the encoder ends when every outlier's reconstructed error magnitude is within
tolerance": the decoded list has the locations of the recorded list, in its
order, and each decoded error is within the tolerance of the recorded one. -/
def spec_sperr_decoded (tol : ℚ) : List (Nat × ℚ) → List (Nat × ℚ) → Bool
  | [], [] => true
  | r :: rs, d :: ds =>
    decide (d.1 = r.1) && decide (|d.2 - r.2| ≤ tol) && spec_sperr_decoded tol rs ds
  | _, _ => false

/-- An environment for examples of the build with `QZ_TERM`. -/
def qzEnv : Env := { exampleEnv with QZ_TERM := true }

/-- Decoders for examples that accept every stream and decode every stream to
the volume `[1, 2, 2]` without outliers. -/
def acceptingDecoders : Decoders where
  parse_encoded_bitstream := fun _ => RTNType.Good
  get_dims := fun _ => ⟨3, 1, 1⟩
  decode := fun _ _ => RTNType.Good
  get_image_mean := fun _ => 0
  release_data := fun _ _ => [1, 2, 2]
  idwt3d := fun _ _ coeffs => coeffs
  sperr_parse_encoded_bitstream := fun _ => RTNType.Good
  sperr_decode := fun _ => RTNType.Good
  release_outliers := fun _ => []

/-- A decompressor for examples after a decompression in the build with
`QZ_TERM`: it holds the reconstruction `[1, 2, 2]` and one outlier, of signed
error `5 / 2` at location 1. -/
def correctedDecompressor : SPECK3D_Decompressor :=
  { exampleDecompressor with m_cdf_data := [1, 2, 2], m_sperr_los := [(1, 5 / 2)] }

/-- A bitstream for examples of the build with `QZ_TERM`: the SPECK stream
`exampleStream` followed by three bytes that are no SPERR stream of three
bytes. -/
def brokenStream : List Nat := exampleStream ++ [1, 2, 3]

/-- Decoders for examples of the build with `QZ_TERM`: they accept every stream,
take every SPECK stream for an 8 x 8 x 8 volume whose inverse transform gives
512 samples that all equal 2, and take every SPERR stream for one outlier, of
signed error `5 / 2` at location 1. -/
def outlierDecoders : Decoders where
  parse_encoded_bitstream := fun _ => RTNType.Good
  get_dims := fun _ => ⟨8, 8, 8⟩
  decode := fun _ _ => RTNType.Good
  get_image_mean := fun _ => 0
  release_data := fun _ _ => List.replicate 512 0
  idwt3d := fun _ _ _ => List.replicate 512 2
  sperr_parse_encoded_bitstream := fun _ => RTNType.Good
  sperr_decode := fun _ => RTNType.Good
  release_outliers := fun _ => [(1, 5 / 2)]

/-- A bitstream for examples of the build with `QZ_TERM`: the SPECK stream
`exampleStream` followed by a SPERR stream of 25 bytes, a 24-byte header that
declares 8 bits and one byte of payload. -/
def correctedStream : List Nat :=
  exampleStream ++
    [0, 0, 0, 0, 0, 0, 0, 0, 0, 0, 0, 0, 0, 0, 0, 0, 0, 0, 0, 0, 8, 0, 0, 0, 77]

/-- One decompressor of the build with `QZ_TERM` that is used for two bitstreams
in turn; this is its state after `use_bitstream` on `correctedStream` (51 bytes,
with a SPERR part). -/
def reusedAfterUse1 : SPECK3D_Decompressor :=
  (use_bitstream qzEnv exampleDecompressor correctedStream 51).2

/-- The reused decompressor after `decompress` of the first bitstream. -/
def reusedAfterDecompress1 : SPECK3D_Decompressor :=
  (decompress qzEnv outlierDecoders reusedAfterUse1).2

/-- The reused decompressor after `use_bitstream` on the second bitstream,
`exampleStream` (26 bytes, without a SPERR part). -/
def reusedAfterUse2 : SPECK3D_Decompressor :=
  (use_bitstream qzEnv reusedAfterDecompress1 exampleStream 26).2

/-- The reused decompressor after `decompress` of the second bitstream. -/
def reusedAfterDecompress2 : SPECK3D_Decompressor :=
  (decompress qzEnv outlierDecoders reusedAfterUse2).2

/-- A decompressor of the build with `QZ_TERM` that holds no outliers and is
used for the bitstream `exampleStream` alone. -/
def freshDecompressor : SPECK3D_Decompressor :=
  (decompress qzEnv outlierDecoders (use_bitstream qzEnv exampleDecompressor exampleStream 26).2).2

/-! ## Array accesses of the 2D transform (`CDF97.cpp`, lines 26-64, 119-244, 286-457)

The transform as the sequence of what it does to memory and of the kernel
calls it makes; the values it computes are above. -/

/-- What the 2D transform does, as far as memory safety goes: an access
`a[index]`, read or write, to an array (or part of an array) `a` of `size`
elements, and a call of a 1D kernel, `even` telling the EvenEven kernels from
the OddEven ones, with its length. -/
inductive Event where
  | access (size : Nat) (index : Int)
  | kernel (even : Bool) (signal_length : Nat)
deriving DecidableEq, Repr

/-- An access is in bounds; a kernel is called with a length of its parity
that is at least 2. -/
def Event.safe : Event → Prop
  | Event.access size index => 0 ≤ index ∧ index < (size : Int)
  | Event.kernel even signal_length =>
    2 ≤ signal_length ∧ (signal_length % 2 = 0 ↔ even = true)

instance (e : Event) : Decidable e.safe := by
  cases e <;> unfold Event.safe <;> infer_instance

/-- The values that `index` takes in the loop
`for (index = i; index < stop; index += step)`, `fuel` iterations allowed. -/
def loop_values (stop step : Int) : Nat → Int → List Int
  | 0, _ => []
  | fuel + 1, i => if i < stop then i :: loop_values stop step fuel (i + step) else []

/-- The accesses of `signal[index] op= c * (signal[index - 1] + signal[index + 1])`
and of the statements that differ from it in the arithmetic only. -/
def lift_accesses (signal_length : Nat) (index : Int) : List Event :=
  [Event.access signal_length index, Event.access signal_length (index - 1),
   Event.access signal_length (index + 1)]

/-- The accesses of `signal[i] op= c * signal[j]` and of the statements that
differ from it in the arithmetic only. -/
def edge_accesses (signal_length : Nat) (i j : Int) : List Event :=
  [Event.access signal_length i, Event.access signal_length j]

/-- The accesses of `signal[index] *= c` and `signal[index] /= c`. -/
def scale_accesses (signal_length : Nat) (index : Int) : List Event :=
  [Event.access signal_length index]

/-- The accesses of `QccWAVCDF97AnalysisSymmetricEvenEven`, statement by
statement. -/
def AnalysisEvenEven_accesses (signal_length : Nat) : List Event :=
  let N : Int := signal_length
  (loop_values (N - 2) 2 signal_length 1).flatMap (lift_accesses signal_length) ++
  edge_accesses signal_length (N - 1) (N - 2) ++
  edge_accesses signal_length 0 1 ++
  (loop_values N 2 signal_length 2).flatMap (lift_accesses signal_length) ++
  (loop_values (N - 2) 2 signal_length 1).flatMap (lift_accesses signal_length) ++
  edge_accesses signal_length (N - 1) (N - 2) ++
  edge_accesses signal_length 0 1 ++
  (loop_values N 2 signal_length 2).flatMap (lift_accesses signal_length) ++
  (loop_values N 2 signal_length 1).flatMap (scale_accesses signal_length)

/-- The accesses of `QccWAVCDF97SynthesisSymmetricEvenEven`. -/
def SynthesisEvenEven_accesses (signal_length : Nat) : List Event :=
  let N : Int := signal_length
  (loop_values N 2 signal_length 1).flatMap (scale_accesses signal_length) ++
  edge_accesses signal_length 0 1 ++
  (loop_values N 2 signal_length 2).flatMap (lift_accesses signal_length) ++
  (loop_values (N - 2) 2 signal_length 1).flatMap (lift_accesses signal_length) ++
  edge_accesses signal_length (N - 1) (N - 2) ++
  edge_accesses signal_length 0 1 ++
  (loop_values N 2 signal_length 2).flatMap (lift_accesses signal_length) ++
  (loop_values (N - 2) 2 signal_length 1).flatMap (lift_accesses signal_length) ++
  edge_accesses signal_length (N - 1) (N - 2)

/-- The accesses of `QccWAVCDF97SynthesisSymmetricOddEven`. -/
def SynthesisOddEven_accesses (signal_length : Nat) : List Event :=
  let N : Int := signal_length
  (loop_values (N - 1) 2 signal_length 1).flatMap (scale_accesses signal_length) ++
  edge_accesses signal_length 0 1 ++
  (loop_values (N - 2) 2 signal_length 2).flatMap (lift_accesses signal_length) ++
  edge_accesses signal_length (N - 1) (N - 2) ++
  (loop_values (N - 1) 2 signal_length 1).flatMap (lift_accesses signal_length) ++
  edge_accesses signal_length 0 1 ++
  (loop_values (N - 2) 2 signal_length 2).flatMap (lift_accesses signal_length) ++
  edge_accesses signal_length (N - 1) (N - 2) ++
  (loop_values (N - 1) 2 signal_length 1).flatMap (lift_accesses signal_length)

/-- The accesses of `QccWAVCDF97AnalysisSymmetricOddEven`. -/
def AnalysisOddEven_accesses (signal_length : Nat) : List Event :=
  let N : Int := signal_length
  (loop_values (N - 1) 2 signal_length 1).flatMap (lift_accesses signal_length) ++
  edge_accesses signal_length 0 1 ++
  (loop_values (N - 2) 2 signal_length 2).flatMap (lift_accesses signal_length) ++
  edge_accesses signal_length (N - 1) (N - 2) ++
  (loop_values (N - 1) 2 signal_length 1).flatMap (lift_accesses signal_length) ++
  edge_accesses signal_length 0 1 ++
  (loop_values (N - 2) 2 signal_length 2).flatMap (lift_accesses signal_length) ++
  edge_accesses signal_length (N - 1) (N - 2) ++
  (loop_values (N - 1) 2 signal_length 1).flatMap (scale_accesses signal_length)

/-- A kernel call on an array `signal` of `len` elements: the call and the
accesses of the kernel.  `analysis` tells the analysis kernels from the
synthesis kernels. -/
def kernel_events (analysis even : Bool) (len : Nat) : List Event :=
  Event.kernel even len ::
    (if analysis then
      (if even then AnalysisEvenEven_accesses len else AnalysisOddEven_accesses len)
    else
      (if even then SynthesisEvenEven_accesses len else SynthesisOddEven_accesses len))

/-- The accesses of `m_gather_even` and `m_gather_odd`, which differ in
`low_count`: `dest` and `orig` point to the elements `dest` and `orig` of arrays
of `dest_size` and `orig_size` elements; `counter` is `i` in the first loop and
`low_count + i` in the second. -/
def gather_accesses (dest_size dest orig_size orig low_count high_count : Nat) : List Event :=
  (List.range low_count).flatMap (fun i =>
    [Event.access dest_size ((dest + i : Nat) : Int),
     Event.access orig_size ((orig + i * 2 : Nat) : Int)]) ++
  (List.range high_count).flatMap (fun i =>
    [Event.access dest_size ((dest + (low_count + i) : Nat) : Int),
     Event.access orig_size ((orig + (i * 2 + 1) : Nat) : Int)])

/-- The accesses of `m_scatter_even` and `m_scatter_odd`. -/
def scatter_accesses (dest_size dest orig_size orig low_count high_count : Nat) : List Event :=
  (List.range low_count).flatMap (fun i =>
    [Event.access dest_size ((dest + i * 2 : Nat) : Int),
     Event.access orig_size ((orig + i : Nat) : Int)]) ++
  (List.range high_count).flatMap (fun i =>
    [Event.access dest_size ((dest + (i * 2 + 1) : Nat) : Int),
     Event.access orig_size ((orig + (low_count + i) : Nat) : Int)])

/-- The accesses of `m_gather_even` (for even `len`) or `m_gather_odd`. -/
def m_gather_accesses (dest_size dest orig_size orig len : Nat) : List Event :=
  if len % 2 = 0 then gather_accesses dest_size dest orig_size orig (len / 2) (len / 2)
  else gather_accesses dest_size dest orig_size orig (len / 2 + 1) (len / 2)

/-- The accesses of `m_scatter_even` (for even `len`) or `m_scatter_odd`. -/
def m_scatter_accesses (dest_size dest orig_size orig len : Nat) : List Event :=
  if len % 2 = 0 then scatter_accesses dest_size dest orig_size orig (len / 2) (len / 2)
  else scatter_accesses dest_size dest orig_size orig (len / 2 + 1) (len / 2)

/-- The accesses of `std::memcpy(dst, src, sizeof(double) * n)`. -/
def memcpy_accesses (dst_size dst src_size src n : Nat) : List Event :=
  (List.range n).flatMap (fun k =>
    [Event.access dst_size ((dst + k : Nat) : Int), Event.access src_size ((src + k : Nat) : Int)])

/-- The accesses of the loops over `y` that copy a column of the plane to a
scratch half or back: `plane[y * m_dim_x + x]` and `buf[y]`. -/
def column_accesses (plane_size m_dim_x x len_xy len_y : Nat) : List Event :=
  (List.range len_y).flatMap (fun y =>
    [Event.access len_xy (y : Int), Event.access plane_size ((y * m_dim_x + x : Nat) : Int)])

/-- The events of `m_dwt2d_one_level` on a plane of `m_dim_x * m_dim_y`
elements: `buf_ptr` and `buf_ptr2` are the halves, of `len_xy` elements each,
of the scratch buffer. -/
def m_dwt2d_one_level_events (m_dim_x m_dim_y len_x len_y : Nat) : List Event :=
  let plane := m_dim_x * m_dim_y
  let len_xy := max len_x len_y
  (List.range len_y).flatMap (fun i =>
    memcpy_accesses len_xy 0 plane (i * m_dim_x) len_x ++
    kernel_events true (len_x % 2 = 0) len_x ++
    m_gather_accesses plane (i * m_dim_x) len_xy 0 len_x) ++
  (List.range len_x).flatMap (fun x =>
    column_accesses plane m_dim_x x len_xy len_y ++
    kernel_events true (len_y % 2 = 0) len_y ++
    m_gather_accesses len_xy 0 len_xy 0 len_y ++
    column_accesses plane m_dim_x x len_xy len_y)

/-- The events of `m_idwt2d_one_level`. -/
def m_idwt2d_one_level_events (m_dim_x m_dim_y len_x len_y : Nat) : List Event :=
  let plane := m_dim_x * m_dim_y
  let len_xy := max len_x len_y
  (List.range len_x).flatMap (fun x =>
    column_accesses plane m_dim_x x len_xy len_y ++
    m_scatter_accesses len_xy 0 len_xy 0 len_y ++
    kernel_events false (len_y % 2 = 0) len_y ++
    column_accesses plane m_dim_x x len_xy len_y) ++
  (List.range len_y).flatMap (fun i =>
    m_scatter_accesses len_xy 0 plane (i * m_dim_x) len_x ++
    kernel_events false (len_x % 2 = 0) len_x ++
    memcpy_accesses plane (i * m_dim_x) len_xy 0 len_x)

/-- The events of the level loop of `dwt2d`. -/
def dwt2d_events (m_dim_x m_dim_y : Nat) : List Event :=
  (List.range (m_num_of_levels_xy m_dim_x m_dim_y)).flatMap (fun lev =>
    m_dwt2d_one_level_events m_dim_x m_dim_y
      (m_calc_approx_len m_dim_x lev) (m_calc_approx_len m_dim_y lev))

/-- The events of the level loop of `idwt2d`, which runs from the last level
to the first. -/
def idwt2d_events (m_dim_x m_dim_y : Nat) : List Event :=
  (List.range (m_num_of_levels_xy m_dim_x m_dim_y)).reverse.flatMap (fun lev =>
    m_idwt2d_one_level_events m_dim_x m_dim_y
      (m_calc_approx_len m_dim_x lev) (m_calc_approx_len m_dim_y lev))

/-! ## The conversion to single precision in the level functions

`num_level_raw` above takes `std::log2(float(len) / 9.0f)` exactly.  The first
of the three single-precision operations, the conversion `float(len)`, is
fixed by IEEE 754; with it rounded, the level functions are as follows. -/

/-- The conversion `float(len)` of a `long` with `0 ≤ len < 2 ^ 64` to IEEE 754
single precision, as the number that the result stands for: 24 significant
bits are kept, rounded to nearest, ties to even. -/
def float_of_long (len : Nat) : Nat :=
  let e := floor_log2 64 len
  if e < 24 then len
  else
    let ulp := 2 ^ (e - 23)
    let q := len / ulp
    let r := len % ulp
    if 2 * r < ulp then q * ulp
    else if ulp < 2 * r then (q + 1) * ulp
    else if q % 2 = 0 then q * ulp
    else (q + 1) * ulp

/-- `CDF97::m_num_of_levels_z` with the conversion `float(m_dim_z)` rounded; the
quotient by `9.0f` and `std::log2` are taken exactly, which they are in single
precision too when `float(m_dim_z)` is `9 * 2 ^ k`. -/
def m_num_of_levels_z_float (m_dim_z : Nat) : Nat :=
  let num_level_z := num_level_raw (float_of_long m_dim_z)
  if m_calc_approx_len m_dim_z ((num_level_z : Int) - 1) = 8 then num_level_z + 1
  else num_level_z

/-! ## Linear combinations of signals -/

section Linear

variable {F : Type} [Field F]

/-- The signal `a * s + t`, element by element. -/
def axpy (a : F) (s t : List F) : List F := List.zipWith (fun x y => a * x + y) s t

/-- The array `u` is `a * s + t`, element by element, for arrays `s` and `t` of
one length. -/
def IsAxpy (a : F) (s t u : List F) : Prop :=
  s.length = t.length ∧ u.length = s.length ∧ ∀ j, rd u j = a * rd s j + rd t j

end Linear

/-! # Properties -/

section ArrayLemmas

variable {F : Type}

theorem length_wr (p : List F) (i : Nat) (v : F) : (wr p i v).length = p.length := by
  simp [wr]

theorem rd_wr [Zero F] (p : List F) (i j : Nat) (v : F) :
    rd (wr p i v) j = if j = i ∧ i < p.length then v else rd p j := by
  unfold rd wr
  simp only [List.getD_eq_getElem?_getD, List.getElem?_set]
  by_cases h : i = j
  · subst h
    by_cases h2 : i < p.length
    · simp [h2]
    · simp [h2, List.getElem?_eq_none (Nat.le_of_not_lt h2)]
  · have h3 : ¬ j = i := fun e => h e.symm
    simp [h, h3]

theorem rd_of_length_le [Zero F] (p : List F) (j : Nat) (h : p.length ≤ j) : rd p j = 0 := by
  unfold rd
  simp [List.getD_eq_getElem?_getD, List.getElem?_eq_none h]

theorem ext_rd [Zero F] {p q : List F} (hlen : p.length = q.length)
    (h : ∀ j, j < p.length → rd p j = rd q j) : p = q := by
  apply List.ext_getElem hlen
  intro j h1 h2
  have := h j h1
  unfold rd at this
  simpa [List.getD_eq_getElem?_getD, List.getElem?_eq_getElem h1, List.getElem?_eq_getElem h2] using this

end ArrayLemmas

theorem forLoop_one_iterate {σ : Type} (f : σ → σ) (n : Nat) :
    ∀ (fuel i : Nat) (s : σ), i ≤ n → n ≤ i + fuel →
      forLoop n 1 (fun _ s => f s) fuel i s = f^[n - i] s := by
  intro fuel
  induction fuel with
  | zero =>
    intro i s h1 h2
    have : n - i = 0 := by omega
    simp [forLoop, this]
  | succ k ih =>
    intro i s h1 h2
    by_cases h : i < n
    · have e : n - i = (n - (i + 1)) + 1 := by omega
      simp only [forLoop, h, if_true]
      rw [ih (i + 1) (f s) (by omega) (by omega), e, Function.iterate_succ_apply]
    · have : n - i = 0 := by omega
      simp [forLoop, h, this]

theorem halve_eq (n : Nat) : halve n = (n + 1) / 2 := by
  unfold halve
  split <;> omega

theorem iterate_halve (lev : Nat) : ∀ D : Nat, halve^[lev] D = (D + 2 ^ lev - 1) / 2 ^ lev := by
  induction lev with
  | zero => intro D; simp
  | succ k ih =>
    intro D
    rw [Function.iterate_succ_apply, ih, halve_eq]
    have hp : 0 < 2 ^ k := Nat.pow_pos (by norm_num)
    have e1 : (D + 1) / 2 + 2 ^ k - 1 = (D + 1 + 2 * (2 ^ k - 1)) / 2 := by
      rw [Nat.add_mul_div_left _ _ (by norm_num : 0 < 2)]
      omega
    have e2 : D + 1 + 2 * (2 ^ k - 1) = D + 2 ^ (k + 1) - 1 := by
      rw [pow_succ]; omega
    rw [e1, e2, Nat.div_div_eq_div_mul, pow_succ, Nat.mul_comm 2 (2 ^ k)]

theorem m_calc_approx_len_nat (D lev : Nat) :
    m_calc_approx_len D (lev : Int) = halve^[lev] D := by
  unfold m_calc_approx_len
  simp only [Int.toNat_ofNat]
  rw [forLoop_one_iterate halve lev lev 0 D (Nat.zero_le _) (by omega)]
  simp

theorem ceil_div_pow (D m : Nat) (hm : 0 < m) : ⌈(D : ℚ) / (m : ℚ)⌉₊ = (D + m - 1) / m := by
  have hmq : (0 : ℚ) < m := by exact_mod_cast hm
  apply le_antisymm
  · rw [Nat.ceil_le, div_le_iff₀ hmq]
    have h1 : D ≤ (D + m - 1) / m * m := by
      have e1 := Nat.div_add_mod (D + m - 1) m
      have e2 := Nat.mod_lt (D + m - 1) hm
      rw [Nat.mul_comm] at e1
      omega
    exact_mod_cast h1
  · have h2 : (D + m - 1) / m < ⌈(D : ℚ) / (m : ℚ)⌉₊ + 1 := by
      rw [Nat.div_lt_iff_lt_mul hm]
      have h3 : (D : ℚ) ≤ ⌈(D : ℚ) / (m : ℚ)⌉₊ * m := by
        rw [← div_le_iff₀ hmq]; exact Nat.le_ceil _
      have h4 : D ≤ ⌈(D : ℚ) / (m : ℚ)⌉₊ * m := by exact_mod_cast h3
      have : (⌈(D : ℚ) / (m : ℚ)⌉₊ + 1) * m = ⌈(D : ℚ) / (m : ℚ)⌉₊ * m + m := by ring
      omega
    omega

/-- C5: for every length `D` and level count `lev ≥ 0`, `m_calc_approx_len D lev`
is the ceiling of `D / 2^lev`, and it is `lev` successive halvings of `D`, each
of which sends an even `n` to `n / 2` and an odd `n` to `(n + 1) / 2`. -/
theorem m_calc_approx_len_eq_ceil (D lev : Nat) :
    m_calc_approx_len D (lev : Int) = ⌈(D : ℚ) / (2 : ℚ) ^ lev⌉₊ ∧
    m_calc_approx_len D (lev : Int) = (fun n => if n % 2 = 0 then n / 2 else (n + 1) / 2)^[lev] D := by
  constructor
  · rw [m_calc_approx_len_nat, iterate_halve]
    have := ceil_div_pow D (2 ^ lev) (Nat.pow_pos (by norm_num))
    push_cast at this
    rw [this]
  · rw [m_calc_approx_len_nat]
    rfl

/-! ## Level selection at the lengths of the spec -/

theorem m_num_of_levels_xy_eq (m_dim_x m_dim_y : Nat) :
    m_num_of_levels_xy m_dim_x m_dim_y = m_num_of_levels_z (min m_dim_x m_dim_y) := rfl

/-- C4: at length 8 the level functions compute the level count 0 and call
`m_calc_approx_len` with the level argument `-1`, against its assertion
`lev >= 0`.  With the assertion compiled out the call runs no halving and
returns 8, the `== 8` special case adds a level and the functions return 1,
not the 0 of the claim, both `m_num_of_levels_z` on an axis of length 8 and
`m_num_of_levels_xy` on a plane whose shorter side is 8. -/
theorem num_of_levels_eight_ne_zero :
    (num_level_raw 8 = 0 ∧ num_level_arg 8 = -1 ∧
      ¬ m_calc_approx_len_assert (num_level_arg 8)) ∧
    m_calc_approx_len 8 (num_level_arg 8) = 8 ∧
    (m_num_of_levels_z 8 = 1 ∧ ¬ (m_num_of_levels_z 8 = 0)) ∧
    ¬ (m_num_of_levels_xy 8 8 = 0) ∧
    ∀ k : Nat, m_num_of_levels_xy 8 (8 + k) = 1 ∧ m_num_of_levels_xy (8 + k) 8 = 1 := by
  refine ⟨by decide, by decide, by decide, by decide, fun k => ?_⟩
  simp only [m_num_of_levels_xy_eq, Nat.min_eq_left (Nat.le_add_right _ k),
    Nat.min_eq_right (Nat.le_add_right _ k)]
  decide

/-- The level functions at the other lengths that the spec lists: they return 1
at 9, 16 and 17 and 2 at 18, both `m_num_of_levels_z` on an axis of length `D`
and `m_num_of_levels_xy` on a plane whose shorter side is `D`, and the level
argument that they hand to `m_calc_approx_len` meets its assertion. -/
theorem num_of_levels_values :
    (m_num_of_levels_z 9 = 1 ∧ m_num_of_levels_z 16 = 1 ∧
      m_num_of_levels_z 17 = 1 ∧ m_num_of_levels_z 18 = 2) ∧
    (m_calc_approx_len_assert (num_level_arg 9) ∧ m_calc_approx_len_assert (num_level_arg 16) ∧
      m_calc_approx_len_assert (num_level_arg 17) ∧
      m_calc_approx_len_assert (num_level_arg 18)) ∧
    ∀ k : Nat,
      (m_num_of_levels_xy 9 (9 + k) = 1 ∧ m_num_of_levels_xy (9 + k) 9 = 1) ∧
      (m_num_of_levels_xy 16 (16 + k) = 1 ∧ m_num_of_levels_xy (16 + k) 16 = 1) ∧
      (m_num_of_levels_xy 17 (17 + k) = 1 ∧ m_num_of_levels_xy (17 + k) 17 = 1) ∧
      (m_num_of_levels_xy 18 (18 + k) = 2 ∧ m_num_of_levels_xy (18 + k) 18 = 2) := by
  refine ⟨by decide, by decide, fun k => ?_⟩
  simp only [m_num_of_levels_xy_eq, Nat.min_eq_left (Nat.le_add_right _ k),
    Nat.min_eq_right (Nat.le_add_right _ k)]
  decide

/-! ## Loops with unit step -/

theorem forLoop_one_invariant {σ : Type} (body : Nat → σ → σ) (n : Nat) (P : Nat → σ → Prop)
    (hstep : ∀ i s, i < n → P i s → P (i + 1) (body i s)) :
    ∀ (fuel i : Nat) (s : σ), i ≤ n → n ≤ i + fuel → P i s →
      P n (forLoop n 1 body fuel i s) := by
  intro fuel
  induction fuel with
  | zero =>
    intro i s h1 h2 hP
    have : i = n := by omega
    subst this
    simpa [forLoop] using hP
  | succ k ih =>
    intro i s h1 h2 hP
    by_cases h : i < n
    · simp only [forLoop, h, if_true]
      exact ih (i + 1) (body i s) (by omega) (by omega) (hstep i s h hP)
    · have : i = n := by omega
      subst this
      simpa [forLoop] using hP

/-! ## Gather and scatter -/

section GatherScatterLemmas

variable {F : Type} [Zero F]

theorem gather_loop_spec (orig : List F) (off count : Nat) (dest : List F) (c0 : Nat) :
    (gather_loop orig off count (dest, c0)).2 = c0 + count ∧
    (gather_loop orig off count (dest, c0)).1.length = dest.length ∧
    ∀ k, rd (gather_loop orig off count (dest, c0)).1 k =
      if c0 ≤ k ∧ k < c0 + count ∧ k < dest.length then rd orig ((k - c0) * 2 + off)
      else rd dest k := by
  unfold gather_loop
  refine forLoop_one_invariant _ count
    (fun i st => st.2 = c0 + i ∧ st.1.length = dest.length ∧
      ∀ k, rd st.1 k = if c0 ≤ k ∧ k < c0 + i ∧ k < dest.length
        then rd orig ((k - c0) * 2 + off) else rd dest k)
    ?_ count 0 (dest, c0) (Nat.zero_le _) (by omega) ?_
  · rintro i ⟨d, c⟩ hi ⟨hc, hl, hrd⟩
    simp only at hc hl hrd
    subst hc
    refine ⟨by simp; omega, by simp [length_wr, hl], fun k => ?_⟩
    simp only [rd_wr, hrd k, hl]
    by_cases hk : k = c0 + i
    · subst hk
      by_cases hlen : c0 + i < dest.length
      · have e : c0 + i - c0 = i := by omega
        simp [hlen, e]
      · simp [hlen]
    · by_cases h1 : c0 ≤ k ∧ k < c0 + i ∧ k < dest.length
      · have h2 : c0 ≤ k ∧ k < c0 + (i + 1) ∧ k < dest.length := ⟨h1.1, by omega, h1.2.2⟩
        simp [hk, h1, h2]
      · have h2 : ¬ (c0 ≤ k ∧ k < c0 + (i + 1) ∧ k < dest.length) := by
          intro h; exact h1 ⟨h.1, by omega, h.2.2⟩
        simp [hk, h1, h2]
  · refine ⟨by simp, rfl, fun k => ?_⟩
    have h : ¬ (c0 ≤ k ∧ k < c0 + 0 ∧ k < dest.length) := by omega
    simp only [h, if_false]

theorem scatter_loop_spec (orig : List F) (off count : Nat) (dest : List F) (c0 : Nat) :
    (scatter_loop orig off count (dest, c0)).2 = c0 + count ∧
    (scatter_loop orig off count (dest, c0)).1.length = dest.length ∧
    ∀ k, rd (scatter_loop orig off count (dest, c0)).1 k =
      if off ≤ k ∧ (k - off) % 2 = 0 ∧ (k - off) / 2 < count ∧ k < dest.length
      then rd orig (c0 + (k - off) / 2)
      else rd dest k := by
  unfold scatter_loop
  refine forLoop_one_invariant _ count
    (fun i st => st.2 = c0 + i ∧ st.1.length = dest.length ∧
      ∀ k, rd st.1 k = if off ≤ k ∧ (k - off) % 2 = 0 ∧ (k - off) / 2 < i ∧ k < dest.length
        then rd orig (c0 + (k - off) / 2) else rd dest k)
    ?_ count 0 (dest, c0) (Nat.zero_le _) (by omega) ?_
  · rintro i ⟨d, c⟩ hi ⟨hc, hl, hrd⟩
    simp only at hc hl hrd
    subst hc
    refine ⟨by simp; omega, by simp [length_wr, hl], fun k => ?_⟩
    simp only [rd_wr, hrd k, hl]
    by_cases hk : k = i * 2 + off
    · subst hk
      by_cases hlen : i * 2 + off < dest.length
      · have e : (i * 2 + off - off) / 2 = i := by omega
        have e2 : (i * 2 + off - off) % 2 = 0 := by omega
        simp [hlen, e, e2]
      · simp [hlen]
    · by_cases h1 : off ≤ k ∧ (k - off) % 2 = 0 ∧ (k - off) / 2 < i ∧ k < dest.length
      · have h2 : off ≤ k ∧ (k - off) % 2 = 0 ∧ (k - off) / 2 < i + 1 ∧ k < dest.length :=
          ⟨h1.1, h1.2.1, by omega, h1.2.2.2⟩
        simp [hk, h1, h2]
      · have h2 : ¬ (off ≤ k ∧ (k - off) % 2 = 0 ∧ (k - off) / 2 < i + 1 ∧ k < dest.length) := by
          intro h; exact h1 ⟨h.1, h.2.1, by omega, h.2.2.2⟩
        simp [hk, h1, h2]
  · simp

end GatherScatterLemmas

section GatherScatterClosed

variable {F : Type} [Zero F]

theorem gather_two (dest orig : List F) (L H : Nat) (h : L + H ≤ dest.length) :
    (gather_loop orig 1 H (gather_loop orig 0 L (dest, 0))).1.length = dest.length ∧
    ∀ k, rd (gather_loop orig 1 H (gather_loop orig 0 L (dest, 0))).1 k =
      if k < L then rd orig (k * 2)
      else if k < L + H then rd orig ((k - L) * 2 + 1) else rd dest k := by
  obtain ⟨h2, h1, hrd⟩ := gather_loop_spec orig 0 L dest 0
  generalize gather_loop orig 0 L (dest, 0) = st at h2 h1 hrd
  obtain ⟨d, c⟩ := st
  simp only at h2 h1 hrd
  subst h2
  obtain ⟨-, g1, grd⟩ := gather_loop_spec orig 1 H d (0 + L)
  refine ⟨by rw [g1, h1], fun k => ?_⟩
  rw [grd k, hrd k, h1]
  by_cases hk : k < L
  · have a1 : ¬ (0 + L ≤ k ∧ k < 0 + L + H ∧ k < dest.length) := by omega
    have a2 : 0 ≤ k ∧ k < 0 + L ∧ k < dest.length := by omega
    simp [hk, a1, a2]
  · by_cases hk2 : k < L + H
    · have a1 : 0 + L ≤ k ∧ k < 0 + L + H ∧ k < dest.length := by omega
      simp [hk, hk2, a1]
    · have a1 : ¬ (0 + L ≤ k ∧ k < 0 + L + H ∧ k < dest.length) := by omega
      have a2 : ¬ (0 ≤ k ∧ k < 0 + L ∧ k < dest.length) := by omega
      simp [hk, hk2, a1, a2]

theorem scatter_two (dest orig : List F) (L H : Nat) (h : L + H ≤ dest.length)
    (hL : H ≤ L) (hL2 : L ≤ H + 1) :
    (scatter_loop orig 1 H (scatter_loop orig 0 L (dest, 0))).1.length = dest.length ∧
    ∀ k, rd (scatter_loop orig 1 H (scatter_loop orig 0 L (dest, 0))).1 k =
      if k < L + H then (if k % 2 = 0 then rd orig (k / 2) else rd orig (L + k / 2))
      else rd dest k := by
  obtain ⟨h2, h1, hrd⟩ := scatter_loop_spec orig 0 L dest 0
  generalize scatter_loop orig 0 L (dest, 0) = st at h2 h1 hrd
  obtain ⟨d, c⟩ := st
  simp only at h2 h1 hrd
  subst h2
  obtain ⟨-, g1, grd⟩ := scatter_loop_spec orig 1 H d (0 + L)
  refine ⟨by rw [g1, h1], fun k => ?_⟩
  rw [grd k, hrd k, h1]
  by_cases hk : k < L + H
  · by_cases hp : k % 2 = 0
    · have a1 : ¬ (1 ≤ k ∧ (k - 1) % 2 = 0 ∧ (k - 1) / 2 < H ∧ k < dest.length) := by omega
      have a2 : 0 ≤ k ∧ (k - 0) % 2 = 0 ∧ (k - 0) / 2 < L ∧ k < dest.length := by
        refine ⟨by omega, by simpa using hp, ?_, by omega⟩
        simp only [Nat.sub_zero]; omega
      rw [if_neg a1, if_pos a2, if_pos hk, if_pos hp, Nat.sub_zero, Nat.zero_add]
    · have a1 : 1 ≤ k ∧ (k - 1) % 2 = 0 ∧ (k - 1) / 2 < H ∧ k < dest.length := by omega
      have e : (k - 1) / 2 = k / 2 := by omega
      rw [if_pos a1, if_pos hk, if_neg hp, e, Nat.zero_add]
  · have a1 : ¬ (1 ≤ k ∧ (k - 1) % 2 = 0 ∧ (k - 1) / 2 < H ∧ k < dest.length) := by omega
    have a2 : ¬ (0 ≤ k ∧ (k - 0) % 2 = 0 ∧ (k - 0) / 2 < L ∧ k < dest.length) := by
      simp only [Nat.sub_zero]; omega
    rw [if_neg a1, if_neg a2, if_neg hk]

theorem m_gather_even_spec (dest orig : List F) (len : Nat) (hp : len % 2 = 0)
    (h : len ≤ dest.length) :
    (m_gather_even dest orig len).length = dest.length ∧
    ∀ k, rd (m_gather_even dest orig len) k =
      if k < len / 2 then rd orig (k * 2)
      else if k < len then rd orig ((k - len / 2) * 2 + 1) else rd dest k := by
  have e : len / 2 + len / 2 = len := by omega
  have := gather_two dest orig (len / 2) (len / 2) (by omega)
  rw [e] at this
  exact this

theorem m_gather_odd_spec (dest orig : List F) (len : Nat) (hp : len % 2 = 1)
    (h : len ≤ dest.length) :
    (m_gather_odd dest orig len).length = dest.length ∧
    ∀ k, rd (m_gather_odd dest orig len) k =
      if k < len / 2 + 1 then rd orig (k * 2)
      else if k < len then rd orig ((k - (len / 2 + 1)) * 2 + 1) else rd dest k := by
  have e : len / 2 + 1 + len / 2 = len := by omega
  have := gather_two dest orig (len / 2 + 1) (len / 2) (by omega)
  rw [e] at this
  exact this

theorem m_scatter_even_spec (dest orig : List F) (len : Nat) (hp : len % 2 = 0)
    (h : len ≤ dest.length) :
    (m_scatter_even dest orig len).length = dest.length ∧
    ∀ k, rd (m_scatter_even dest orig len) k =
      if k < len then (if k % 2 = 0 then rd orig (k / 2) else rd orig (len / 2 + k / 2))
      else rd dest k := by
  have e : len / 2 + len / 2 = len := by omega
  have := scatter_two dest orig (len / 2) (len / 2) (by omega) (le_refl _) (by omega)
  rw [e] at this
  exact this

theorem m_scatter_odd_spec (dest orig : List F) (len : Nat) (hp : len % 2 = 1)
    (h : len ≤ dest.length) :
    (m_scatter_odd dest orig len).length = dest.length ∧
    ∀ k, rd (m_scatter_odd dest orig len) k =
      if k < len then (if k % 2 = 0 then rd orig (k / 2) else rd orig (len / 2 + 1 + k / 2))
      else rd dest k := by
  have e : len / 2 + 1 + len / 2 = len := by omega
  have := scatter_two dest orig (len / 2 + 1) (len / 2) (by omega) (by omega) (le_refl _)
  rw [e] at this
  exact this

/-- C6: gather (`m_gather_even` for even `N`, `m_gather_odd` for odd `N`) writes
`dest[i] = orig[2i]` for `i < ⌈N/2⌉` and `dest[⌈N/2⌉ + j] = orig[2j+1]` for
`j < ⌊N/2⌋`, and nothing else: `dest` keeps its length and every element from
index `N` on. -/
theorem gather_layout (dest orig : List F) (N : Nat) (hN : N ≤ dest.length) :
    (N % 2 = 0 →
      (∀ i, i < (N + 1) / 2 → rd (m_gather_even dest orig N) i = rd orig (2 * i)) ∧
      (∀ j, j < N / 2 → rd (m_gather_even dest orig N) ((N + 1) / 2 + j) = rd orig (2 * j + 1)) ∧
      (m_gather_even dest orig N).length = dest.length ∧
      (∀ k, N ≤ k → rd (m_gather_even dest orig N) k = rd dest k)) ∧
    (N % 2 = 1 →
      (∀ i, i < (N + 1) / 2 → rd (m_gather_odd dest orig N) i = rd orig (2 * i)) ∧
      (∀ j, j < N / 2 → rd (m_gather_odd dest orig N) ((N + 1) / 2 + j) = rd orig (2 * j + 1)) ∧
      (m_gather_odd dest orig N).length = dest.length ∧
      (∀ k, N ≤ k → rd (m_gather_odd dest orig N) k = rd dest k)) := by
  constructor
  · intro hp
    obtain ⟨hl, hrd⟩ := m_gather_even_spec dest orig N hp hN
    refine ⟨fun i hi => ?_, fun j hj => ?_, hl, fun k hk => ?_⟩
    · have a : i < N / 2 := by omega
      rw [hrd i, if_pos a, Nat.mul_comm]
    · have a : ¬ ((N + 1) / 2 + j < N / 2) := by omega
      have b : (N + 1) / 2 + j < N := by omega
      have e : ((N + 1) / 2 + j - N / 2) * 2 + 1 = 2 * j + 1 := by omega
      rw [hrd _, if_neg a, if_pos b, e]
    · have a : ¬ (k < N / 2) := by omega
      have b : ¬ (k < N) := by omega
      rw [hrd k, if_neg a, if_neg b]
  · intro hp
    obtain ⟨hl, hrd⟩ := m_gather_odd_spec dest orig N hp hN
    refine ⟨fun i hi => ?_, fun j hj => ?_, hl, fun k hk => ?_⟩
    · have a : i < N / 2 + 1 := by omega
      rw [hrd i, if_pos a, Nat.mul_comm]
    · have a : ¬ ((N + 1) / 2 + j < N / 2 + 1) := by omega
      have b : (N + 1) / 2 + j < N := by omega
      have e : ((N + 1) / 2 + j - (N / 2 + 1)) * 2 + 1 = 2 * j + 1 := by omega
      rw [hrd _, if_neg a, if_pos b, e]
    · have a : ¬ (k < N / 2 + 1) := by omega
      have b : ¬ (k < N) := by omega
      rw [hrd k, if_neg a, if_neg b]

theorem gather_layout_witness :
    (∀ i, i < (4 + 1) / 2 →
      rd (m_gather_even [0, 0, 0, 0, 9] [(10 : ℚ), 11, 12, 13] 4) i = rd [(10 : ℚ), 11, 12, 13] (2 * i)) ∧
    (∀ j, j < 4 / 2 →
      rd (m_gather_even [0, 0, 0, 0, 9] [(10 : ℚ), 11, 12, 13] 4) ((4 + 1) / 2 + j) =
        rd [(10 : ℚ), 11, 12, 13] (2 * j + 1)) ∧
    (m_gather_even [0, 0, 0, 0, 9] [(10 : ℚ), 11, 12, 13] 4).length = [(0 : ℚ), 0, 0, 0, 9].length ∧
    (∀ k, 4 ≤ k → rd (m_gather_even [0, 0, 0, 0, 9] [(10 : ℚ), 11, 12, 13] 4) k =
      rd [(0 : ℚ), 0, 0, 0, 9] k) :=
  (gather_layout [(0 : ℚ), 0, 0, 0, 9] [10, 11, 12, 13] 4 (by decide)).1 (by decide)

end GatherScatterClosed

section GatherScatterInverse

variable {F : Type} [Zero F]

theorem rd_scatter_gather_even (v d1 d2 : List F) (N k : Nat) (hp : N % 2 = 0)
    (h1 : N ≤ d1.length) (h2 : N ≤ d2.length) (hk : k < N) :
    rd (m_scatter_even d2 (m_gather_even d1 v N) N) k = rd v k := by
  obtain ⟨-, hs⟩ := m_scatter_even_spec d2 (m_gather_even d1 v N) N hp h2
  obtain ⟨-, hg⟩ := m_gather_even_spec d1 v N hp h1
  rw [hs k, if_pos hk]
  by_cases hpar : k % 2 = 0
  · have a : k / 2 < N / 2 := by omega
    have e : k / 2 * 2 = k := by omega
    rw [if_pos hpar, hg, if_pos a, e]
  · have a : ¬ (N / 2 + k / 2 < N / 2) := by omega
    have b : N / 2 + k / 2 < N := by omega
    have e : (N / 2 + k / 2 - N / 2) * 2 + 1 = k := by omega
    rw [if_neg hpar, hg, if_neg a, if_pos b, e]

theorem rd_gather_scatter_even (v d1 d2 : List F) (N k : Nat) (hp : N % 2 = 0)
    (h1 : N ≤ d1.length) (h2 : N ≤ d2.length) (hk : k < N) :
    rd (m_gather_even d2 (m_scatter_even d1 v N) N) k = rd v k := by
  obtain ⟨-, hg⟩ := m_gather_even_spec d2 (m_scatter_even d1 v N) N hp h2
  obtain ⟨-, hs⟩ := m_scatter_even_spec d1 v N hp h1
  rw [hg k]
  by_cases hlow : k < N / 2
  · have a : k * 2 < N := by omega
    have b : k * 2 % 2 = 0 := by omega
    have e : k * 2 / 2 = k := by omega
    rw [if_pos hlow, hs, if_pos a, if_pos b, e]
  · have a : (k - N / 2) * 2 + 1 < N := by omega
    have b : ¬ (((k - N / 2) * 2 + 1) % 2 = 0) := by omega
    have e : N / 2 + ((k - N / 2) * 2 + 1) / 2 = k := by omega
    rw [if_neg hlow, if_pos hk, hs, if_pos a, if_neg b, e]

theorem rd_scatter_gather_odd (v d1 d2 : List F) (N k : Nat) (hp : N % 2 = 1)
    (h1 : N ≤ d1.length) (h2 : N ≤ d2.length) (hk : k < N) :
    rd (m_scatter_odd d2 (m_gather_odd d1 v N) N) k = rd v k := by
  obtain ⟨-, hs⟩ := m_scatter_odd_spec d2 (m_gather_odd d1 v N) N hp h2
  obtain ⟨-, hg⟩ := m_gather_odd_spec d1 v N hp h1
  rw [hs k, if_pos hk]
  by_cases hpar : k % 2 = 0
  · have a : k / 2 < N / 2 + 1 := by omega
    have e : k / 2 * 2 = k := by omega
    rw [if_pos hpar, hg, if_pos a, e]
  · have a : ¬ (N / 2 + 1 + k / 2 < N / 2 + 1) := by omega
    have b : N / 2 + 1 + k / 2 < N := by omega
    have e : (N / 2 + 1 + k / 2 - (N / 2 + 1)) * 2 + 1 = k := by omega
    rw [if_neg hpar, hg, if_neg a, if_pos b, e]

theorem rd_gather_scatter_odd (v d1 d2 : List F) (N k : Nat) (hp : N % 2 = 1)
    (h1 : N ≤ d1.length) (h2 : N ≤ d2.length) (hk : k < N) :
    rd (m_gather_odd d2 (m_scatter_odd d1 v N) N) k = rd v k := by
  obtain ⟨-, hg⟩ := m_gather_odd_spec d2 (m_scatter_odd d1 v N) N hp h2
  obtain ⟨-, hs⟩ := m_scatter_odd_spec d1 v N hp h1
  rw [hg k]
  by_cases hlow : k < N / 2 + 1
  · have a : k * 2 < N := by omega
    have b : k * 2 % 2 = 0 := by omega
    have e : k * 2 / 2 = k := by omega
    rw [if_pos hlow, hs, if_pos a, if_pos b, e]
  · have a : (k - (N / 2 + 1)) * 2 + 1 < N := by omega
    have b : ¬ (((k - (N / 2 + 1)) * 2 + 1) % 2 = 0) := by omega
    have e : N / 2 + 1 + ((k - (N / 2 + 1)) * 2 + 1) / 2 = k := by omega
    rw [if_neg hlow, if_pos hk, hs, if_pos a, if_neg b, e]

/-- C7: scatter is the exact inverse of gather.  For an array `v` of even length
`N`, scattering what `m_gather_even` produced gives `v` back and gathering what
`m_scatter_even` produced gives `v` back, whatever the destination arrays
`d1`, `d2` (of length `N`) held before; the same for odd `N` with
`m_scatter_odd` and `m_gather_odd`. -/
theorem scatter_gather_inverse (v d1 d2 : List F) (N : Nat) (hv : v.length = N)
    (h1 : d1.length = N) (h2 : d2.length = N) :
    (N % 2 = 0 →
      m_scatter_even d2 (m_gather_even d1 v N) N = v ∧
      m_gather_even d2 (m_scatter_even d1 v N) N = v) ∧
    (N % 2 = 1 →
      m_scatter_odd d2 (m_gather_odd d1 v N) N = v ∧
      m_gather_odd d2 (m_scatter_odd d1 v N) N = v) := by
  refine ⟨fun hp => ⟨?_, ?_⟩, fun hp => ⟨?_, ?_⟩⟩
  · have hl := (m_scatter_even_spec d2 (m_gather_even d1 v N) N hp (by omega)).1
    refine ext_rd (by rw [hl, h2, hv]) (fun j hj => ?_)
    exact rd_scatter_gather_even v d1 d2 N j hp (by omega) (by omega) (by omega)
  · have hl := (m_gather_even_spec d2 (m_scatter_even d1 v N) N hp (by omega)).1
    refine ext_rd (by rw [hl, h2, hv]) (fun j hj => ?_)
    exact rd_gather_scatter_even v d1 d2 N j hp (by omega) (by omega) (by omega)
  · have hl := (m_scatter_odd_spec d2 (m_gather_odd d1 v N) N hp (by omega)).1
    refine ext_rd (by rw [hl, h2, hv]) (fun j hj => ?_)
    exact rd_scatter_gather_odd v d1 d2 N j hp (by omega) (by omega) (by omega)
  · have hl := (m_gather_odd_spec d2 (m_scatter_odd d1 v N) N hp (by omega)).1
    refine ext_rd (by rw [hl, h2, hv]) (fun j hj => ?_)
    exact rd_gather_scatter_odd v d1 d2 N j hp (by omega) (by omega) (by omega)

theorem scatter_gather_inverse_witness :
    m_scatter_odd [0, 0, 0] (m_gather_odd [7, 7, 7] [(1 : ℚ), 2, 3] 3) 3 = [1, 2, 3] ∧
    m_gather_odd [0, 0, 0] (m_scatter_odd [7, 7, 7] [(1 : ℚ), 2, 3] 3) 3 = [1, 2, 3] :=
  (scatter_gather_inverse [(1 : ℚ), 2, 3] [7, 7, 7] [0, 0, 0] 3 rfl rfl rfl).2 (by decide)

end GatherScatterInverse

/-! ## Lifting steps -/

section LiftLemmas

variable {F : Type} [Zero F]

theorem forLoop_lift (phi : F → F → F → F) (hi : Nat) :
    ∀ (fuel lo : Nat) (l : List F), hi ≤ lo + 2 * fuel → hi ≤ l.length →
      (loopStep phi hi fuel lo l).length = l.length ∧
      ∀ j, rd (loopStep phi hi fuel lo l) j =
        if lo ≤ j ∧ j < hi ∧ (j - lo) % 2 = 0
        then phi (rd l j) (rd l (j - 1)) (rd l (j + 1)) else rd l j := by
  intro fuel
  induction fuel with
  | zero =>
    intro lo l h1 h2
    refine ⟨rfl, fun j => ?_⟩
    have : ¬ (lo ≤ j ∧ j < hi ∧ (j - lo) % 2 = 0) := by omega
    rw [if_neg this]
    rfl
  | succ k ih =>
    intro lo l h1 h2
    by_cases h : lo < hi
    · have hstep : loopStep phi hi (k + 1) lo l =
          loopStep phi hi k (lo + 2)
            (wr l lo (phi (rd l lo) (rd l (lo - 1)) (rd l (lo + 1)))) := by
        simp only [loopStep, forLoop, h, if_true]
      obtain ⟨hl, hrd⟩ := ih (lo + 2) (wr l lo (phi (rd l lo) (rd l (lo - 1)) (rd l (lo + 1))))
        (by omega) (by rw [length_wr]; exact h2)
      rw [hstep]
      refine ⟨by rw [hl, length_wr], fun j => ?_⟩
      rw [hrd j]
      by_cases hj : lo + 2 ≤ j ∧ j < hi ∧ (j - (lo + 2)) % 2 = 0
      · have c1 : lo ≤ j ∧ j < hi ∧ (j - lo) % 2 = 0 := by omega
        have n1 : ¬ (j = lo ∧ lo < l.length) := by omega
        have n2 : ¬ (j - 1 = lo ∧ lo < l.length) := by omega
        have n3 : ¬ (j + 1 = lo ∧ lo < l.length) := by omega
        rw [if_pos hj, if_pos c1, rd_wr, rd_wr, rd_wr, if_neg n1, if_neg n2, if_neg n3]
      · rw [if_neg hj, rd_wr]
        by_cases hjl : j = lo
        · subst hjl
          have c1 : j ≤ j ∧ j < hi ∧ (j - j) % 2 = 0 := by omega
          have c2 : j = j ∧ j < l.length := by omega
          rw [if_pos c1, if_pos c2]
        · have c1 : ¬ (lo ≤ j ∧ j < hi ∧ (j - lo) % 2 = 0) := by omega
          have c2 : ¬ (j = lo ∧ lo < l.length) := by omega
          rw [if_neg c1, if_neg c2]
    · have hstep : loopStep phi hi (k + 1) lo l = l := by
        simp only [loopStep, forLoop, h, if_false]
      rw [hstep]
      refine ⟨rfl, fun j => ?_⟩
      have : ¬ (lo ≤ j ∧ j < hi ∧ (j - lo) % 2 = 0) := by omega
      rw [if_neg this]

theorem isLift_loopStep (phi : F → F → F → F) (lo hi n fuel : Nat) (hlo : 1 ≤ lo)
    (hhi : hi ≤ n) (hfuel : hi ≤ lo + 2 * fuel) :
    IsLift (lo % 2) n (fun j x a b => if lo ≤ j ∧ j < hi then phi x a b else x)
      (loopStep phi hi fuel lo) := by
  intro l hl
  obtain ⟨h1, h2⟩ := forLoop_lift phi hi fuel lo l hfuel (by omega)
  refine ⟨h1, fun j => ?_⟩
  rw [h2 j]
  by_cases c : lo ≤ j ∧ j < hi ∧ (j - lo) % 2 = 0
  · have c1 : j < n ∧ j % 2 = lo % 2 := by omega
    have c2 : lo ≤ j ∧ j < hi := by omega
    have c3 : ¬ j = 0 := by omega
    simp only [leftOf]
    rw [if_pos c, if_pos c1, if_pos c2, if_neg c3]
  · rw [if_neg c]
    by_cases c1 : j < n ∧ j % 2 = lo % 2
    · have c2 : ¬ (lo ≤ j ∧ j < hi) := by omega
      simp only []
      rw [if_pos c1, if_neg c2]
    · rw [if_neg c1]

theorem isLift_firstStep (psi : F → F → F) (n : Nat) (hn : 2 ≤ n) :
    IsLift 0 n (fun j x _ b => if j = 0 then psi x b else x) (firstStep psi) := by
  intro l hl
  refine ⟨length_wr _ _ _, fun j => ?_⟩
  unfold firstStep
  rw [rd_wr]
  by_cases c : j = 0
  · subst c
    have c1 : 0 < l.length := by omega
    have c2 : 0 < n := by omega
    simp [c1, c2]
  · have c1 : ¬ (j = 0 ∧ 0 < l.length) := by omega
    rw [if_neg c1]
    by_cases c2 : j < n ∧ j % 2 = 0
    · beta_reduce
      rw [if_pos c2, if_neg c]
    · rw [if_neg c2]

theorem isLift_lastStep (psi : F → F → F) (n : Nat) (hn : 2 ≤ n) :
    IsLift ((n - 1) % 2) n (fun j x a _ => if j = n - 1 then psi x a else x)
      (lastStep psi n) := by
  intro l hl
  refine ⟨length_wr _ _ _, fun j => ?_⟩
  unfold lastStep
  rw [rd_wr]
  by_cases c : j = n - 1
  · subst c
    have c1 : n - 1 < l.length := by omega
    have c2 : n - 1 < n := by omega
    have c3 : ¬ (n - 1 = 0) := by omega
    have e : n - 1 - 1 = n - 2 := by omega
    simp [leftOf, c1, c2, c3, e]
  · have c1 : ¬ (j = n - 1 ∧ n - 1 < l.length) := by omega
    rw [if_neg c1]
    by_cases c2 : j < n ∧ j % 2 = (n - 1) % 2
    · beta_reduce
      rw [if_pos c2, if_neg c]
    · rw [if_neg c2]

theorem IsLift.comp {p n : Nat} {u1 u2 : Nat → F → F → F → F}
    {T1 T2 : List F → List F} (h1 : IsLift p n u1 T1) (h2 : IsLift p n u2 T2) :
    IsLift p n (fun j x a b => u2 j (u1 j x a b) a b) (fun l => T2 (T1 l)) := by
  intro l hl
  obtain ⟨l1, r1⟩ := h1 l hl
  obtain ⟨l2, r2⟩ := h2 (T1 l) (by omega)
  refine ⟨by simp only []; omega, fun j => ?_⟩
  simp only []
  rw [r2 j]
  by_cases c : j < n ∧ j % 2 = p
  · have e1 : rd (T1 l) (j + 1) = rd l (j + 1) := by
      have : ¬ (j + 1 < n ∧ (j + 1) % 2 = p) := by omega
      rw [r1, if_neg this]
    have e2 : leftOf (T1 l) j = leftOf l j := by
      unfold leftOf
      by_cases hj : j = 0
      · rw [if_pos hj, if_pos hj]
      · have : ¬ (j - 1 < n ∧ (j - 1) % 2 = p) := by omega
        rw [if_neg hj, if_neg hj, r1, if_neg this]
    rw [if_pos c, if_pos c, e1, e2, r1 j, if_pos c]
  · rw [if_neg c, if_neg c, r1 j, if_neg c]

theorem IsLift.length {p n : Nat} {u : Nat → F → F → F → F} {T : List F → List F}
    (h : IsLift p n u T) (l : List F) (hl : n ≤ l.length) : (T l).length = l.length :=
  (h l hl).1

theorem IsLift.cancel {p n : Nat} {u1 u2 : Nat → F → F → F → F}
    {T1 T2 : List F → List F} (h1 : IsLift p n u1 T1) (h2 : IsLift p n u2 T2)
    (hu : ∀ j x a b, u2 j (u1 j x a b) a b = x) (l : List F) (hl : n ≤ l.length) :
    T2 (T1 l) = l := by
  obtain ⟨hlen, hrd⟩ := IsLift.comp h1 h2 l hl
  refine ext_rd hlen (fun j _ => ?_)
  rw [hrd j]
  simp only [hu]
  split <;> rfl

end LiftLemmas

/-! ## Round trip of the even-length kernel -/

section EvenKernel

variable {F : Type} [Field F]

theorem evenEven_roundtrip_general (c : Lifting F) (l : List F) (N : Nat) (hp : N % 2 = 0)
    (h2 : 2 ≤ N) (hl : N ≤ l.length) (he : c.EPSILON ≠ 0) :
    QccWAVCDF97SynthesisSymmetricEvenEven c (QccWAVCDF97AnalysisSymmetricEvenEven c l N) N = l := by
  have hne : -c.EPSILON ≠ 0 := neg_ne_zero.mpr he
  have e1 : (N - 1) % 2 = 1 := by omega
  -- the two kernels as compositions of lifting steps
  have hA : QccWAVCDF97AnalysisSymmetricEvenEven c l N =
      loopStep (fun x _ _ => x / (-c.EPSILON)) N N 1
      (loopStep (fun x a b => c.EPSILON * (x + c.DELTA * (b + a))) N N 2
      (firstStep (fun x b => c.EPSILON * (x + 2 * c.DELTA * b))
      (lastStep (fun x a => x + 2 * c.GAMMA * a) N
      (loopStep (fun x a b => x + c.GAMMA * (a + b)) (N - 2) N 1
      (loopStep (fun x a b => x + c.BETA * (b + a)) N N 2
      (firstStep (fun x b => x + 2 * c.BETA * b)
      (lastStep (fun x a => x + 2 * c.ALPHA * a) N
      (loopStep (fun x a b => x + c.ALPHA * (a + b)) (N - 2) N 1 l)))))))) := rfl
  have hS : ∀ m, QccWAVCDF97SynthesisSymmetricEvenEven c m N =
      lastStep (fun x a => x - 2 * c.ALPHA * a) N
      (loopStep (fun x a b => x - c.ALPHA * (a + b)) (N - 2) N 1
      (loopStep (fun x a b => x - c.BETA * (b + a)) N N 2
      (firstStep (fun x b => x - 2 * c.BETA * b)
      (lastStep (fun x a => x - 2 * c.GAMMA * a) N
      (loopStep (fun x a b => x - c.GAMMA * (a + b)) (N - 2) N 1
      (loopStep (fun x a b => x / c.EPSILON - c.DELTA * (b + a)) N N 2
      (firstStep (fun x b => x / c.EPSILON - 2 * c.DELTA * b)
      (loopStep (fun x _ _ => x * (-c.EPSILON)) N N 1 m)))))))) := fun _ => rfl
  -- the phases of the analysis
  have oddAdd : ∀ a : F, IsLift 1 N _
      (fun l => lastStep (fun x y => x + 2 * a * y) N
        (loopStep (fun x y z => x + a * (y + z)) (N - 2) N 1 l)) := fun a =>
    IsLift.comp
      (isLift_loopStep (fun x y z => x + a * (y + z)) 1 (N - 2) N N (le_refl _) (by omega) (by omega))
      (e1 ▸ isLift_lastStep (fun x y => x + 2 * a * y) N h2)
  have oddSub : ∀ a : F, IsLift 1 N _
      (fun l => lastStep (fun x y => x - 2 * a * y) N
        (loopStep (fun x y z => x - a * (y + z)) (N - 2) N 1 l)) := fun a =>
    IsLift.comp
      (isLift_loopStep (fun x y z => x - a * (y + z)) 1 (N - 2) N N (le_refl _) (by omega) (by omega))
      (e1 ▸ isLift_lastStep (fun x y => x - 2 * a * y) N h2)
  have evenAdd : IsLift 0 N _
      (fun l => loopStep (fun x a b => x + c.BETA * (b + a)) N N 2
        (firstStep (fun x b => x + 2 * c.BETA * b) l)) :=
    IsLift.comp (isLift_firstStep (fun x b => x + 2 * c.BETA * b) N h2)
      (isLift_loopStep (fun x a b => x + c.BETA * (b + a)) 2 N N N (by omega) (le_refl _) (by omega))
  have evenSub : IsLift 0 N _
      (fun l => loopStep (fun x a b => x - c.BETA * (b + a)) N N 2
        (firstStep (fun x b => x - 2 * c.BETA * b) l)) :=
    IsLift.comp (isLift_firstStep (fun x b => x - 2 * c.BETA * b) N h2)
      (isLift_loopStep (fun x a b => x - c.BETA * (b + a)) 2 N N N (by omega) (le_refl _) (by omega))
  have evenScale : IsLift 0 N _
      (fun l => loopStep (fun x a b => c.EPSILON * (x + c.DELTA * (b + a))) N N 2
        (firstStep (fun x b => c.EPSILON * (x + 2 * c.DELTA * b)) l)) :=
    IsLift.comp (isLift_firstStep (fun x b => c.EPSILON * (x + 2 * c.DELTA * b)) N h2)
      (isLift_loopStep (fun x a b => c.EPSILON * (x + c.DELTA * (b + a))) 2 N N N
        (by omega) (le_refl _) (by omega))
  have evenUnscale : IsLift 0 N _
      (fun l => loopStep (fun x a b => x / c.EPSILON - c.DELTA * (b + a)) N N 2
        (firstStep (fun x b => x / c.EPSILON - 2 * c.DELTA * b) l)) :=
    IsLift.comp (isLift_firstStep (fun x b => x / c.EPSILON - 2 * c.DELTA * b) N h2)
      (isLift_loopStep (fun x a b => x / c.EPSILON - c.DELTA * (b + a)) 2 N N N
        (by omega) (le_refl _) (by omega))
  have oddDiv : IsLift 1 N _ (loopStep (fun x _ _ => x / (-c.EPSILON)) N N 1) :=
    isLift_loopStep (fun x _ _ => x / (-c.EPSILON)) 1 N N N (le_refl _) (le_refl _) (by omega)
  have oddMul : IsLift 1 N _ (loopStep (fun x _ _ => x * (-c.EPSILON)) N N 1) :=
    isLift_loopStep (fun x _ _ => x * (-c.EPSILON)) 1 N N N (le_refl _) (le_refl _) (by omega)
  -- each phase of the synthesis undoes the matching phase of the analysis
  have k5 : ∀ m : List F, N ≤ m.length →
      loopStep (fun x _ _ => x * (-c.EPSILON)) N N 1
        (loopStep (fun x _ _ => x / (-c.EPSILON)) N N 1 m) = m :=
    IsLift.cancel oddDiv oddMul (by
      intro j x a b
      dsimp only
      split_ifs <;> field_simp)
  have k4 : ∀ m : List F, N ≤ m.length → _ = m :=
    IsLift.cancel evenScale evenUnscale (by
      intro j x a b
      dsimp only
      split_ifs <;> first | omega | field_simp)
  have k3 : ∀ m : List F, N ≤ m.length → _ = m :=
    IsLift.cancel (oddAdd c.GAMMA) (oddSub c.GAMMA) (by
      intro j x a b
      dsimp only
      split_ifs <;> ring)
  have k2 : ∀ m : List F, N ≤ m.length → _ = m :=
    IsLift.cancel evenAdd evenSub (by
      intro j x a b
      dsimp only
      split_ifs <;> ring)
  have k1 : ∀ m : List F, N ≤ m.length → _ = m :=
    IsLift.cancel (oddAdd c.ALPHA) (oddSub c.ALPHA) (by
      intro j x a b
      dsimp only
      split_ifs <;> ring)
  -- lengths along the analysis
  have n1 := (oddAdd c.ALPHA).length l hl
  have n2 := evenAdd.length _ (by rw [n1]; exact hl)
  have n3 := (oddAdd c.GAMMA).length _ (by rw [n2, n1]; exact hl)
  have n4 := evenScale.length _ (by rw [n3, n2, n1]; exact hl)
  beta_reduce at n1 n2 n3 n4 k1 k2 k3 k4
  rw [hS, hA, k5 _ (by rw [n4, n3, n2, n1]; exact hl), k4 _ (by rw [n3, n2, n1]; exact hl),
    k3 _ (by rw [n2, n1]; exact hl), k2 _ (by rw [n1]; exact hl), k1 _ hl]

/-- C2: for every even length `N ≥ 2` and every signal of length `N`, the even
synthesis kernel applied to the output of the even analysis kernel gives the
signal back exactly (for any lifting constants with `EPSILON ≠ 0`, in
particular the fixed ones, over any field); the error is zero, hence within
any relative bound. -/
theorem evenEven_roundtrip (c : Lifting F) (signal : List F) (N : Nat) (hp : N % 2 = 0)
    (h2 : 2 ≤ N) (hlen : signal.length = N) (he : c.EPSILON ≠ 0) :
    QccWAVCDF97SynthesisSymmetricEvenEven c
      (QccWAVCDF97AnalysisSymmetricEvenEven c signal N) N = signal :=
  evenEven_roundtrip_general c signal N hp h2 (by omega) he

theorem specLifting_EPSILON_ne_zero : specLifting.EPSILON ≠ 0 := by
  simp [specLifting]

theorem evenEven_roundtrip_witness :
    QccWAVCDF97SynthesisSymmetricEvenEven specLifting
      (QccWAVCDF97AnalysisSymmetricEvenEven specLifting [3, 1, 4, 1] 4) 4 = [3, 1, 4, 1] :=
  evenEven_roundtrip specLifting [3, 1, 4, 1] 4 (by decide) (by decide) rfl
    specLifting_EPSILON_ne_zero

end EvenKernel

/-! ## Round trip of the odd-length kernel -/

section OddKernel

variable {F : Type} [Field F]

theorem isLift_evenTriple (psi0 : F → F → F) (phi : F → F → F → F) (psi1 : F → F → F)
    (N : Nat) (hp : N % 2 = 1) (h3 : 3 ≤ N) :
    IsLift 0 N
      (fun j x a b =>
        if j = N - 1 then
          psi1 (if 2 ≤ j ∧ j < N - 2 then phi (if j = 0 then psi0 x b else x) a b
            else if j = 0 then psi0 x b else x) a
        else if 2 ≤ j ∧ j < N - 2 then phi (if j = 0 then psi0 x b else x) a b
          else if j = 0 then psi0 x b else x)
      (fun l => lastStep psi1 N (loopStep phi (N - 2) N 2 (firstStep psi0 l))) := by
  have e1 : (N - 1) % 2 = 0 := by omega
  exact IsLift.comp
    (IsLift.comp (isLift_firstStep psi0 N (by omega))
      (isLift_loopStep phi 2 (N - 2) N N (by omega) (by omega) (by omega)))
    (e1 ▸ isLift_lastStep psi1 N (by omega))

theorem oddEven_roundtrip_general (c : Lifting F) (l : List F) (N : Nat) (hp : N % 2 = 1)
    (h3 : 3 ≤ N) (hl : N ≤ l.length) (he : c.EPSILON ≠ 0) :
    QccWAVCDF97SynthesisSymmetricOddEven c (QccWAVCDF97AnalysisSymmetricOddEven c l N) N = l := by
  have hne : -c.EPSILON ≠ 0 := neg_ne_zero.mpr he
  have hA : QccWAVCDF97AnalysisSymmetricOddEven c l N =
      loopStep (fun x _ _ => x / (-c.EPSILON)) (N - 1) N 1
      (lastStep (fun x a => c.EPSILON * (x + 2 * c.DELTA * a)) N
      (loopStep (fun x a b => c.EPSILON * (x + c.DELTA * (b + a))) (N - 2) N 2
      (firstStep (fun x b => c.EPSILON * (x + 2 * c.DELTA * b))
      (loopStep (fun x a b => x + c.GAMMA * (a + b)) (N - 1) N 1
      (lastStep (fun x a => x + 2 * c.BETA * a) N
      (loopStep (fun x a b => x + c.BETA * (b + a)) (N - 2) N 2
      (firstStep (fun x b => x + 2 * c.BETA * b)
      (loopStep (fun x a b => x + c.ALPHA * (a + b)) (N - 1) N 1 l)))))))) := rfl
  have hS : ∀ m, QccWAVCDF97SynthesisSymmetricOddEven c m N =
      loopStep (fun x a b => x - c.ALPHA * (a + b)) (N - 1) N 1
      (lastStep (fun x a => x - 2 * c.BETA * a) N
      (loopStep (fun x a b => x - c.BETA * (b + a)) (N - 2) N 2
      (firstStep (fun x b => x - 2 * c.BETA * b)
      (loopStep (fun x a b => x - c.GAMMA * (a + b)) (N - 1) N 1
      (lastStep (fun x a => x / c.EPSILON - 2 * c.DELTA * a) N
      (loopStep (fun x a b => x / c.EPSILON - c.DELTA * (b + a)) (N - 2) N 2
      (firstStep (fun x b => x / c.EPSILON - 2 * c.DELTA * b)
      (loopStep (fun x _ _ => x * (-c.EPSILON)) (N - 1) N 1 m)))))))) := fun _ => rfl
  have oddAdd : ∀ a : F, IsLift 1 N _ (loopStep (fun x y z => x + a * (y + z)) (N - 1) N 1) :=
    fun a => isLift_loopStep (fun x y z => x + a * (y + z)) 1 (N - 1) N N (le_refl _)
      (by omega) (by omega)
  have oddSub : ∀ a : F, IsLift 1 N _ (loopStep (fun x y z => x - a * (y + z)) (N - 1) N 1) :=
    fun a => isLift_loopStep (fun x y z => x - a * (y + z)) 1 (N - 1) N N (le_refl _)
      (by omega) (by omega)
  have evenAdd := isLift_evenTriple (fun x b => x + 2 * c.BETA * b)
    (fun x a b => x + c.BETA * (b + a)) (fun x a => x + 2 * c.BETA * a) N hp h3
  have evenSub := isLift_evenTriple (fun x b => x - 2 * c.BETA * b)
    (fun x a b => x - c.BETA * (b + a)) (fun x a => x - 2 * c.BETA * a) N hp h3
  have evenScale := isLift_evenTriple (fun x b => c.EPSILON * (x + 2 * c.DELTA * b))
    (fun x a b => c.EPSILON * (x + c.DELTA * (b + a)))
    (fun x a => c.EPSILON * (x + 2 * c.DELTA * a)) N hp h3
  have evenUnscale := isLift_evenTriple (fun x b => x / c.EPSILON - 2 * c.DELTA * b)
    (fun x a b => x / c.EPSILON - c.DELTA * (b + a))
    (fun x a => x / c.EPSILON - 2 * c.DELTA * a) N hp h3
  have oddDiv : IsLift 1 N _ (loopStep (fun x _ _ => x / (-c.EPSILON)) (N - 1) N 1) :=
    isLift_loopStep (fun x _ _ => x / (-c.EPSILON)) 1 (N - 1) N N (le_refl _) (by omega) (by omega)
  have oddMul : IsLift 1 N _ (loopStep (fun x _ _ => x * (-c.EPSILON)) (N - 1) N 1) :=
    isLift_loopStep (fun x _ _ => x * (-c.EPSILON)) 1 (N - 1) N N (le_refl _) (by omega) (by omega)
  have k5 : ∀ m : List F, N ≤ m.length → _ = m :=
    IsLift.cancel oddDiv oddMul (by
      intro j x a b
      dsimp only
      split_ifs <;> field_simp)
  have k4 : ∀ m : List F, N ≤ m.length → _ = m :=
    IsLift.cancel evenScale evenUnscale (by
      intro j x a b
      dsimp only
      split_ifs <;> first | omega | field_simp)
  have k3 : ∀ m : List F, N ≤ m.length → _ = m :=
    IsLift.cancel (oddAdd c.GAMMA) (oddSub c.GAMMA) (by
      intro j x a b
      dsimp only
      split_ifs <;> ring)
  have k2 : ∀ m : List F, N ≤ m.length → _ = m :=
    IsLift.cancel evenAdd evenSub (by
      intro j x a b
      dsimp only
      split_ifs <;> first | omega | ring)
  have k1 : ∀ m : List F, N ≤ m.length → _ = m :=
    IsLift.cancel (oddAdd c.ALPHA) (oddSub c.ALPHA) (by
      intro j x a b
      dsimp only
      split_ifs <;> ring)
  have n1 := (oddAdd c.ALPHA).length l hl
  have n2 := evenAdd.length _ (by rw [n1]; exact hl)
  have n3 := (oddAdd c.GAMMA).length _ (by rw [n2, n1]; exact hl)
  have n4 := evenScale.length _ (by rw [n3, n2, n1]; exact hl)
  beta_reduce at n1 n2 n3 n4 k1 k2 k3 k4 k5
  rw [hS, hA, k5 _ (by rw [n4, n3, n2, n1]; exact hl), k4 _ (by rw [n3, n2, n1]; exact hl),
    k3 _ (by rw [n2, n1]; exact hl), k2 _ (by rw [n1]; exact hl), k1 _ hl]

/-- C3: for every odd length `N ≥ 3` and every signal of length `N`, the odd
synthesis kernel applied to the output of the odd analysis kernel gives the
signal back exactly (for any lifting constants with `EPSILON ≠ 0`, in
particular the fixed ones, over any field); the error is zero, hence within
any relative bound. -/
theorem oddEven_roundtrip (c : Lifting F) (signal : List F) (N : Nat) (hp : N % 2 = 1)
    (h3 : 3 ≤ N) (hlen : signal.length = N) (he : c.EPSILON ≠ 0) :
    QccWAVCDF97SynthesisSymmetricOddEven c
      (QccWAVCDF97AnalysisSymmetricOddEven c signal N) N = signal :=
  oddEven_roundtrip_general c signal N hp h3 (by omega) he

theorem oddEven_roundtrip_witness :
    QccWAVCDF97SynthesisSymmetricOddEven specLifting
      (QccWAVCDF97AnalysisSymmetricOddEven specLifting [2, 7, 1, 8, 2] 5) 5 = [2, 7, 1, 8, 2] :=
  oddEven_roundtrip specLifting [2, 7, 1, 8, 2] 5 (by decide) (by decide) rfl
    specLifting_EPSILON_ne_zero

end OddKernel

/-! ## Reading appended, cut and copied arrays -/

section CopyLemmas

variable {F : Type} [Zero F]

theorem rd_append (a b : List F) (j : Nat) :
    rd (a ++ b) j = if j < a.length then rd a j else rd b (j - a.length) := by
  unfold rd
  by_cases h : j < a.length
  · simp [List.getD_eq_getElem?_getD, List.getElem?_append_left h, h]
  · simp [List.getD_eq_getElem?_getD, List.getElem?_append_right (Nat.le_of_not_lt h), h]

theorem rd_take (l : List F) (n j : Nat) :
    rd (l.take n) j = if j < n then rd l j else 0 := by
  unfold rd
  by_cases h : j < n
  · simp [List.getD_eq_getElem?_getD, List.getElem?_take, h]
  · simp [List.getD_eq_getElem?_getD, List.getElem?_take, h]

theorem rd_drop (l : List F) (n j : Nat) : rd (l.drop n) j = rd l (n + j) := by
  unfold rd
  simp [List.getD_eq_getElem?_getD, List.getElem?_drop]

theorem rd_replicate_zero (n j : Nat) : rd (List.replicate n (0 : F)) j = 0 := by
  unfold rd
  by_cases h : j < n
  · simp [List.getD_eq_getElem?_getD, List.getElem?_replicate, h]
  · simp [List.getD_eq_getElem?_getD, List.getElem?_replicate, h]

theorem memcpy_spec (dst src : List F) (n : Nat) :
    (memcpy dst src n).length = dst.length ∧
    ∀ j, rd (memcpy dst src n) j = if j < n ∧ j < dst.length then rd src j else rd dst j := by
  unfold memcpy
  refine forLoop_one_invariant _ n
    (fun i d => d.length = dst.length ∧
      ∀ j, rd d j = if j < i ∧ j < dst.length then rd src j else rd dst j)
    ?_ n 0 dst (Nat.zero_le _) (by omega) ?_
  · rintro i d hi ⟨hl, hrd⟩
    refine ⟨by rw [length_wr, hl], fun j => ?_⟩
    rw [rd_wr, hrd j, hl]
    by_cases hj : j = i
    · subst hj
      by_cases hlen : j < dst.length
      · have a : j = j ∧ j < dst.length := ⟨rfl, hlen⟩
        have b : j < j + 1 ∧ j < dst.length := ⟨by omega, hlen⟩
        rw [if_pos a, if_pos b]
      · have a : ¬ (j = j ∧ j < dst.length) := by omega
        have b : ¬ (j < j + 1 ∧ j < dst.length) := by omega
        have c : ¬ (j < j ∧ j < dst.length) := by omega
        rw [if_neg a, if_neg b, if_neg c]
    · have a : ¬ (j = i ∧ i < dst.length) := by omega
      rw [if_neg a]
      by_cases c : j < i ∧ j < dst.length
      · have d : j < i + 1 ∧ j < dst.length := by omega
        rw [if_pos c, if_pos d]
      · have d : ¬ (j < i + 1 ∧ j < dst.length) := by omega
        rw [if_neg c, if_neg d]
  · refine ⟨rfl, fun j => ?_⟩
    have a : ¬ (j < 0 ∧ j < dst.length) := by omega
    rw [if_neg a]

theorem through_spec (p : List F) (k : Nat) (f : List F → List F)
    (hf : (f (p.drop k)).length = (p.drop k).length) :
    (through p k f).length = p.length ∧
    ∀ j, rd (through p k f) j = if j < k then rd p j else rd (f (p.drop k)) (j - k) := by
  unfold through
  constructor
  · rw [List.length_append, hf, List.length_take, List.length_drop]
    omega
  · intro j
    rw [rd_append, List.length_take]
    by_cases hk : k ≤ p.length
    · rw [Nat.min_eq_left hk]
      by_cases hj : j < k
      · rw [if_pos hj, if_pos hj, rd_take, if_pos hj]
      · rw [if_neg hj, if_neg hj]
    · have e : min k p.length = p.length := Nat.min_eq_right (by omega)
      have hd : (f (p.drop k)).length = 0 := by
        rw [hf, List.length_drop]; omega
      rw [e]
      by_cases hj : j < p.length
      · have hj2 : j < k := by omega
        rw [if_pos hj, if_pos hj2, rd_take, if_pos hj2]
      · rw [if_neg hj]
        by_cases hj2 : j < k
        · rw [if_pos hj2, rd_of_length_le _ _ (by omega), rd_of_length_le _ _ (by omega)]
        · rw [if_neg hj2, rd_of_length_le _ _ (by omega), rd_of_length_le _ _ (by omega)]

theorem through_memcpy_spec (p src : List F) (k n : Nat) :
    (through p k (fun q => memcpy q src n)).length = p.length ∧
    ∀ j, rd (through p k (fun q => memcpy q src n)) j =
      if k ≤ j ∧ j < k + n ∧ j < p.length then rd src (j - k) else rd p j := by
  obtain ⟨hl, hrd⟩ := through_spec p k (fun q => memcpy q src n) (memcpy_spec _ _ _).1
  refine ⟨hl, fun j => ?_⟩
  rw [hrd j]
  by_cases hj : j < k
  · have a : ¬ (k ≤ j ∧ j < k + n ∧ j < p.length) := by omega
    rw [if_pos hj, if_neg a]
  · rw [if_neg hj]
    rw [(memcpy_spec _ _ _).2, List.length_drop, rd_drop]
    have e : k + (j - k) = j := by omega
    by_cases c : k ≤ j ∧ j < k + n ∧ j < p.length
    · have d : j - k < n ∧ j - k < p.length - k := by omega
      rw [if_pos c, if_pos d]
    · have d : ¬ (j - k < n ∧ j - k < p.length - k) := by omega
      rw [if_neg c, if_neg d, e]

end CopyLemmas

/-! ## The top header -/

theorem length_bytes_of_uint32 (v : Nat) : (bytes_of_uint32 v).length = 4 := rfl

theorem length_vcdim_bytes (st : SPECK3D_OMP_C) : (vcdim_bytes st).length = 24 := rfl

theorem length_flatMap_bytes (ss : List (List Nat)) :
    (ss.flatMap (fun s => bytes_of_uint32 (uint32_t s.length))).length = 4 * ss.length := by
  induction ss with
  | nil => rfl
  | cons s t ih =>
    rw [List.flatMap_cons, List.length_append, ih, length_bytes_of_uint32, List.length_cons]
    omega

/-- The loop over the encoded streams in `m_generate_header`. -/
theorem header_lengths_loop (ss : List (List Nat)) :
    ∀ (h : List Nat) (loc : Nat),
      (ss.foldl (fun (acc : List Nat × Nat) stream =>
          (through acc.1 acc.2 (fun p => memcpy p (bytes_of_uint32 (uint32_t stream.length)) 4),
            acc.2 + 4)) (h, loc)).2 = loc + 4 * ss.length ∧
      (ss.foldl (fun (acc : List Nat × Nat) stream =>
          (through acc.1 acc.2 (fun p => memcpy p (bytes_of_uint32 (uint32_t stream.length)) 4),
            acc.2 + 4)) (h, loc)).1.length = h.length ∧
      ∀ j, rd (ss.foldl (fun (acc : List Nat × Nat) stream =>
          (through acc.1 acc.2 (fun p => memcpy p (bytes_of_uint32 (uint32_t stream.length)) 4),
            acc.2 + 4)) (h, loc)).1 j =
        if loc ≤ j ∧ j < loc + 4 * ss.length ∧ j < h.length
        then rd (ss.flatMap (fun s => bytes_of_uint32 (uint32_t s.length))) (j - loc)
        else rd h j := by
  induction ss with
  | nil =>
    intro h loc
    refine ⟨rfl, rfl, fun j => ?_⟩
    have a : ¬ (loc ≤ j ∧ j < loc + 4 * ([] : List (List Nat)).length ∧ j < h.length) := by
      simp only [List.length_nil]; omega
    rw [if_neg a]
    rfl
  | cons s t ih =>
    intro h loc
    obtain ⟨hl, hrd⟩ := through_memcpy_spec h (bytes_of_uint32 (uint32_t s.length)) loc 4
    obtain ⟨i1, i2, i3⟩ := ih
      (through h loc (fun p => memcpy p (bytes_of_uint32 (uint32_t s.length)) 4)) (loc + 4)
    rw [List.foldl_cons]
    refine ⟨by rw [i1, List.length_cons]; omega, by rw [i2, hl], fun j => ?_⟩
    rw [i3 j, hl, hrd j, List.flatMap_cons, rd_append, length_bytes_of_uint32, List.length_cons]
    by_cases c1 : loc + 4 ≤ j ∧ j < loc + 4 + 4 * t.length ∧ j < h.length
    · have c2 : loc ≤ j ∧ j < loc + 4 * (t.length + 1) ∧ j < h.length := by omega
      have c3 : ¬ (j - loc < 4) := by omega
      have e : j - (loc + 4) = j - loc - 4 := by omega
      rw [if_pos c1, if_pos c2, if_neg c3, e]
    · rw [if_neg c1]
      by_cases c4 : loc ≤ j ∧ j < loc + 4 ∧ j < h.length
      · have c2 : loc ≤ j ∧ j < loc + 4 * (t.length + 1) ∧ j < h.length := by omega
        have c3 : j - loc < 4 := by omega
        rw [if_pos c4, if_pos c2, if_pos c3]
      · have c2 : ¬ (loc ≤ j ∧ j < loc + 4 * (t.length + 1) ∧ j < h.length) := by omega
        rw [if_neg c4, if_neg c2]

/-- What `m_generate_header` computes when the chunk count matches: a header
of `m_header_magic + 4 n` bytes that holds the fields in its first `26 + 4 n`
places (as far as they fit) and zero after them; the write position ends at
`26 + 4 n`. -/
theorem m_generate_header_run_spec (env : Env) (st : SPECK3D_OMP_C)
    (hn : (env.chunk_volume st.m_dims st.m_chunk_dims).length = st.m_encoded_streams.length) :
    (m_generate_header_run env st).2 = 26 + 4 * st.m_encoded_streams.length ∧
    (m_generate_header_run env st).1.length =
      env.m_header_magic + 4 * st.m_encoded_streams.length ∧
    ∀ j, rd (m_generate_header_run env st).1 j =
      if j < env.m_header_magic + 4 * st.m_encoded_streams.length then
        rd ([(10 * env.SPERR_VERSION_MAJOR + env.SPERR_VERSION_MINOR) % 256,
            env.pack_8_booleans [env.USE_ZSTD, true, false, false, false, false, false, false]] ++
          vcdim_bytes st ++
          st.m_encoded_streams.flatMap (fun s => bytes_of_uint32 (uint32_t s.length))) j
      else 0 := by
  have hne : ¬ ((env.chunk_volume st.m_dims st.m_chunk_dims).length ≠
      st.m_encoded_streams.length) := by simp [hn]
  unfold m_generate_header_run
  simp only [hne, if_false]
  rw [hn, Nat.mul_comm st.m_encoded_streams.length 4]
  generalize hM : env.m_header_magic + 4 * st.m_encoded_streams.length = M
  generalize hv : (10 * env.SPERR_VERSION_MAJOR + env.SPERR_VERSION_MINOR) % 256 = v
  generalize hf : env.pack_8_booleans
    [env.USE_ZSTD, true, false, false, false, false, false, false] = f
  obtain ⟨t1, t2⟩ := through_memcpy_spec (wr (wr (List.replicate M 0) 0 v) 1 f) (vcdim_bytes st) 2 24
  obtain ⟨l1, l2, l3⟩ := header_lengths_loop st.m_encoded_streams
    (through (wr (wr (List.replicate M 0) 0 v) 1 f) 2 (fun p => memcpy p (vcdim_bytes st) 24)) 26
  have hlen0 : (wr (wr (List.replicate M (0 : Nat)) 0 v) 1 f).length = M := by
    rw [length_wr, length_wr, List.length_replicate]
  refine ⟨l1, by rw [l2, t1, hlen0], fun j => ?_⟩
  rw [l3 j, t1, hlen0, t2 j, hlen0, rd_wr, rd_wr, length_wr, List.length_replicate,
    rd_replicate_zero, rd_append, rd_append]
  have hv24 := length_vcdim_bytes st
  simp only [List.length_append, List.length_cons, List.length_nil, hv24]
  by_cases hj : j < M
  · rw [if_pos hj]
    by_cases c1 : 26 ≤ j ∧ j < 26 + 4 * st.m_encoded_streams.length ∧ j < M
    · have c2 : ¬ (j < 0 + 1 + 1 + 24) := by omega
      have e : j - (0 + 1 + 1 + 24) = j - 26 := by omega
      rw [if_pos c1, if_neg c2, e]
    · rw [if_neg c1]
      by_cases c3 : 2 ≤ j ∧ j < 2 + 24 ∧ j < M
      · have c2 : j < 0 + 1 + 1 + 24 := by omega
        have c4 : ¬ (j < 0 + 1 + 1) := by omega
        have e : j - (0 + 1 + 1) = j - 2 := by omega
        rw [if_pos c3, if_pos c2, if_neg c4, e]
      · rw [if_neg c3]
        by_cases c5 : j < 2
        · have c2 : j < 0 + 1 + 1 + 24 := by omega
          have c4 : j < 0 + 1 + 1 := by omega
          rw [if_pos c2, if_pos c4]
          by_cases c6 : j = 1
          · subst c6
            have a : 1 = 1 ∧ 1 < M := by omega
            rw [if_pos a]
            rfl
          · have c7 : j = 0 := by omega
            subst c7
            have a : ¬ (0 = 1 ∧ 1 < M) := by omega
            have b : 0 = 0 ∧ 0 < M := by omega
            rw [if_neg a, if_pos b]
            rfl
        · -- beyond the fields: zero on both sides
          have c8 : 26 + 4 * st.m_encoded_streams.length ≤ j := by omega
          have a : ¬ (j = 1 ∧ 1 < M) := by omega
          have b : ¬ (j = 0 ∧ 0 < M) := by omega
          have c2 : ¬ (j < 0 + 1 + 1 + 24) := by omega
          rw [if_neg a, if_neg b, if_neg c2, rd_of_length_le _ _
            (by rw [length_flatMap_bytes]; omega)]
  · have c1 : ¬ (26 ≤ j ∧ j < 26 + 4 * st.m_encoded_streams.length ∧ j < M) := by omega
    have c3 : ¬ (2 ≤ j ∧ j < 2 + 24 ∧ j < M) := by omega
    have a : ¬ (j = 1 ∧ 1 < M) := by omega
    have b : ¬ (j = 0 ∧ 0 < M) := by omega
    rw [if_neg hj, if_neg c1, if_neg c3, if_neg a, if_neg b]

/-- C9, refuted as stated: with one chunk and one encoded stream, and
`m_header_magic = 26` (the value for which the final assertion
`loc == header_size` of `m_generate_header` holds), the header is 30 bytes long,
not `28 + 4 * 1 = 32`. -/
theorem header_length_not_28 :
    (exampleEnv.chunk_volume exampleState.m_dims exampleState.m_chunk_dims).length =
      exampleState.m_encoded_streams.length ∧
    m_generate_header_assert exampleEnv exampleState ∧
    (m_generate_header exampleEnv exampleState).length = 30 ∧
    ¬ ((m_generate_header exampleEnv exampleState).length =
      28 + 4 * exampleState.m_encoded_streams.length) := by
  decide

/-- C9, amended: whenever the number of encoded chunk streams equals the number
of chunks `n`, the header produced by `m_generate_header` is exactly
`m_header_magic + 4 n` bytes long and the function writes `26 + 4 n` of them;
the final assertion `loc == header_size` holds exactly when
`m_header_magic = 26`, and then the header is `26 + 4 n` bytes long. -/
theorem header_length (env : Env) (st : SPECK3D_OMP_C)
    (hn : (env.chunk_volume st.m_dims st.m_chunk_dims).length = st.m_encoded_streams.length) :
    (m_generate_header env st).length = env.m_header_magic + 4 * st.m_encoded_streams.length ∧
    (m_generate_header_run env st).2 = 26 + 4 * st.m_encoded_streams.length ∧
    (m_generate_header_assert env st ↔ env.m_header_magic = 26) ∧
    (m_generate_header_assert env st →
      (m_generate_header env st).length = 26 + 4 * st.m_encoded_streams.length) := by
  obtain ⟨h1, h2, -⟩ := m_generate_header_run_spec env st hn
  have hiff : m_generate_header_assert env st ↔ env.m_header_magic = 26 := by
    unfold m_generate_header_assert
    rw [h1, hn]
    omega
  refine ⟨h2, h1, hiff, fun ha => ?_⟩
  unfold m_generate_header
  rw [h2, hiff.mp ha]

theorem header_length_witness :
    (m_generate_header exampleEnv exampleState).length =
      exampleEnv.m_header_magic + 4 * exampleState.m_encoded_streams.length ∧
    (m_generate_header_run exampleEnv exampleState).2 =
      26 + 4 * exampleState.m_encoded_streams.length ∧
    (m_generate_header_assert exampleEnv exampleState ↔ exampleEnv.m_header_magic = 26) ∧
    (m_generate_header_assert exampleEnv exampleState →
      (m_generate_header exampleEnv exampleState).length =
        26 + 4 * exampleState.m_encoded_streams.length) :=
  header_length exampleEnv exampleState (by decide)

/-- C10: whenever the number of encoded chunk streams equals the number of
chunks `n` (and `m_header_magic` is 26, the size of the fixed fields), the
header consists of exactly these fields in this order and nothing else: the
version byte `10 * SPERR_VERSION_MAJOR + SPERR_VERSION_MINOR` (stored in a
`uint8_t`), the flag byte packing `[USE_ZSTD, true, false x 6]`, the six values
`Dx, Dy, Dz, Cx, Cy, Cz` each as four little-endian bytes of a `uint32_t`, then
the `n` stream lengths each as four little-endian bytes of a `uint32_t`, in
chunk order; the write position ends at the header's size, so the final
assertion holds and every header byte is written. -/
theorem header_layout (env : Env) (st : SPECK3D_OMP_C)
    (hn : (env.chunk_volume st.m_dims st.m_chunk_dims).length = st.m_encoded_streams.length)
    (hmagic : env.m_header_magic = 26) :
    m_generate_header env st =
      [(10 * env.SPERR_VERSION_MAJOR + env.SPERR_VERSION_MINOR) % 256,
        env.pack_8_booleans [env.USE_ZSTD, true, false, false, false, false, false, false]] ++
      (bytes_of_uint32 (uint32_t st.m_dims.x) ++ bytes_of_uint32 (uint32_t st.m_dims.y) ++
        bytes_of_uint32 (uint32_t st.m_dims.z) ++ bytes_of_uint32 (uint32_t st.m_chunk_dims.x) ++
        bytes_of_uint32 (uint32_t st.m_chunk_dims.y) ++
        bytes_of_uint32 (uint32_t st.m_chunk_dims.z)) ++
      st.m_encoded_streams.flatMap (fun s => bytes_of_uint32 (uint32_t s.length)) ∧
    m_generate_header_assert env st ∧
    (m_generate_header_run env st).2 = (m_generate_header env st).length := by
  obtain ⟨h1, h2, h3⟩ := m_generate_header_run_spec env st hn
  have hlenF : ([(10 * env.SPERR_VERSION_MAJOR + env.SPERR_VERSION_MINOR) % 256,
        env.pack_8_booleans [env.USE_ZSTD, true, false, false, false, false, false, false]] ++
      vcdim_bytes st ++
      st.m_encoded_streams.flatMap (fun s => bytes_of_uint32 (uint32_t s.length))).length =
      26 + 4 * st.m_encoded_streams.length := by
    rw [List.length_append, List.length_append, length_flatMap_bytes, length_vcdim_bytes]
    simp only [List.length_cons, List.length_nil]
  refine ⟨?_, ?_, ?_⟩
  · unfold m_generate_header
    refine ext_rd (by rw [h2, hmagic]; exact hlenF.symm) (fun j hj => ?_)
    rw [h2] at hj
    rw [h3 j, if_pos hj]
    rfl
  · unfold m_generate_header_assert
    rw [h1, hn, hmagic]
    omega
  · unfold m_generate_header
    rw [h1, h2, hmagic]

theorem header_layout_witness :
    m_generate_header exampleEnv exampleState =
      [(10 * exampleEnv.SPERR_VERSION_MAJOR + exampleEnv.SPERR_VERSION_MINOR) % 256,
        exampleEnv.pack_8_booleans
          [exampleEnv.USE_ZSTD, true, false, false, false, false, false, false]] ++
      (bytes_of_uint32 (uint32_t exampleState.m_dims.x) ++
        bytes_of_uint32 (uint32_t exampleState.m_dims.y) ++
        bytes_of_uint32 (uint32_t exampleState.m_dims.z) ++
        bytes_of_uint32 (uint32_t exampleState.m_chunk_dims.x) ++
        bytes_of_uint32 (uint32_t exampleState.m_chunk_dims.y) ++
        bytes_of_uint32 (uint32_t exampleState.m_chunk_dims.z)) ++
      exampleState.m_encoded_streams.flatMap (fun s => bytes_of_uint32 (uint32_t s.length)) ∧
    m_generate_header_assert exampleEnv exampleState ∧
    (m_generate_header_run exampleEnv exampleState).2 =
      (m_generate_header exampleEnv exampleState).length :=
  header_layout exampleEnv exampleState (by decide) rfl

/-! ## Assembly of the bitstream -/

theorem total_size_eq (ss : List (List Nat)) :
    ∀ a : Nat, ss.foldl (fun a b => a + b.length) a = a + ss.flatten.length := by
  induction ss with
  | nil => intro a; rfl
  | cons s t ih =>
    intro a
    rw [List.foldl_cons, ih, List.flatten_cons, List.length_append]
    omega

/-- The loop over the encoded streams in `get_encoded_bitstream`. -/
theorem stream_copy_loop (ss : List (List Nat)) :
    ∀ (h : List Nat) (loc : Nat),
      (ss.foldl (fun (acc : List Nat × Nat) s =>
          (through acc.1 acc.2 (fun p => memcpy p s s.length), acc.2 + s.length)) (h, loc)).1.length
        = h.length ∧
      ∀ j, rd (ss.foldl (fun (acc : List Nat × Nat) s =>
          (through acc.1 acc.2 (fun p => memcpy p s s.length), acc.2 + s.length)) (h, loc)).1 j =
        if loc ≤ j ∧ j < loc + ss.flatten.length ∧ j < h.length
        then rd ss.flatten (j - loc) else rd h j := by
  induction ss with
  | nil =>
    intro h loc
    refine ⟨rfl, fun j => ?_⟩
    have a : ¬ (loc ≤ j ∧ j < loc + ([] : List (List Nat)).flatten.length ∧ j < h.length) := by
      simp only [List.flatten_nil, List.length_nil]; omega
    rw [if_neg a]
    rfl
  | cons s t ih =>
    intro h loc
    obtain ⟨hl, hrd⟩ := through_memcpy_spec h s loc s.length
    obtain ⟨i2, i3⟩ := ih (through h loc (fun p => memcpy p s s.length)) (loc + s.length)
    rw [List.foldl_cons]
    refine ⟨by rw [i2, hl], fun j => ?_⟩
    rw [i3 j, hl, hrd j, List.flatten_cons, rd_append, List.length_append]
    by_cases c1 : loc + s.length ≤ j ∧ j < loc + s.length + t.flatten.length ∧ j < h.length
    · have c2 : loc ≤ j ∧ j < loc + (s.length + t.flatten.length) ∧ j < h.length := by omega
      have c3 : ¬ (j - loc < s.length) := by omega
      have e : j - (loc + s.length) = j - loc - s.length := by omega
      rw [if_pos c1, if_pos c2, if_neg c3, e]
    · rw [if_neg c1]
      by_cases c4 : loc ≤ j ∧ j < loc + s.length ∧ j < h.length
      · have c2 : loc ≤ j ∧ j < loc + (s.length + t.flatten.length) ∧ j < h.length := by omega
        have c3 : j - loc < s.length := by omega
        rw [if_pos c4, if_pos c2, if_pos c3]
      · have c2 : ¬ (loc ≤ j ∧ j < loc + (s.length + t.flatten.length) ∧ j < h.length) := by
          omega
        rw [if_neg c4, if_neg c2]

/-- What `get_encoded_bitstream` returns for a non-empty header. -/
theorem get_encoded_bitstream_eq (env : Env) (st : SPECK3D_OMP_C)
    (hh : m_generate_header env st ≠ []) :
    get_encoded_bitstream env st = m_generate_header env st ++ st.m_encoded_streams.flatten := by
  have hne : (m_generate_header env st).isEmpty = false := by
    cases h : m_generate_header env st with
    | nil => exact absurd h hh
    | cons a t => rfl
  unfold get_encoded_bitstream
  simp only [hne, Bool.false_eq_true, if_false]
  generalize m_generate_header env st = header
  rw [total_size_eq]
  obtain ⟨m1, m2⟩ := memcpy_spec
    (List.replicate (header.length + st.m_encoded_streams.flatten.length) (0 : Nat))
    header header.length
  obtain ⟨l2, l3⟩ := stream_copy_loop st.m_encoded_streams
    (memcpy (List.replicate (header.length + st.m_encoded_streams.flatten.length) (0 : Nat))
      header header.length) header.length
  rw [List.length_replicate] at m1 m2
  refine ext_rd (by rw [l2, m1, List.length_append]) (fun j hj => ?_)
  rw [l2, m1] at hj
  rw [l3 j, m1, m2 j, rd_append, rd_replicate_zero]
  by_cases c : j < header.length
  · have c1 : ¬ (header.length ≤ j ∧ j < header.length + st.m_encoded_streams.flatten.length ∧
        j < header.length + st.m_encoded_streams.flatten.length) := by omega
    have c2 : j < header.length ∧ j < header.length + st.m_encoded_streams.flatten.length := by
      omega
    rw [if_neg c1, if_pos c2, if_pos c]
  · have c1 : header.length ≤ j ∧ j < header.length + st.m_encoded_streams.flatten.length ∧
        j < header.length + st.m_encoded_streams.flatten.length := by omega
    rw [if_pos c1, if_neg c]

theorem flatten_slice (L : List (List Nat)) :
    ∀ i, i < L.length →
      (L.flatten.drop ((L.take i).map List.length).sum).take (L.getD i []).length =
        L.getD i [] := by
  induction L with
  | nil => intro i hi; simp at hi
  | cons s t ih =>
    intro i hi
    cases i with
    | zero => simp
    | succ k =>
      have hk : k < t.length := by simpa using hi
      have := ih k hk
      simpa [List.drop_append] using this

/-- C11: whenever the header is non-empty, `get_encoded_bitstream` returns
exactly the header followed by the encoded streams in chunk-index order; its
length is the header's plus the sum of the streams' lengths, and stream `i`
occupies the bytes from offset `|header| + |s_0| + ... + |s_(i-1)|` on. -/
theorem bitstream_is_header_then_streams (env : Env) (st : SPECK3D_OMP_C)
    (hh : m_generate_header env st ≠ []) :
    get_encoded_bitstream env st = m_generate_header env st ++ st.m_encoded_streams.flatten ∧
    (get_encoded_bitstream env st).length =
      (m_generate_header env st).length + (st.m_encoded_streams.map List.length).sum ∧
    ∀ i, i < st.m_encoded_streams.length →
      ((get_encoded_bitstream env st).drop
          ((m_generate_header env st).length +
            ((st.m_encoded_streams.take i).map List.length).sum)).take
        (st.m_encoded_streams.getD i []).length = st.m_encoded_streams.getD i [] := by
  have e := get_encoded_bitstream_eq env st hh
  refine ⟨e, ?_, fun i hi => ?_⟩
  · rw [e, List.length_append, List.length_flatten]
  · rw [e, List.drop_append, flatten_slice _ i hi]

theorem bitstream_is_header_then_streams_witness :
    get_encoded_bitstream exampleEnv exampleState =
      m_generate_header exampleEnv exampleState ++ exampleState.m_encoded_streams.flatten ∧
    (get_encoded_bitstream exampleEnv exampleState).length =
      (m_generate_header exampleEnv exampleState).length +
        (exampleState.m_encoded_streams.map List.length).sum ∧
    ∀ i, i < exampleState.m_encoded_streams.length →
      ((get_encoded_bitstream exampleEnv exampleState).drop
          ((m_generate_header exampleEnv exampleState).length +
            ((exampleState.m_encoded_streams.take i).map List.length).sum)).take
        (exampleState.m_encoded_streams.getD i []).length =
        exampleState.m_encoded_streams.getD i [] :=
  bitstream_is_header_then_streams exampleEnv exampleState (by decide)

/-! ## Faithfulness of the 32-bit header fields -/

/-- C12, refuted as stated: for a volume of `2^32 x 1 x 1` samples in one chunk
the header is generated, and its first dimension field decodes to 0, not to the
x extent `2^32` held by the object. -/
theorem header_dim_field_truncated :
    (exampleEnv.chunk_volume wideState.m_dims wideState.m_chunk_dims).length =
      wideState.m_encoded_streams.length ∧
    uint32_of_bytes ((m_generate_header exampleEnv wideState).drop 2) = 0 ∧
    wideState.m_dims.x = 4294967296 ∧
    ¬ (uint32_of_bytes ((m_generate_header exampleEnv wideState).drop 2) = wideState.m_dims.x) := by
  decide

theorem uint32_roundtrip (v : Nat) (hv : v < 2 ^ 32) :
    uint32_of_bytes (bytes_of_uint32 (uint32_t v)) = v := by
  have h : v < 4294967296 := by simpa using hv
  simp only [uint32_of_bytes, bytes_of_uint32, uint32_t, rd, List.getD_cons_zero,
    List.getD_cons_succ]
  norm_num
  omega

theorem uint32_of_bytes_eq (a b : List Nat)
    (h : rd a 0 = rd b 0 ∧ rd a 1 = rd b 1 ∧ rd a 2 = rd b 2 ∧ rd a 3 = rd b 3) :
    uint32_of_bytes a = uint32_of_bytes b := by
  unfold uint32_of_bytes
  rw [h.1, h.2.1, h.2.2.1, h.2.2.2]

theorem rd_flatMap_bytes (g : List Nat → List Nat) (hg : ∀ s, (g s).length = 4)
    (ss : List (List Nat)) :
    ∀ i m, i < ss.length → m < 4 → rd (ss.flatMap g) (4 * i + m) = rd (g (ss.getD i [])) m := by
  induction ss with
  | nil => intro i m hi; simp at hi
  | cons s t ih =>
    intro i m hi hm
    rw [List.flatMap_cons, rd_append, hg]
    cases i with
    | zero =>
      have a : 4 * 0 + m < 4 := by omega
      rw [if_pos a]
      simp
    | succ k =>
      have hk : k < t.length := by simpa using hi
      have a : ¬ (4 * (k + 1) + m < 4) := by omega
      have e : 4 * (k + 1) + m - 4 = 4 * k + m := by omega
      rw [if_neg a, e, ih k m hk hm]
      simp

theorem map_range_getD {β : Type} (L : List (List Nat)) (f : List Nat → β) :
    (List.range L.length).map (fun i => f (L.getD i [])) = L.map f := by
  apply List.ext_getElem
  · simp
  · intro i h1 h2
    have hi : i < L.length := by simpa using h1
    simp [List.getD_eq_getElem?_getD, List.getElem?_eq_getElem hi]

theorem rd_header_fields (env : Env) (st : SPECK3D_OMP_C)
    (hn : (env.chunk_volume st.m_dims st.m_chunk_dims).length = st.m_encoded_streams.length)
    (hmagic : env.m_header_magic = 26) (j : Nat) (hj : j < 26 + 4 * st.m_encoded_streams.length) :
    rd (m_generate_header env st) j =
      rd ([(10 * env.SPERR_VERSION_MAJOR + env.SPERR_VERSION_MINOR) % 256,
          env.pack_8_booleans [env.USE_ZSTD, true, false, false, false, false, false, false]] ++
        vcdim_bytes st ++
        st.m_encoded_streams.flatMap (fun s => bytes_of_uint32 (uint32_t s.length))) j := by
  obtain ⟨-, -, h3⟩ := m_generate_header_run_spec env st hn
  unfold m_generate_header
  rw [h3 j, hmagic, if_pos hj]

theorem header_dim_field (env : Env) (st : SPECK3D_OMP_C)
    (hn : (env.chunk_volume st.m_dims st.m_chunk_dims).length = st.m_encoded_streams.length)
    (hmagic : env.m_header_magic = 26) (k v : Nat) (hk : k < 6) (hv : v < 2 ^ 32)
    (hf : ∀ m, m < 4 → rd (vcdim_bytes st) (4 * k + m) = rd (bytes_of_uint32 (uint32_t v)) m) :
    uint32_of_bytes ((m_generate_header env st).drop (2 + 4 * k)) = v := by
  have key : ∀ m, m < 4 → rd ((m_generate_header env st).drop (2 + 4 * k)) m =
      rd (bytes_of_uint32 (uint32_t v)) m := by
    intro m hm
    rw [rd_drop, rd_header_fields env st hn hmagic _ (by omega), rd_append, rd_append,
      ← hf m hm]
    have a : 2 + 4 * k + m <
        ([(10 * env.SPERR_VERSION_MAJOR + env.SPERR_VERSION_MINOR) % 256,
          env.pack_8_booleans [env.USE_ZSTD, true, false, false, false, false, false, false]] ++
        vcdim_bytes st).length := by
      rw [List.length_append, length_vcdim_bytes]
      simp only [List.length_cons, List.length_nil]
      omega
    have b : ¬ (2 + 4 * k + m <
        [(10 * env.SPERR_VERSION_MAJOR + env.SPERR_VERSION_MINOR) % 256,
          env.pack_8_booleans
            [env.USE_ZSTD, true, false, false, false, false, false, false]].length) := by
      simp only [List.length_cons, List.length_nil]
      omega
    have e : 2 + 4 * k + m -
        [(10 * env.SPERR_VERSION_MAJOR + env.SPERR_VERSION_MINOR) % 256,
          env.pack_8_booleans
            [env.USE_ZSTD, true, false, false, false, false, false, false]].length = 4 * k + m := by
      simp only [List.length_cons, List.length_nil]
      omega
    rw [if_pos a, if_neg b, e]
  rw [uint32_of_bytes_eq _ _ ⟨key 0 (by omega), key 1 (by omega), key 2 (by omega),
    key 3 (by omega)⟩, uint32_roundtrip v hv]

theorem header_len_field (env : Env) (st : SPECK3D_OMP_C)
    (hn : (env.chunk_volume st.m_dims st.m_chunk_dims).length = st.m_encoded_streams.length)
    (hmagic : env.m_header_magic = 26) (i : Nat) (hi : i < st.m_encoded_streams.length)
    (hv : (st.m_encoded_streams.getD i []).length < 2 ^ 32) :
    uint32_of_bytes ((m_generate_header env st).drop (26 + 4 * i)) =
      (st.m_encoded_streams.getD i []).length := by
  have key : ∀ m, m < 4 → rd ((m_generate_header env st).drop (26 + 4 * i)) m =
      rd (bytes_of_uint32 (uint32_t (st.m_encoded_streams.getD i []).length)) m := by
    intro m hm
    rw [rd_drop, rd_header_fields env st hn hmagic _ (by omega), rd_append,
      ← rd_flatMap_bytes (fun s => bytes_of_uint32 (uint32_t s.length))
        (fun _ => rfl) st.m_encoded_streams i m hi hm]
    have b : ¬ (26 + 4 * i + m <
        ([(10 * env.SPERR_VERSION_MAJOR + env.SPERR_VERSION_MINOR) % 256,
          env.pack_8_booleans [env.USE_ZSTD, true, false, false, false, false, false, false]] ++
        vcdim_bytes st).length) := by
      rw [List.length_append, length_vcdim_bytes]
      simp only [List.length_cons, List.length_nil]
      omega
    have e : 26 + 4 * i + m -
        ([(10 * env.SPERR_VERSION_MAJOR + env.SPERR_VERSION_MINOR) % 256,
          env.pack_8_booleans [env.USE_ZSTD, true, false, false, false, false, false, false]] ++
        vcdim_bytes st).length = 4 * i + m := by
      rw [List.length_append, length_vcdim_bytes]
      simp only [List.length_cons, List.length_nil]
      omega
    rw [if_neg b, e]
  rw [uint32_of_bytes_eq _ _ ⟨key 0 (by omega), key 1 (by omega), key 2 (by omega),
    key 3 (by omega)⟩, uint32_roundtrip _ hv]

/-- C12, amended: for every state of the compressor whose volume dims, chunk
dims and chunk stream lengths are all below `2^32` (with as many streams as
chunks and `m_header_magic = 26`), the 32-bit fields of the generated header are
faithful: the six dimension fields decode to the volume dims and chunk dims
held by the object, the `i`-th length field decodes to the byte length of
stream `i`, and the total bitstream length is the header length plus the sum of
the header-declared chunk lengths. -/
theorem header_fields_faithful (env : Env) (st : SPECK3D_OMP_C)
    (hn : (env.chunk_volume st.m_dims st.m_chunk_dims).length = st.m_encoded_streams.length)
    (hmagic : env.m_header_magic = 26)
    (hd : st.m_dims.x < 2 ^ 32 ∧ st.m_dims.y < 2 ^ 32 ∧ st.m_dims.z < 2 ^ 32)
    (hc : st.m_chunk_dims.x < 2 ^ 32 ∧ st.m_chunk_dims.y < 2 ^ 32 ∧ st.m_chunk_dims.z < 2 ^ 32)
    (hs : ∀ i, i < st.m_encoded_streams.length →
      (st.m_encoded_streams.getD i []).length < 2 ^ 32) :
    uint32_of_bytes ((m_generate_header env st).drop 2) = st.m_dims.x ∧
    uint32_of_bytes ((m_generate_header env st).drop 6) = st.m_dims.y ∧
    uint32_of_bytes ((m_generate_header env st).drop 10) = st.m_dims.z ∧
    uint32_of_bytes ((m_generate_header env st).drop 14) = st.m_chunk_dims.x ∧
    uint32_of_bytes ((m_generate_header env st).drop 18) = st.m_chunk_dims.y ∧
    uint32_of_bytes ((m_generate_header env st).drop 22) = st.m_chunk_dims.z ∧
    (∀ i, i < st.m_encoded_streams.length →
      uint32_of_bytes ((m_generate_header env st).drop (26 + 4 * i)) =
        (st.m_encoded_streams.getD i []).length) ∧
    (get_encoded_bitstream env st).length =
      (m_generate_header env st).length +
        ((List.range st.m_encoded_streams.length).map (fun i =>
          uint32_of_bytes ((m_generate_header env st).drop (26 + 4 * i)))).sum := by
  have hlen := fun i hi => header_len_field env st hn hmagic i hi (hs i hi)
  refine ⟨header_dim_field env st hn hmagic 0 _ (by omega) hd.1 ?_,
    header_dim_field env st hn hmagic 1 _ (by omega) hd.2.1 ?_,
    header_dim_field env st hn hmagic 2 _ (by omega) hd.2.2 ?_,
    header_dim_field env st hn hmagic 3 _ (by omega) hc.1 ?_,
    header_dim_field env st hn hmagic 4 _ (by omega) hc.2.1 ?_,
    header_dim_field env st hn hmagic 5 _ (by omega) hc.2.2 ?_, hlen, ?_⟩
  case refine_7 =>
    have hh : m_generate_header env st ≠ [] := by
      intro h0
      have := (m_generate_header_run_spec env st hn).2.1
      unfold m_generate_header at h0
      rw [h0, hmagic] at this
      simp only [List.length_nil] at this
      omega
    have e : (List.range st.m_encoded_streams.length).map (fun i =>
        uint32_of_bytes ((m_generate_header env st).drop (26 + 4 * i))) =
        (List.range st.m_encoded_streams.length).map (fun i =>
          (st.m_encoded_streams.getD i []).length) := by
      apply List.map_congr_left
      intro i hi
      exact hlen i (List.mem_range.mp hi)
    rw [e, map_range_getD st.m_encoded_streams List.length, get_encoded_bitstream_eq env st hh,
      List.length_append, List.length_flatten]
  all_goals
    intro m hm
    have hm' : m = 0 ∨ m = 1 ∨ m = 2 ∨ m = 3 := by omega
    rcases hm' with h | h | h | h <;> subst h <;> rfl

theorem header_fields_faithful_witness :
    uint32_of_bytes ((m_generate_header exampleEnv exampleState).drop 2) = exampleState.m_dims.x ∧
    uint32_of_bytes ((m_generate_header exampleEnv exampleState).drop 6) = exampleState.m_dims.y ∧
    uint32_of_bytes ((m_generate_header exampleEnv exampleState).drop 10) = exampleState.m_dims.z ∧
    uint32_of_bytes ((m_generate_header exampleEnv exampleState).drop 14) =
      exampleState.m_chunk_dims.x ∧
    uint32_of_bytes ((m_generate_header exampleEnv exampleState).drop 18) =
      exampleState.m_chunk_dims.y ∧
    uint32_of_bytes ((m_generate_header exampleEnv exampleState).drop 22) =
      exampleState.m_chunk_dims.z ∧
    (∀ i, i < exampleState.m_encoded_streams.length →
      uint32_of_bytes ((m_generate_header exampleEnv exampleState).drop (26 + 4 * i)) =
        (exampleState.m_encoded_streams.getD i []).length) ∧
    (get_encoded_bitstream exampleEnv exampleState).length =
      (m_generate_header exampleEnv exampleState).length +
        ((List.range exampleState.m_encoded_streams.length).map (fun i =>
          uint32_of_bytes ((m_generate_header exampleEnv exampleState).drop (26 + 4 * i)))).sum :=
  header_fields_faithful exampleEnv exampleState (by decide) rfl (by decide) (by decide)
    (by decide)

/-! ## Parameter setters -/

/-- C14: `set_tolerance(t)` returns `InvalidParam` and leaves the object, the
stored tolerance included, unchanged if and only if `t ≤ 0`; for every `t > 0`
it returns `Good` and the stored tolerance becomes `t`. -/
theorem set_tolerance_spec (st : SPECK3D_OMP_C) (t : ℚ) :
    ((set_tolerance st t).1 = RTNType.InvalidParam ↔ t ≤ 0) ∧
    set_tolerance st t =
      (if t ≤ 0 then (RTNType.InvalidParam, st)
       else (RTNType.Good, { st with m_tol := t })) ∧
    ((set_tolerance st t).1 = RTNType.Good ↔ 0 < t) := by
  by_cases h : t ≤ 0
  · have h' : ¬ (0 < t) := not_lt.mpr h
    simp [set_tolerance, h, h']
  · have h' : 0 < t := not_le.mp h
    simp [set_tolerance, h, h']

/-! ## `use_volume` -/

theorem fill_step {α : Type} (f : Nat → α) (d : α) (i n : Nat) (hi : i < n) :
    wr ((List.range i).map f ++ List.replicate (n - i) d) i (f i) =
      (List.range (i + 1)).map f ++ List.replicate (n - (i + 1)) d := by
  have e : n - i = (n - (i + 1)) + 1 := by omega
  have hl : ((List.range i).map f).length = i := by simp
  unfold wr
  rw [e, List.replicate_succ, List.set_append, hl, if_neg (Nat.lt_irrefl i), Nat.sub_self,
    List.set_cons_zero, List.range_succ, List.map_append, List.append_assoc]
  rfl

/-- The loop of `use_volume` that fills the chunk buffers. -/
theorem fill_loop {α : Type} (f : Nat → α) (d : α) (n : Nat) :
    forLoop n 1 (fun i l => wr l i (f i)) n 0 (List.replicate n d) = (List.range n).map f := by
  have := forLoop_one_invariant (fun i l => wr l i (f i)) n
    (fun i l => l = (List.range i).map f ++ List.replicate (n - i) d)
    (fun i l hi hl => by rw [hl]; exact fill_step f d i n hi) n 0 (List.replicate n d)
    (Nat.zero_le _) (by omega) (by simp)
  simpa using this

/-! ## `compress` -/

/-- The loop of `compress`: afterwards `chunk_rtn` and the encoded streams hold
what the compressor of each chunk returned. -/
theorem compress_loop (env : Env) (outcome : Nat → ChunkOutcome) (n : Nat)
    (start : CompressLoop)
    (h1 : start.chunk_rtn = List.replicate n RTNType.Good)
    (h2 : start.m_encoded_streams = List.replicate n []) :
    (forLoop n 1 (fun i (s : CompressLoop) =>
      ({ m_chunk_buffers := wr s.m_chunk_buffers i []
         chunk_rtn := wr s.chunk_rtn i (outcome i).rtn
         m_encoded_streams := wr s.m_encoded_streams i (outcome i).stream
         m_outlier_stats :=
           if env.QZ_TERM then wr s.m_outlier_stats i (outcome i).outlier_stats
           else s.m_outlier_stats } : CompressLoop)) n 0 start).chunk_rtn =
      (List.range n).map (fun i => (outcome i).rtn) ∧
    (forLoop n 1 (fun i (s : CompressLoop) =>
      ({ m_chunk_buffers := wr s.m_chunk_buffers i []
         chunk_rtn := wr s.chunk_rtn i (outcome i).rtn
         m_encoded_streams := wr s.m_encoded_streams i (outcome i).stream
         m_outlier_stats :=
           if env.QZ_TERM then wr s.m_outlier_stats i (outcome i).outlier_stats
           else s.m_outlier_stats } : CompressLoop)) n 0 start).m_encoded_streams =
      (List.range n).map (fun i => (outcome i).stream) := by
  have := forLoop_one_invariant (fun i (s : CompressLoop) =>
      ({ m_chunk_buffers := wr s.m_chunk_buffers i []
         chunk_rtn := wr s.chunk_rtn i (outcome i).rtn
         m_encoded_streams := wr s.m_encoded_streams i (outcome i).stream
         m_outlier_stats :=
           if env.QZ_TERM then wr s.m_outlier_stats i (outcome i).outlier_stats
           else s.m_outlier_stats } : CompressLoop)) n
    (fun i s =>
      s.chunk_rtn = (List.range i).map (fun i => (outcome i).rtn) ++
        List.replicate (n - i) RTNType.Good ∧
      s.m_encoded_streams = (List.range i).map (fun i => (outcome i).stream) ++
        List.replicate (n - i) [])
    (fun i s hi hs => by
      refine ⟨?_, ?_⟩
      · show wr s.chunk_rtn i (outcome i).rtn = _
        rw [hs.1]
        exact fill_step (fun i => (outcome i).rtn) RTNType.Good i n hi
      · show wr s.m_encoded_streams i (outcome i).stream = _
        rw [hs.2]
        exact fill_step (fun i => (outcome i).stream) [] i n hi)
    n 0 start (Nat.zero_le _) (by omega) (by simp [h1, h2])
  simpa using this

/-- `compress` never changes the volume dims or the chunk dims. -/
theorem compress_dims (env : Env) (outcome : Nat → ChunkOutcome) (st : SPECK3D_OMP_C) :
    (compress env outcome st).2.m_dims = st.m_dims ∧
    (compress env outcome st).2.m_chunk_dims = st.m_chunk_dims := by
  unfold compress
  dsimp only
  split_ifs <;> exact ⟨rfl, rfl⟩

/-- What `compress` does once the chunk buffers are ready (one non-empty buffer
per chunk): it stores the stream of every chunk and returns `Good` exactly when
every result is `Good` and every stream non-empty, else `Error`. -/
theorem compress_ready (env : Env) (outcome : Nat → ChunkOutcome) (st : SPECK3D_OMP_C)
    (h1 : st.m_chunk_buffers.length = (env.chunk_volume st.m_dims st.m_chunk_dims).length)
    (h2 : st.m_chunk_buffers.any (fun v => v.isEmpty) = false) :
    (compress env outcome st).2.m_encoded_streams =
      (List.range (env.chunk_volume st.m_dims st.m_chunk_dims).length).map
        (fun i => (outcome i).stream) ∧
    (compress env outcome st).1 =
      (if ((List.range (env.chunk_volume st.m_dims st.m_chunk_dims).length).map
          (fun i => (outcome i).rtn)).any (fun r => r ≠ RTNType.Good) then RTNType.Error
       else if ((List.range (env.chunk_volume st.m_dims st.m_chunk_dims).length).map
          (fun i => (outcome i).stream)).any (fun s => s.isEmpty) then RTNType.Error
       else RTNType.Good) := by
  have hc := compress_loop env outcome (env.chunk_volume st.m_dims st.m_chunk_dims).length
    { m_chunk_buffers := st.m_chunk_buffers
      chunk_rtn := List.replicate (env.chunk_volume st.m_dims st.m_chunk_dims).length RTNType.Good
      m_encoded_streams := List.replicate (env.chunk_volume st.m_dims st.m_chunk_dims).length []
      m_outlier_stats :=
        if env.QZ_TERM then
          List.replicate (env.chunk_volume st.m_dims st.m_chunk_dims).length (0, 0)
        else st.m_outlier_stats } rfl rfl
  have g1 : ¬ (st.m_chunk_buffers.length ≠ (env.chunk_volume st.m_dims st.m_chunk_dims).length) :=
    fun h => h h1
  unfold compress
  dsimp only
  rw [if_neg g1, h2]
  simp only [Bool.false_eq_true, if_false]
  rw [hc.1, hc.2]
  constructor
  · split_ifs <;> rfl
  · split_ifs <;> rfl

/-- C17, refuted as stated: the compressor of the only chunk fails, `compress`
returns `Error`, and a following `get_encoded_bitstream` yields the 30 bytes of
the header, not an empty vector. -/
theorem failed_compress_bitstream_not_empty :
    (compress exampleEnv failingOutcome readyState).1 = RTNType.Error ∧
    (get_encoded_bitstream exampleEnv (compress exampleEnv failingOutcome readyState).2).length
      = 30 ∧
    ¬ (get_encoded_bitstream exampleEnv (compress exampleEnv failingOutcome readyState).2 = []) := by
  decide

/-- C17, amended: if `compress` (run on ready chunk buffers) returns a non-Good
result because the compressor of at least one chunk failed, it returns `Error`
and keeps the streams the chunk compressors left; a following
`get_encoded_bitstream` yields the header followed by these streams, a vector
of `m_header_magic + 4 n` bytes plus the streams' bytes, which is not empty. -/
theorem failed_compress_keeps_streams (env : Env) (outcome : Nat → ChunkOutcome)
    (st : SPECK3D_OMP_C)
    (h1 : st.m_chunk_buffers.length = (env.chunk_volume st.m_dims st.m_chunk_dims).length)
    (h2 : st.m_chunk_buffers.any (fun v => v.isEmpty) = false)
    (hfail : ∃ i, i < (env.chunk_volume st.m_dims st.m_chunk_dims).length ∧
      (outcome i).rtn ≠ RTNType.Good) :
    (compress env outcome st).1 = RTNType.Error ∧
    (compress env outcome st).2.m_encoded_streams =
      (List.range (env.chunk_volume st.m_dims st.m_chunk_dims).length).map
        (fun i => (outcome i).stream) ∧
    get_encoded_bitstream env (compress env outcome st).2 =
      m_generate_header env (compress env outcome st).2 ++
        ((List.range (env.chunk_volume st.m_dims st.m_chunk_dims).length).map
          (fun i => (outcome i).stream)).flatten ∧
    (m_generate_header env (compress env outcome st).2).length =
      env.m_header_magic + 4 * (env.chunk_volume st.m_dims st.m_chunk_dims).length ∧
    get_encoded_bitstream env (compress env outcome st).2 ≠ [] := by
  obtain ⟨r1, r2⟩ := compress_ready env outcome st h1 h2
  obtain ⟨d1, d2⟩ := compress_dims env outcome st
  obtain ⟨i, hi, hr⟩ := hfail
  have hany : ((List.range (env.chunk_volume st.m_dims st.m_chunk_dims).length).map
      (fun i => (outcome i).rtn)).any (fun r => r ≠ RTNType.Good) = true := by
    rw [List.any_eq_true]
    exact ⟨(outcome i).rtn, List.mem_map.mpr ⟨i, List.mem_range.mpr hi, rfl⟩, by simpa using hr⟩
  have hn : (env.chunk_volume (compress env outcome st).2.m_dims
      (compress env outcome st).2.m_chunk_dims).length =
      (compress env outcome st).2.m_encoded_streams.length := by
    rw [d1, d2, r1]
    simp
  have hl : (m_generate_header env (compress env outcome st).2).length =
      env.m_header_magic + 4 * (env.chunk_volume st.m_dims st.m_chunk_dims).length := by
    have := (m_generate_header_run_spec env (compress env outcome st).2 hn).2.1
    rw [r1] at this
    simpa [m_generate_header] using this
  have hh : m_generate_header env (compress env outcome st).2 ≠ [] := by
    intro h0
    rw [h0] at hl
    simp only [List.length_nil] at hl
    omega
  have he := get_encoded_bitstream_eq env (compress env outcome st).2 hh
  refine ⟨by rw [r2, if_pos hany], r1, by rw [he, r1], hl, ?_⟩
  rw [he]
  intro h0
  exact hh (List.append_eq_nil.mp h0).1

theorem failed_compress_keeps_streams_witness :
    (compress exampleEnv failingOutcome readyState).1 = RTNType.Error ∧
    get_encoded_bitstream exampleEnv (compress exampleEnv failingOutcome readyState).2 ≠ [] :=
  ⟨(failed_compress_keeps_streams exampleEnv failingOutcome readyState (by decide) (by decide)
      ⟨0, by decide, by decide⟩).1,
   (failed_compress_keeps_streams exampleEnv failingOutcome readyState (by decide) (by decide)
      ⟨0, by decide, by decide⟩).2.2.2.2⟩

/-- C18: given chunk buffers prepared by a successful `use_volume` (one
non-empty buffer per chunk), `compress` returns `Good` if and only if the
compressor of every chunk returned `Good` and the encoded stream of every chunk
is non-empty; in every other case it returns `Error`, whatever code the failing
chunk reported. -/
theorem compress_good_iff (env : Env) (outcome : Nat → ChunkOutcome) (st : SPECK3D_OMP_C)
    (h1 : st.m_chunk_buffers.length = (env.chunk_volume st.m_dims st.m_chunk_dims).length)
    (h2 : st.m_chunk_buffers.any (fun v => v.isEmpty) = false) :
    ((compress env outcome st).1 = RTNType.Good ↔
      (∀ i, i < (env.chunk_volume st.m_dims st.m_chunk_dims).length →
        (outcome i).rtn = RTNType.Good) ∧
      (∀ i, i < (env.chunk_volume st.m_dims st.m_chunk_dims).length →
        (outcome i).stream ≠ [])) ∧
    ((compress env outcome st).1 ≠ RTNType.Good → (compress env outcome st).1 = RTNType.Error) := by
  obtain ⟨-, r2⟩ := compress_ready env outcome st h1 h2
  rw [r2]
  by_cases ha : ((List.range (env.chunk_volume st.m_dims st.m_chunk_dims).length).map
      (fun i => (outcome i).rtn)).any (fun r => r ≠ RTNType.Good) = true
  · rw [if_pos ha]
    refine ⟨⟨fun h => RTNType.noConfusion h, fun h => ?_⟩, fun _ => rfl⟩
    exfalso
    rw [List.any_eq_true] at ha
    obtain ⟨r, hr, hne⟩ := ha
    obtain ⟨i, hi, rfl⟩ := List.mem_map.mp hr
    exact (by simpa using hne : (outcome i).rtn ≠ RTNType.Good) (h.1 i (List.mem_range.mp hi))
  · rw [if_neg ha]
    have hall : ∀ i, i < (env.chunk_volume st.m_dims st.m_chunk_dims).length →
        (outcome i).rtn = RTNType.Good := by
      intro i hi
      by_contra hne
      apply ha
      rw [List.any_eq_true]
      exact ⟨(outcome i).rtn, List.mem_map.mpr ⟨i, List.mem_range.mpr hi, rfl⟩, by simpa using hne⟩
    by_cases hb : ((List.range (env.chunk_volume st.m_dims st.m_chunk_dims).length).map
        (fun i => (outcome i).stream)).any (fun s => s.isEmpty) = true
    · rw [if_pos hb]
      refine ⟨⟨fun h => RTNType.noConfusion h, fun h => ?_⟩, fun _ => rfl⟩
      exfalso
      rw [List.any_eq_true] at hb
      obtain ⟨s, hs, hemp⟩ := hb
      obtain ⟨i, hi, rfl⟩ := List.mem_map.mp hs
      exact h.2 i (List.mem_range.mp hi) (List.isEmpty_iff.mp hemp)
    · rw [if_neg hb]
      refine ⟨⟨fun _ => ⟨hall, fun i hi hemp => ?_⟩, fun _ => rfl⟩, fun h => absurd rfl h⟩
      apply hb
      rw [List.any_eq_true]
      exact ⟨(outcome i).stream, List.mem_map.mpr ⟨i, List.mem_range.mpr hi, rfl⟩,
        List.isEmpty_iff.mpr hemp⟩

theorem compress_good_iff_witness :
    (compress exampleEnv goodOutcome readyState).1 = RTNType.Good ↔
      (∀ i, i < (exampleEnv.chunk_volume readyState.m_dims readyState.m_chunk_dims).length →
        (goodOutcome i).rtn = RTNType.Good) ∧
      (∀ i, i < (exampleEnv.chunk_volume readyState.m_dims readyState.m_chunk_dims).length →
        (goodOutcome i).stream ≠ []) :=
  (compress_good_iff exampleEnv goodOutcome readyState (by decide) (by decide)).1

/-! ## `SPECK3D_Decompressor::use_bitstream` -/

/-- C20, refuted as stated: in a build without `QZ_TERM`, a SPECK stream of 26
bytes followed by one more byte is accepted with `len = 27`: `use_bitstream`
returns `Good` although `len` is neither the declared SPECK size nor that plus
the SPERR size declared by the bytes that follow. -/
theorem use_bitstream_accepts_trailing_byte :
    exampleEnv.QZ_TERM = false ∧
    exampleEnv.get_speck_stream_size (exampleStream ++ [0]) = 26 ∧
    (use_bitstream exampleEnv exampleDecompressor (exampleStream ++ [0]) 27).1 = RTNType.Good ∧
    ¬ (27 = exampleEnv.get_speck_stream_size (exampleStream ++ [0])) ∧
    ¬ (27 = exampleEnv.get_speck_stream_size (exampleStream ++ [0]) +
      exampleEnv.get_sperr_stream_size ((exampleStream ++ [0]).drop 26)) := by
  decide

/-- C20, amended: in a build with `QZ_TERM`, `use_bitstream(p, len)` returns
`Good` exactly when `len` equals the declared SPECK stream size or, bytes
following it, that size plus the declared SPERR stream size; in a build without
`QZ_TERM` it returns `Good` exactly when the declared SPECK stream size is at
most `len` (bytes after the SPECK stream are not examined).  In every other
case it returns `WrongSize`. -/
theorem use_bitstream_good_iff (env : Env) (st : SPECK3D_Decompressor) (p : List Nat)
    (len : Nat) :
    ((use_bitstream env st p len).1 = RTNType.Good ↔
      if env.QZ_TERM then
        (len = env.get_speck_stream_size p ∨
          (env.get_speck_stream_size p < len ∧
            len = env.get_speck_stream_size p +
              env.get_sperr_stream_size (p.drop (env.get_speck_stream_size p))))
      else env.get_speck_stream_size p ≤ len) ∧
    ((use_bitstream env st p len).1 ≠ RTNType.Good →
      (use_bitstream env st p len).1 = RTNType.WrongSize) := by
  unfold use_bitstream
  dsimp only
  by_cases h1 : env.get_speck_stream_size p > len
  · rw [if_pos h1]
    refine ⟨⟨fun h => RTNType.noConfusion h, fun h => ?_⟩, fun _ => rfl⟩
    exfalso
    split at h <;> omega
  · rw [if_neg h1]
    cases hq : env.QZ_TERM with
    | false =>
      rw [if_neg (by simp), if_neg (by simp)]
      exact ⟨⟨fun _ => by omega, fun _ => rfl⟩, fun h => absurd rfl h⟩
    | true =>
      rw [if_pos rfl, if_pos rfl]
      by_cases h2 : env.get_speck_stream_size p < len
      · rw [if_pos h2]
        by_cases h3 : env.get_sperr_stream_size (p.drop (env.get_speck_stream_size p)) ≠
            len - env.get_speck_stream_size p
        · rw [if_pos h3]
          refine ⟨⟨fun h => RTNType.noConfusion h, fun h => ?_⟩, fun _ => rfl⟩
          exfalso
          omega
        · rw [if_neg h3]
          refine ⟨⟨fun _ => Or.inr ⟨h2, ?_⟩, fun _ => rfl⟩, fun h => absurd rfl h⟩
          omega
      · rw [if_neg h2]
        exact ⟨⟨fun _ => Or.inl (by omega), fun _ => rfl⟩, fun h => absurd rfl h⟩

/-! ## The mean -/

section Mean

variable {F : Type} [Field F]

theorem sum_loop_spec (buf : List F) (n : Nat) (s0 : F) (c0 : Nat) :
    sum_loop buf n (s0, c0) = (s0 + ∑ k ∈ Finset.range n, rd buf (c0 + k), c0 + n) := by
  unfold sum_loop
  refine forLoop_one_invariant _ n
    (fun i a => a = (s0 + ∑ k ∈ Finset.range i, rd buf (c0 + k), c0 + i))
    ?_ n 0 (s0, c0) (Nat.zero_le _) (by omega) (by simp)
  intro i a _ ha
  rw [ha, Finset.sum_range_succ]
  simp only [Prod.mk.injEq]
  exact ⟨by ring, by omega⟩

theorem mean_step_iterate (buf : List F) (n : Nat) (w : F) (out0 : List F) (c1 c2 : Nat) :
    ∀ M : Nat, c2 + M ≤ out0.length →
      ((mean_step buf n w)^[M] (out0, c1, c2)).2 = (c1 + M * n, c2 + M) ∧
      ((mean_step buf n w)^[M] (out0, c1, c2)).1.length = out0.length ∧
      ∀ j, rd ((mean_step buf n w)^[M] (out0, c1, c2)).1 j =
        if c2 ≤ j ∧ j < c2 + M
        then (∑ k ∈ Finset.range n, rd buf (c1 + (j - c2) * n + k)) * w
        else rd out0 j := by
  intro M
  induction M with
  | zero =>
    intro _
    refine ⟨by simp, rfl, fun j => ?_⟩
    have a : ¬ (c2 ≤ j ∧ j < c2 + 0) := by omega
    rw [if_neg a]
    rfl
  | succ m ih =>
    intro hM
    obtain ⟨h1, h2, h3⟩ := ih (by omega)
    rw [Function.iterate_succ_apply']
    generalize (mean_step buf n w)^[m] (out0, c1, c2) = s at h1 h2 h3
    obtain ⟨out, d1, d2⟩ := s
    simp only [Prod.mk.injEq] at h1
    obtain ⟨rfl, rfl⟩ := h1
    simp only at h2 h3
    unfold mean_step
    simp only [sum_loop_spec, zero_add]
    refine ⟨?_, by rw [length_wr, h2], fun j => ?_⟩
    · simp only [Prod.mk.injEq]
      exact ⟨by ring, by omega⟩
    · rw [rd_wr, h3 j, h2]
      by_cases hj : j = c2 + m
      · subst hj
        have a : c2 + m = c2 + m ∧ c2 + m < out0.length := ⟨rfl, by omega⟩
        have b : c2 ≤ c2 + m ∧ c2 + m < c2 + (m + 1) := by omega
        have e : c2 + m - c2 = m := by omega
        rw [if_pos a, if_pos b, e]
      · have a : ¬ (j = c2 + m ∧ c2 + m < out0.length) := by omega
        rw [if_neg a]
        by_cases c : c2 ≤ j ∧ j < c2 + m
        · have b : c2 ≤ j ∧ j < c2 + (m + 1) := by omega
          rw [if_pos c, if_pos b]
        · have b : ¬ (c2 ≤ j ∧ j < c2 + (m + 1)) := by omega
          rw [if_neg c, if_neg b]

theorem sum_range_mul_add (g : Nat → F) (m n : Nat) :
    ∑ i ∈ Finset.range (m * n), g i =
      ∑ a ∈ Finset.range m, ∑ b ∈ Finset.range n, g (a * n + b) := by
  induction m with
  | zero => simp
  | succ k ih =>
    rw [Finset.sum_range_succ, ← ih, Nat.succ_mul, Finset.sum_range_add]

theorem list_sum_eq_sum_rd (l : List F) : l.sum = ∑ i ∈ Finset.range l.length, rd l i := by
  induction l with
  | nil => simp
  | cons a t ih =>
    rw [List.sum_cons, List.length_cons, Finset.sum_range_succ', ih]
    have e : ∀ i, rd (a :: t) (i + 1) = rd t i := fun i => by simp [rd]
    have e0 : rd (a :: t) 0 = a := by simp [rd]
    simp only [e, e0]
    ring

theorem acc_loop_spec (l : List F) (n : Nat) :
    forLoop n 1 (fun z (sum : F) => sum + rd l z) n 0 0 = ∑ z ∈ Finset.range n, rd l z := by
  refine forLoop_one_invariant _ n (fun i (s : F) => s = ∑ z ∈ Finset.range i, rd l z)
    ?_ n 0 0 (Nat.zero_le _) (by omega) (by simp)
  intro i s _ hs
  rw [hs, Finset.sum_range_succ]

/-- The mean that `m_calc_mean` stores, as a triple sum. -/
theorem m_calc_mean_eq (st : CDF97 F) :
    (m_calc_mean st).m_data_mean =
      (∑ z ∈ Finset.range st.m_dim_z,
        (∑ y ∈ Finset.range st.m_dim_y,
          (∑ x ∈ Finset.range st.m_dim_x,
            rd st.m_data_buf ((z * st.m_dim_y + y) * st.m_dim_x + x)) *
          (1 / (st.m_dim_x : F))) * (1 / (st.m_dim_y : F))) / (st.m_dim_z : F) := by
  unfold m_calc_mean
  simp only
  rw [acc_loop_spec]
  congr 1
  apply Finset.sum_congr rfl
  intro z hz
  have hz' : z < st.m_dim_z := Finset.mem_range.mp hz
  rw [forLoop_one_iterate _ st.m_dim_z st.m_dim_z 0 _ (Nat.zero_le _) (by omega)]
  obtain ⟨-, -, l3⟩ := mean_step_iterate
    (forLoop st.m_dim_z 1 (fun _ s =>
      forLoop st.m_dim_y 1 (fun _ s => mean_step st.m_data_buf st.m_dim_x
        (1 / (st.m_dim_x : F)) s) st.m_dim_y 0 s) st.m_dim_z 0
      (List.replicate (st.m_dim_y * st.m_dim_z) 0, 0, 0)).1
    st.m_dim_y (1 / (st.m_dim_y : F)) (List.replicate st.m_dim_z 0) 0 0 st.m_dim_z
    (by simp)
  rw [Nat.sub_zero, l3 z, if_pos (by omega)]
  congr 1
  apply Finset.sum_congr rfl
  intro y hy
  have hy' : y < st.m_dim_y := Finset.mem_range.mp hy
  have hin : ∀ s : List F × Nat × Nat,
      forLoop st.m_dim_y 1 (fun _ s => mean_step st.m_data_buf st.m_dim_x
        (1 / (st.m_dim_x : F)) s) st.m_dim_y 0 s =
      (mean_step st.m_data_buf st.m_dim_x (1 / (st.m_dim_x : F)))^[st.m_dim_y] s := by
    intro s
    rw [forLoop_one_iterate _ st.m_dim_y st.m_dim_y 0 _ (Nat.zero_le _) (by omega), Nat.sub_zero]
  simp only [hin]
  rw [forLoop_one_iterate _ st.m_dim_z st.m_dim_z 0 _ (Nat.zero_le _) (by omega), Nat.sub_zero,
    ← Function.iterate_mul]
  obtain ⟨-, -, r3⟩ := mean_step_iterate st.m_data_buf st.m_dim_x (1 / (st.m_dim_x : F))
    (List.replicate (st.m_dim_y * st.m_dim_z) 0) 0 0 (st.m_dim_y * st.m_dim_z) (by simp)
  have hr : z * st.m_dim_y + y < st.m_dim_y * st.m_dim_z := by
    calc z * st.m_dim_y + y < z * st.m_dim_y + st.m_dim_y := by omega
      _ = (z + 1) * st.m_dim_y := by ring
      _ ≤ st.m_dim_z * st.m_dim_y := Nat.mul_le_mul_right _ hz'
      _ = st.m_dim_y * st.m_dim_z := Nat.mul_comm _ _
  simp only [Nat.zero_add, Nat.sub_zero] at r3 ⊢
  rw [r3, if_pos ⟨Nat.zero_le _, hr⟩]

theorem map_loop_spec (g : F → F) (n : Nat) (buf : List F) :
    (forLoop n 1 (fun i buf => wr buf i (g (rd buf i))) n 0 buf).length = buf.length ∧
    ∀ j, rd (forLoop n 1 (fun i buf => wr buf i (g (rd buf i))) n 0 buf) j =
      if j < n ∧ j < buf.length then g (rd buf j) else rd buf j := by
  refine forLoop_one_invariant _ n
    (fun i b => b.length = buf.length ∧
      ∀ j, rd b j = if j < i ∧ j < buf.length then g (rd buf j) else rd buf j)
    ?_ n 0 buf (Nat.zero_le _) (by omega) ?_
  · rintro i b hi ⟨hl, hrd⟩
    refine ⟨by rw [length_wr, hl], fun j => ?_⟩
    rw [rd_wr, hl, hrd j, hrd i]
    have ni : ¬ (i < i ∧ i < buf.length) := by omega
    rw [if_neg ni]
    by_cases hj : j = i
    · subst hj
      by_cases hlen : j < buf.length
      · have a : j = j ∧ j < buf.length := ⟨rfl, hlen⟩
        have b : j < j + 1 ∧ j < buf.length := by omega
        rw [if_pos a, if_pos b]
      · have a : ¬ (j = j ∧ j < buf.length) := by omega
        have b : ¬ (j < j + 1 ∧ j < buf.length) := by omega
        have c : ¬ (j < j ∧ j < buf.length) := by omega
        rw [if_neg a, if_neg b, if_neg c]
    · have a : ¬ (j = i ∧ i < buf.length) := by omega
      rw [if_neg a]
      by_cases c : j < i ∧ j < buf.length
      · have d : j < i + 1 ∧ j < buf.length := by omega
        rw [if_pos c, if_pos d]
      · have d : ¬ (j < i + 1 ∧ j < buf.length) := by omega
        rw [if_neg c, if_neg d]
  · refine ⟨rfl, fun j => ?_⟩
    have a : ¬ (j < 0 ∧ j < buf.length) := by omega
    rw [if_neg a]

/-- C8: for every volume with `Dx, Dy, Dz ≥ 1` (held in a buffer of
`Dx * Dy * Dz` samples, over exact arithmetic) the value that `m_calc_mean`
stores in `m_data_mean`, computed from row means, then layer means, then the
volume mean, is the arithmetic mean `(sum of all samples) / (Dx * Dy * Dz)`;
consequently, after the mean subtraction of `dwt2d` and before its first level,
the samples sum to zero. -/
theorem m_calc_mean_is_mean [CharZero F] (st : CDF97 F)
    (hx : 1 ≤ st.m_dim_x) (hy : 1 ≤ st.m_dim_y) (hz : 1 ≤ st.m_dim_z)
    (hlen : st.m_data_buf.length = st.m_dim_x * st.m_dim_y * st.m_dim_z) :
    (m_calc_mean st).m_data_mean =
      st.m_data_buf.sum / ((st.m_dim_x * st.m_dim_y * st.m_dim_z : Nat) : F) ∧
    (dwt2d_preprocess st).m_data_buf.sum = 0 := by
  have hX : (st.m_dim_x : F) ≠ 0 := Nat.cast_ne_zero.mpr (by omega)
  have hY : (st.m_dim_y : F) ≠ 0 := Nat.cast_ne_zero.mpr (by omega)
  have hZ : (st.m_dim_z : F) ≠ 0 := Nat.cast_ne_zero.mpr (by omega)
  have hsum : st.m_data_buf.sum =
      ∑ z ∈ Finset.range st.m_dim_z, ∑ y ∈ Finset.range st.m_dim_y,
        ∑ x ∈ Finset.range st.m_dim_x,
          rd st.m_data_buf ((z * st.m_dim_y + y) * st.m_dim_x + x) := by
    have e : st.m_data_buf.length = st.m_dim_z * st.m_dim_y * st.m_dim_x := by
      rw [hlen]; ring
    rw [list_sum_eq_sum_rd, e, sum_range_mul_add, sum_range_mul_add]
  have hmean : (m_calc_mean st).m_data_mean =
      st.m_data_buf.sum / ((st.m_dim_x * st.m_dim_y * st.m_dim_z : Nat) : F) := by
    rw [m_calc_mean_eq, hsum]
    push_cast
    simp only [← Finset.sum_mul]
    field_simp
  refine ⟨hmean, ?_⟩
  have hbuf : (m_calc_mean st).m_data_buf = st.m_data_buf := rfl
  have hdx : (m_calc_mean st).m_dim_x = st.m_dim_x := rfl
  have hdy : (m_calc_mean st).m_dim_y = st.m_dim_y := rfl
  have hdz : (m_calc_mean st).m_dim_z = st.m_dim_z := rfl
  unfold dwt2d_preprocess
  simp only [hbuf, hdx, hdy, hdz]
  obtain ⟨l1, l2⟩ := map_loop_spec (fun v => v - (m_calc_mean st).m_data_mean)
    (st.m_dim_x * st.m_dim_y * st.m_dim_z) st.m_data_buf
  rw [list_sum_eq_sum_rd, l1]
  have e : ∀ j ∈ Finset.range st.m_data_buf.length,
      rd (forLoop (st.m_dim_x * st.m_dim_y * st.m_dim_z) 1
        (fun i buf => wr buf i ((fun v => v - (m_calc_mean st).m_data_mean) (rd buf i)))
        (st.m_dim_x * st.m_dim_y * st.m_dim_z) 0 st.m_data_buf) j =
      rd st.m_data_buf j - (m_calc_mean st).m_data_mean := by
    intro j hj
    have hj' := Finset.mem_range.mp hj
    rw [l2 j, if_pos ⟨by omega, hj'⟩]
  rw [Finset.sum_congr rfl e, Finset.sum_sub_distrib, ← list_sum_eq_sum_rd, Finset.sum_const,
    Finset.card_range, hmean, hlen, nsmul_eq_mul]
  have hN : ((st.m_dim_x * st.m_dim_y * st.m_dim_z : Nat) : F) ≠ 0 := by
    push_cast
    exact mul_ne_zero (mul_ne_zero hX hY) hZ
  field_simp

theorem m_calc_mean_is_mean_witness :
    (m_calc_mean examplePlane).m_data_mean =
      examplePlane.m_data_buf.sum /
        ((examplePlane.m_dim_x * examplePlane.m_dim_y * examplePlane.m_dim_z : Nat) : ℚ) ∧
    (dwt2d_preprocess examplePlane).m_data_buf.sum = 0 :=
  m_calc_mean_is_mean examplePlane (by decide) (by decide) (by decide) (by decide)

end Mean

/-! ## Lines of a plane -/

section LineLemmas

variable {F : Type} [Zero F]

theorem length_lineOf (p : List F) (idx : Nat → Nat) (n : Nat) :
    (lineOf p idx n).length = n := by
  simp [lineOf]

theorem rd_lineOf (p : List F) (idx : Nat → Nat) (n k : Nat) (hk : k < n) :
    rd (lineOf p idx n) k = rd p (idx k) := by
  unfold lineOf
  conv_lhs => unfold rd
  simp [List.getD_eq_getElem?_getD, hk, rd]

theorem lineOf_congr (p q : List F) (idx : Nat → Nat) (n : Nat)
    (h : ∀ k, k < n → rd p (idx k) = rd q (idx k)) : lineOf p idx n = lineOf q idx n := by
  unfold lineOf
  apply List.map_congr_left
  intro k hk
  exact h k (List.mem_range.mp hk)

theorem eq_lineOf_of_rd (r p : List F) (idx : Nat → Nat) (n : Nat) (hr : r.length = n)
    (h : ∀ k, k < n → rd r k = rd p (idx k)) : r = lineOf p idx n := by
  refine ext_rd (by rw [hr, length_lineOf]) (fun k hk => ?_)
  rw [hr] at hk
  rw [h k hk, rd_lineOf p idx n k hk]

/-- A loop that updates one line per iteration, the lines being disjoint. -/
theorem linePass_spec (idx : Nat → Nat → Nat) (m n L : Nat) (T : List F → List F)
    (body : Nat → List F → List F)
    (hbody : ∀ i p, i < m → p.length = L → LineUpdate (idx i) n T p (body i p))
    (hinj : ∀ i i' k k', i < m → i' < m → k < n → k' < n → idx i k = idx i' k' →
      i = i' ∧ k = k')
    (p : List F) (hp : p.length = L) :
    (forLoop m 1 body m 0 p).length = L ∧
    (∀ i k, i < m → k < n →
      rd (forLoop m 1 body m 0 p) (idx i k) = rd (T (lineOf p (idx i) n)) k) ∧
    (∀ j, (∀ i k, i < m → k < n → j ≠ idx i k) → rd (forLoop m 1 body m 0 p) j = rd p j) := by
  have := forLoop_one_invariant body m
    (fun t q => t ≤ m ∧ q.length = L ∧
      (∀ i k, i < t → k < n → rd q (idx i k) = rd (T (lineOf p (idx i) n)) k) ∧
      (∀ j, (∀ i k, i < t → k < n → j ≠ idx i k) → rd q j = rd p j))
    ?_ m 0 p (Nat.zero_le _) (by omega)
    ⟨Nat.zero_le _, hp, fun i k hi => absurd hi (Nat.not_lt_zero _), fun j _ => rfl⟩
  · exact ⟨this.2.1, this.2.2.1, this.2.2.2⟩
  · rintro t q ht ⟨-, hq, h1, h2⟩
    obtain ⟨u1, u2, u3⟩ := hbody t q ht hq
    have hline : lineOf q (idx t) n = lineOf p (idx t) n := by
      apply lineOf_congr
      intro k hk
      apply h2
      intro i k' hi hk' heq
      have := (hinj t i k k' ht (by omega) hk hk' heq).1
      omega
    refine ⟨ht, by rw [u1, hq], fun i k hi hk => ?_, fun j hj => ?_⟩
    · by_cases hit : i = t
      · subst hit
        rw [u2 k hk, hline]
      · rw [u3, h1 i k (by omega) hk]
        intro k' hk' heq
        exact hit (hinj i t k k' (by omega) ht hk hk' heq).1
    · rw [u3, h2]
      · intro i k hi hk
        exact hj i k (by omega) hk
      · intro k hk
        exact hj t k (by omega) hk

/-- A pass that applies `T2` to every line undoes a pass that applies `T1`
when `T2` undoes `T1` on lines. -/
theorem linePass_cancel (idx : Nat → Nat → Nat) (m n L : Nat) (T1 T2 : List F → List F)
    (body1 body2 : Nat → List F → List F)
    (h1 : ∀ i p, i < m → p.length = L → LineUpdate (idx i) n T1 p (body1 i p))
    (h2 : ∀ i p, i < m → p.length = L → LineUpdate (idx i) n T2 p (body2 i p))
    (hinj : ∀ i i' k k', i < m → i' < m → k < n → k' < n → idx i k = idx i' k' →
      i = i' ∧ k = k')
    (hlen : ∀ r : List F, r.length = n → (T1 r).length = n)
    (hT : ∀ r : List F, r.length = n → T2 (T1 r) = r)
    (p : List F) (hp : p.length = L) :
    forLoop m 1 body2 m 0 (forLoop m 1 body1 m 0 p) = p := by
  obtain ⟨a1, a2, a3⟩ := linePass_spec idx m n L T1 body1 h1 hinj p hp
  obtain ⟨b1, b2, b3⟩ := linePass_spec idx m n L T2 body2 h2 hinj _ a1
  refine ext_rd (by rw [b1, hp]) (fun j _ => ?_)
  by_cases hj : ∃ i k, i < m ∧ k < n ∧ j = idx i k
  · obtain ⟨i, k, hi, hk, rfl⟩ := hj
    have hline : lineOf (forLoop m 1 body1 m 0 p) (idx i) n = T1 (lineOf p (idx i) n) := by
      symm
      apply eq_lineOf_of_rd _ _ _ _ (hlen _ (length_lineOf _ _ _))
      intro k' hk'
      rw [a2 i k' hi hk']
    rw [b2 i k hi hk, hline, hT _ (length_lineOf _ _ _), rd_lineOf _ _ _ _ hk]
  · have hj' : ∀ i k, i < m → k < n → j ≠ idx i k := by
      intro i k hi hk heq
      exact hj ⟨i, k, hi, hk, heq⟩
    rw [b3 j hj', a3 j hj']

end LineLemmas

/-! ## The passes of the 2D transform -/

section Passes

variable {F : Type} [Field F]

omit [Field F] in
theorem length_forLoop_wr (g : Nat → List F → F) (hi step : Nat) :
    ∀ (fuel lo : Nat) (l : List F),
      (forLoop hi step (fun i s => wr s i (g i s)) fuel lo l).length = l.length := by
  intro fuel
  induction fuel with
  | zero => intro lo l; rfl
  | succ fuel ih =>
    intro lo l
    unfold forLoop
    split
    · rw [ih, length_wr]
    · rfl

theorem length_AnalysisEvenEven (c : Lifting F) (l : List F) (n : Nat) :
    (QccWAVCDF97AnalysisSymmetricEvenEven c l n).length = l.length := by
  simp only [QccWAVCDF97AnalysisSymmetricEvenEven, length_forLoop_wr, length_wr]

theorem length_AnalysisOddEven (c : Lifting F) (l : List F) (n : Nat) :
    (QccWAVCDF97AnalysisSymmetricOddEven c l n).length = l.length := by
  simp only [QccWAVCDF97AnalysisSymmetricOddEven, length_forLoop_wr, length_wr]

theorem isRearr_gather_even (n : Nat) (hp : n % 2 = 0) :
    IsRearr (fun k => if k < n / 2 then k * 2 else (k - n / 2) * 2 + 1) n
      (m_gather_even : List F → List F → Nat → List F) := by
  refine ⟨fun j hj => ?_, fun dest orig hd => ?_⟩
  · beta_reduce
    split_ifs <;> omega
  · obtain ⟨a, b⟩ := m_gather_even_spec dest orig n hp hd
    refine ⟨a, fun j => ?_⟩
    rw [b j]
    beta_reduce
    split_ifs <;> first | rfl | omega

theorem isRearr_gather_odd (n : Nat) (hp : n % 2 = 1) :
    IsRearr (fun k => if k < n / 2 + 1 then k * 2 else (k - (n / 2 + 1)) * 2 + 1) n
      (m_gather_odd : List F → List F → Nat → List F) := by
  refine ⟨fun j hj => ?_, fun dest orig hd => ?_⟩
  · beta_reduce
    split_ifs <;> omega
  · obtain ⟨a, b⟩ := m_gather_odd_spec dest orig n hp hd
    refine ⟨a, fun j => ?_⟩
    rw [b j]
    beta_reduce
    split_ifs <;> first | rfl | omega

theorem isRearr_scatter_even (n : Nat) (hp : n % 2 = 0) :
    IsRearr (fun k => if k % 2 = 0 then k / 2 else n / 2 + k / 2) n
      (m_scatter_even : List F → List F → Nat → List F) := by
  refine ⟨fun j hj => ?_, fun dest orig hd => ?_⟩
  · beta_reduce
    split_ifs <;> omega
  · obtain ⟨a, b⟩ := m_scatter_even_spec dest orig n hp hd
    refine ⟨a, fun j => ?_⟩
    rw [b j]
    beta_reduce
    split_ifs <;> rfl

theorem isRearr_scatter_odd (n : Nat) (hp : n % 2 = 1) :
    IsRearr (fun k => if k % 2 = 0 then k / 2 else n / 2 + 1 + k / 2) n
      (m_scatter_odd : List F → List F → Nat → List F) := by
  refine ⟨fun j hj => ?_, fun dest orig hd => ?_⟩
  · beta_reduce
    split_ifs <;> omega
  · obtain ⟨a, b⟩ := m_scatter_odd_spec dest orig n hp hd
    refine ⟨a, fun j => ?_⟩
    rw [b j]
    beta_reduce
    split_ifs <;> rfl

theorem memcpy_zero_drop (p : List F) (pos n : Nat) :
    memcpy (List.replicate n 0) (p.drop pos) n = lineOf p (fun k => pos + k) n := by
  obtain ⟨a, b⟩ := memcpy_spec (List.replicate n (0 : F)) (p.drop pos) n
  apply eq_lineOf_of_rd _ _ _ _ (by rw [a, List.length_replicate])
  intro k hk
  rw [b k, List.length_replicate, if_pos ⟨hk, hk⟩, rd_drop]

/-- A row of the forward pass: copy out, transform, gather back in place. -/
theorem row_fwd_update (sigma : Nat → Nat) (n : Nat) (G : List F → List F → Nat → List F)
    (hG : IsRearr sigma n G) (K : List F → List F) (p : List F) (pos : Nat)
    (h : pos + n ≤ p.length) :
    LineUpdate (fun k => pos + k) n (fun r => G (List.replicate n 0) (K r) n) p
      (through p pos (fun q => G q (K (memcpy (List.replicate n 0) (p.drop pos) n)) n)) := by
  have hd : n ≤ (p.drop pos).length := by rw [List.length_drop]; omega
  obtain ⟨g1, g2⟩ := hG.2 (p.drop pos) (K (memcpy (List.replicate n 0) (p.drop pos) n)) hd
  obtain ⟨t1, t2⟩ := through_spec p pos
    (fun q => G q (K (memcpy (List.replicate n 0) (p.drop pos) n)) n) g1
  obtain ⟨z1, z2⟩ := hG.2 (List.replicate n 0) (K (lineOf p (fun k => pos + k) n))
    (by rw [List.length_replicate])
  refine ⟨t1, fun k hk => ?_, fun j hj => ?_⟩
  · beta_reduce
    rw [t2, if_neg (by omega), Nat.add_sub_cancel_left]
    rw [g2, if_pos hk, z2, if_pos hk, memcpy_zero_drop]
  · rw [t2]
    by_cases hjp : j < pos
    · rw [if_pos hjp]
    · rw [if_neg hjp]
      have hjn : ¬ (j - pos < n) := by
        intro hlt
        exact hj (j - pos) hlt (by show j = pos + (j - pos); omega)
      rw [g2, if_neg hjn, rd_drop]
      congr 1
      omega

/-- A row of the inverse pass: scatter out of place, transform, copy back. -/
theorem row_inv_update (sigma : Nat → Nat) (n : Nat) (G : List F → List F → Nat → List F)
    (hG : IsRearr sigma n G) (K : List F → List F) (p : List F) (pos : Nat)
    (h : pos + n ≤ p.length) :
    LineUpdate (fun k => pos + k) n (fun r => K (G (List.replicate n 0) r n)) p
      (through p pos (fun q => memcpy q (K (G (List.replicate n 0) (p.drop pos) n)) n)) := by
  obtain ⟨t1, t2⟩ := through_memcpy_spec p (K (G (List.replicate n 0) (p.drop pos) n)) pos n
  have hz : n ≤ (List.replicate n (0 : F)).length := by rw [List.length_replicate]
  have e : G (List.replicate n 0) (p.drop pos) n =
      G (List.replicate n 0) (lineOf p (fun k => pos + k) n) n := by
    obtain ⟨a1, a2⟩ := hG.2 (List.replicate n 0) (p.drop pos) hz
    obtain ⟨b1, b2⟩ := hG.2 (List.replicate n 0) (lineOf p (fun k => pos + k) n) hz
    refine ext_rd (by rw [a1, b1]) (fun j _ => ?_)
    rw [a2, b2]
    by_cases hj : j < n
    · rw [if_pos hj, if_pos hj, rd_drop, rd_lineOf _ _ _ _ (hG.1 j hj)]
    · rw [if_neg hj, if_neg hj]
  refine ⟨t1, fun k hk => ?_, fun j hj => ?_⟩
  · beta_reduce
    rw [t2, if_pos ⟨by omega, by omega, by omega⟩, Nat.add_sub_cancel_left, e]
  · rw [t2, if_neg]
    rintro ⟨c1, c2, -⟩
    exact hj (j - pos) (by omega) (by show j = pos + (j - pos); omega)

theorem read_column_eq (dx : Nat) (p : List F) (x n : Nat) :
    read_column dx p x n = lineOf p (fun y => y * dx + x) n := by
  unfold read_column lineOf
  exact fill_loop (fun y => rd p (y * dx + x)) 0 n

theorem write_column_spec (dx : Nat) (p : List F) (x n : Nat) (buf2 : List F) (hdx : 0 < dx)
    (hb : ∀ y, y < n → y * dx + x < p.length) :
    (write_column dx p x n buf2).length = p.length ∧
    (∀ y, y < n → rd (write_column dx p x n buf2) (y * dx + x) = rd buf2 y) ∧
    (∀ j, (∀ y, y < n → j ≠ y * dx + x) → rd (write_column dx p x n buf2) j = rd p j) := by
  unfold write_column
  have := forLoop_one_invariant (fun y plane => wr plane (y * dx + x) (rd buf2 y)) n
    (fun t q => t ≤ n ∧ q.length = p.length ∧
      (∀ y, y < t → rd q (y * dx + x) = rd buf2 y) ∧
      (∀ j, (∀ y, y < t → j ≠ y * dx + x) → rd q j = rd p j))
    ?_ n 0 p (Nat.zero_le _) (by omega)
    ⟨Nat.zero_le _, rfl, fun y hy => absurd hy (Nat.not_lt_zero _), fun j _ => rfl⟩
  · exact this.2
  · rintro t q ht ⟨-, hq, h1, h2⟩
    refine ⟨ht, by rw [length_wr, hq], fun y hy => ?_, fun j hj => ?_⟩
    · rw [rd_wr]
      by_cases hyt : y = t
      · subst hyt
        rw [if_pos ⟨rfl, by rw [hq]; exact hb y ht⟩]
      · have hne : ¬ (y * dx + x = t * dx + x) := by
          intro heq
          exact hyt (Nat.eq_of_mul_eq_mul_right hdx (Nat.add_right_cancel heq))
        rw [if_neg (fun hc => hne hc.1), h1 y (by omega)]
    · rw [rd_wr, if_neg (fun hc => hj t (by omega) hc.1), h2]
      intro y hy
      exact hj y (by omega)

/-- A column of either pass: read the column, transform, write it back. -/
theorem col_update (dx : Nat) (p : List F) (x n : Nat) (T : List F → List F) (hdx : 0 < dx)
    (hb : ∀ y, y < n → y * dx + x < p.length) :
    LineUpdate (fun y => y * dx + x) n T p (write_column dx p x n (T (read_column dx p x n))) := by
  obtain ⟨a, b, c⟩ := write_column_spec dx p x n (T (read_column dx p x n)) hdx hb
  refine ⟨a, fun y hy => ?_, c⟩
  beta_reduce
  rw [b y hy, read_column_eq]

end Passes

/-! ## Round trip of one level of the 2D transform -/

section OneLevel

variable {F : Type} [Field F]

theorem grid_inj (dx i i' k k' : Nat) (hk : k < dx) (hk' : k' < dx)
    (h : i * dx + k = i' * dx + k') : i = i' ∧ k = k' := by
  have hdx : 0 < dx := by omega
  have e1 : (i * dx + k) / dx = i := by
    rw [Nat.add_comm, Nat.add_mul_div_right _ _ hdx, Nat.div_eq_of_lt hk, Nat.zero_add]
  have e2 : (i' * dx + k') / dx = i' := by
    rw [Nat.add_comm, Nat.add_mul_div_right _ _ hdx, Nat.div_eq_of_lt hk', Nat.zero_add]
  have e : i = i' := by rw [← e1, ← e2, h]
  subst e
  exact ⟨rfl, Nat.add_left_cancel h⟩

theorem row_bound (i ly dx lx L : Nat) (hi : i < ly) (hxd : lx ≤ dx) (hL : ly * dx ≤ L) :
    i * dx + lx ≤ L := by
  have := Nat.mul_le_mul_right dx (Nat.succ_le_of_lt hi)
  rw [Nat.succ_mul] at this
  omega

/-- The forward row pass keeps the length of the plane. -/
theorem row_fwd_length (dx lx ly : Nat) (sigma : Nat → Nat)
    (G : List F → List F → Nat → List F) (hG : IsRearr sigma lx G) (K : List F → List F)
    (hxd : lx ≤ dx) (p : List F) (hp : ly * dx ≤ p.length) :
    (forLoop ly 1 (fun i plane => through plane (i * dx) (fun pos =>
      G pos (K (memcpy (List.replicate lx 0) (plane.drop (i * dx)) lx)) lx)) ly 0 p).length =
      p.length :=
  (linePass_spec (fun i k => i * dx + k) ly lx p.length
    (fun r => G (List.replicate lx 0) (K r) lx) _
    (fun i q hi hq => row_fwd_update sigma lx G hG K q (i * dx)
      (row_bound i ly dx lx q.length hi hxd (by rw [hq]; exact hp)))
    (fun i i' k k' _ _ hk hk' h => grid_inj dx i i' k k' (by omega) (by omega) h)
    p rfl).1

/-- The inverse row pass undoes the forward row pass. -/
theorem row_pass_cancel (dx lx ly : Nat) (sigma sigma' : Nat → Nat)
    (G G' : List F → List F → Nat → List F) (hG : IsRearr sigma lx G)
    (hG' : IsRearr sigma' lx G') (K K' : List F → List F)
    (hT : ∀ r : List F, r.length = lx →
      K' (G' (List.replicate lx 0) (G (List.replicate lx 0) (K r) lx) lx) = r)
    (hxd : lx ≤ dx) (p : List F) (hp : ly * dx ≤ p.length) :
    forLoop ly 1 (fun i plane => through plane (i * dx) (fun pos =>
        memcpy pos (K' (G' (List.replicate lx 0) (plane.drop (i * dx)) lx)) lx)) ly 0
      (forLoop ly 1 (fun i plane => through plane (i * dx) (fun pos =>
        G pos (K (memcpy (List.replicate lx 0) (plane.drop (i * dx)) lx)) lx)) ly 0 p) = p :=
  linePass_cancel (fun i k => i * dx + k) ly lx p.length
    (fun r => G (List.replicate lx 0) (K r) lx)
    (fun r => K' (G' (List.replicate lx 0) r lx)) _ _
    (fun i q hi hq => row_fwd_update sigma lx G hG K q (i * dx)
      (row_bound i ly dx lx q.length hi hxd (by rw [hq]; exact hp)))
    (fun i q hi hq => row_inv_update sigma' lx G' hG' K' q (i * dx)
      (row_bound i ly dx lx q.length hi hxd (by rw [hq]; exact hp)))
    (fun i i' k k' _ _ hk hk' h => grid_inj dx i i' k k' (by omega) (by omega) h)
    (fun r _ => by
      rw [(hG.2 (List.replicate lx 0) (K r) (by rw [List.length_replicate])).1,
        List.length_replicate])
    hT p rfl

/-- The inverse column pass undoes the forward column pass. -/
theorem col_pass_cancel (dx lx ly : Nat) (T1 T2 : List F → List F)
    (hlen : ∀ r : List F, r.length = ly → (T1 r).length = ly)
    (hT : ∀ r : List F, r.length = ly → T2 (T1 r) = r)
    (hxd : lx ≤ dx) (p : List F) (hp : ly * dx ≤ p.length) :
    forLoop lx 1 (fun x plane =>
        write_column dx plane x ly (T2 (read_column dx plane x ly))) lx 0
      (forLoop lx 1 (fun x plane =>
        write_column dx plane x ly (T1 (read_column dx plane x ly))) lx 0 p) = p := by
  by_cases hlx : lx = 0
  · subst hlx
    rfl
  have hdx : 0 < dx := by omega
  have hb : ∀ (x : Nat) (q : List F), x < lx → q.length = p.length →
      ∀ y, y < ly → y * dx + x < q.length := by
    intro x q hx hq y hy
    have := row_bound y ly dx (x + 1) q.length hy (by omega) (by rw [hq]; exact hp)
    omega
  exact linePass_cancel (fun x y => y * dx + x) lx ly p.length T1 T2 _ _
    (fun x q hx hq => col_update dx q x ly T1 hdx (hb x q hx hq))
    (fun x q hx hq => col_update dx q x ly T2 hdx (hb x q hx hq))
    (fun x x' y y' hx hx' _ _ h =>
      have := grid_inj dx y y' x x' (by omega) (by omega) h
      ⟨this.2, this.1⟩)
    hlen hT p rfl

theorem length_replicate_le (n : Nat) : n ≤ (List.replicate n (0 : F)).length := by
  rw [List.length_replicate]

theorem line_roundtrip_even (c : Lifting F) (he : c.EPSILON ≠ 0) (n : Nat) (hp : n % 2 = 0)
    (h2 : 2 ≤ n) (r : List F) (hr : r.length = n) :
    QccWAVCDF97SynthesisSymmetricEvenEven c
      (m_scatter_even (List.replicate n 0)
        (m_gather_even (List.replicate n 0) (QccWAVCDF97AnalysisSymmetricEvenEven c r n) n) n)
      n = r := by
  have e : m_scatter_even (List.replicate n 0)
      (m_gather_even (List.replicate n 0) (QccWAVCDF97AnalysisSymmetricEvenEven c r n) n) n =
      QccWAVCDF97AnalysisSymmetricEvenEven c r n := by
    have hl := (m_scatter_even_spec (List.replicate n (0 : F))
      (m_gather_even (List.replicate n 0) (QccWAVCDF97AnalysisSymmetricEvenEven c r n) n) n hp
      (length_replicate_le n)).1
    rw [List.length_replicate] at hl
    refine ext_rd (by rw [hl, length_AnalysisEvenEven, hr]) (fun k hk => ?_)
    rw [hl] at hk
    exact rd_scatter_gather_even _ _ _ n k hp (length_replicate_le n) (length_replicate_le n) hk
  rw [e]
  exact evenEven_roundtrip_general c r n hp h2 (by omega) he

theorem line_roundtrip_odd (c : Lifting F) (he : c.EPSILON ≠ 0) (n : Nat) (hp : n % 2 = 1)
    (h2 : 2 ≤ n) (r : List F) (hr : r.length = n) :
    QccWAVCDF97SynthesisSymmetricOddEven c
      (m_scatter_odd (List.replicate n 0)
        (m_gather_odd (List.replicate n 0) (QccWAVCDF97AnalysisSymmetricOddEven c r n) n) n)
      n = r := by
  have e : m_scatter_odd (List.replicate n 0)
      (m_gather_odd (List.replicate n 0) (QccWAVCDF97AnalysisSymmetricOddEven c r n) n) n =
      QccWAVCDF97AnalysisSymmetricOddEven c r n := by
    have hl := (m_scatter_odd_spec (List.replicate n (0 : F))
      (m_gather_odd (List.replicate n 0) (QccWAVCDF97AnalysisSymmetricOddEven c r n) n) n hp
      (length_replicate_le n)).1
    rw [List.length_replicate] at hl
    refine ext_rd (by rw [hl, length_AnalysisOddEven, hr]) (fun k hk => ?_)
    rw [hl] at hk
    exact rd_scatter_gather_odd _ _ _ n k hp (length_replicate_le n) (length_replicate_le n) hk
  rw [e]
  exact oddEven_roundtrip_general c r n hp (by omega) (by omega) he

theorem length_gather_zero (sigma : Nat → Nat) (n : Nat) (G : List F → List F → Nat → List F)
    (hG : IsRearr sigma n G) (r : List F) : (G (List.replicate n 0) r n).length = n := by
  rw [(hG.2 (List.replicate n 0) r (length_replicate_le n)).1, List.length_replicate]

/-- One level of the inverse transform undoes the same level of the forward
transform. -/
theorem one_level_roundtrip (c : Lifting F) (he : c.EPSILON ≠ 0) (dx lx ly : Nat) (p : List F)
    (hx : 2 ≤ lx) (hy : 2 ≤ ly) (hxd : lx ≤ dx) (hp : ly * dx ≤ p.length) :
    m_idwt2d_one_level c dx (m_dwt2d_one_level c dx p lx ly) lx ly = p := by
  unfold m_idwt2d_one_level m_dwt2d_one_level
  have ne : ¬ ((1 : Nat) = 0) := by decide
  rcases Nat.mod_two_eq_zero_or_one lx with hpx | hpx <;>
  rcases Nat.mod_two_eq_zero_or_one ly with hpy | hpy
  · simp only [hpx, hpy, if_true, if_neg ne]
    have hl := row_fwd_length dx lx ly _ m_gather_even (isRearr_gather_even lx hpx)
      (fun r => QccWAVCDF97AnalysisSymmetricEvenEven c r lx) hxd p hp
    have e1 := col_pass_cancel dx lx ly
      (fun r => m_gather_even (List.replicate ly 0)
        (QccWAVCDF97AnalysisSymmetricEvenEven c r ly) ly)
      (fun r => QccWAVCDF97SynthesisSymmetricEvenEven c
        (m_scatter_even (List.replicate ly 0) r ly) ly)
      (fun r _ => length_gather_zero _ ly m_gather_even (isRearr_gather_even ly hpy) _)
      (fun r hr => line_roundtrip_even c he ly hpy hy r hr) hxd _ (by rw [hl]; exact hp)
    have e2 := row_pass_cancel dx lx ly _ _ m_gather_even m_scatter_even
      (isRearr_gather_even lx hpx) (isRearr_scatter_even lx hpx)
      (fun r => QccWAVCDF97AnalysisSymmetricEvenEven c r lx)
      (fun r => QccWAVCDF97SynthesisSymmetricEvenEven c r lx)
      (fun r hr => line_roundtrip_even c he lx hpx hx r hr) hxd p hp
    beta_reduce at e1 e2
    rw [e1, e2]
  · simp only [hpx, hpy, if_true, if_neg ne]
    have hl := row_fwd_length dx lx ly _ m_gather_even (isRearr_gather_even lx hpx)
      (fun r => QccWAVCDF97AnalysisSymmetricEvenEven c r lx) hxd p hp
    have e1 := col_pass_cancel dx lx ly
      (fun r => m_gather_odd (List.replicate ly 0)
        (QccWAVCDF97AnalysisSymmetricOddEven c r ly) ly)
      (fun r => QccWAVCDF97SynthesisSymmetricOddEven c
        (m_scatter_odd (List.replicate ly 0) r ly) ly)
      (fun r _ => length_gather_zero _ ly m_gather_odd (isRearr_gather_odd ly hpy) _)
      (fun r hr => line_roundtrip_odd c he ly hpy hy r hr) hxd _ (by rw [hl]; exact hp)
    have e2 := row_pass_cancel dx lx ly _ _ m_gather_even m_scatter_even
      (isRearr_gather_even lx hpx) (isRearr_scatter_even lx hpx)
      (fun r => QccWAVCDF97AnalysisSymmetricEvenEven c r lx)
      (fun r => QccWAVCDF97SynthesisSymmetricEvenEven c r lx)
      (fun r hr => line_roundtrip_even c he lx hpx hx r hr) hxd p hp
    beta_reduce at e1 e2
    rw [e1, e2]
  · simp only [hpx, hpy, if_true, if_neg ne]
    have hl := row_fwd_length dx lx ly _ m_gather_odd (isRearr_gather_odd lx hpx)
      (fun r => QccWAVCDF97AnalysisSymmetricOddEven c r lx) hxd p hp
    have e1 := col_pass_cancel dx lx ly
      (fun r => m_gather_even (List.replicate ly 0)
        (QccWAVCDF97AnalysisSymmetricEvenEven c r ly) ly)
      (fun r => QccWAVCDF97SynthesisSymmetricEvenEven c
        (m_scatter_even (List.replicate ly 0) r ly) ly)
      (fun r _ => length_gather_zero _ ly m_gather_even (isRearr_gather_even ly hpy) _)
      (fun r hr => line_roundtrip_even c he ly hpy hy r hr) hxd _ (by rw [hl]; exact hp)
    have e2 := row_pass_cancel dx lx ly _ _ m_gather_odd m_scatter_odd
      (isRearr_gather_odd lx hpx) (isRearr_scatter_odd lx hpx)
      (fun r => QccWAVCDF97AnalysisSymmetricOddEven c r lx)
      (fun r => QccWAVCDF97SynthesisSymmetricOddEven c r lx)
      (fun r hr => line_roundtrip_odd c he lx hpx hx r hr) hxd p hp
    beta_reduce at e1 e2
    rw [e1, e2]
  · simp only [hpx, hpy, if_true, if_neg ne]
    have hl := row_fwd_length dx lx ly _ m_gather_odd (isRearr_gather_odd lx hpx)
      (fun r => QccWAVCDF97AnalysisSymmetricOddEven c r lx) hxd p hp
    have e1 := col_pass_cancel dx lx ly
      (fun r => m_gather_odd (List.replicate ly 0)
        (QccWAVCDF97AnalysisSymmetricOddEven c r ly) ly)
      (fun r => QccWAVCDF97SynthesisSymmetricOddEven c
        (m_scatter_odd (List.replicate ly 0) r ly) ly)
      (fun r _ => length_gather_zero _ ly m_gather_odd (isRearr_gather_odd ly hpy) _)
      (fun r hr => line_roundtrip_odd c he ly hpy hy r hr) hxd _ (by rw [hl]; exact hp)
    have e2 := row_pass_cancel dx lx ly _ _ m_gather_odd m_scatter_odd
      (isRearr_gather_odd lx hpx) (isRearr_scatter_odd lx hpx)
      (fun r => QccWAVCDF97AnalysisSymmetricOddEven c r lx)
      (fun r => QccWAVCDF97SynthesisSymmetricOddEven c r lx)
      (fun r hr => line_roundtrip_odd c he lx hpx hx r hr) hxd p hp
    beta_reduce at e1 e2
    rw [e1, e2]

end OneLevel

/-! ## Levels of the 2D transform -/

section Levels

theorem halve_le (n : Nat) : halve n ≤ n := by
  rw [halve_eq]
  omega

theorem iterate_halve_le (lev D : Nat) : halve^[lev] D ≤ D := by
  induction lev with
  | zero => exact Nat.le_refl _
  | succ k ih =>
    rw [Function.iterate_succ_apply']
    exact (halve_le _).trans ih

theorem two_le_iterate_halve (lev D : Nat) (h : 2 ^ lev < D) : 2 ≤ halve^[lev] D := by
  rw [iterate_halve, Nat.le_div_iff_mul_le (Nat.two_pow_pos lev)]
  omega

theorem pow_floor_log2_le : ∀ fuel m : Nat, 1 ≤ m → 2 ^ floor_log2 fuel m ≤ m := by
  intro fuel
  induction fuel with
  | zero => intro m hm; simpa [floor_log2] using hm
  | succ fuel ih =>
    intro m hm
    unfold floor_log2
    split
    · simpa using hm
    · have := ih (m / 2) (by omega)
      rw [Nat.pow_succ]
      omega

/-- Every level that the level function admits leaves more than one sample:
`2 ^ lev < D` for `lev` below the number of levels of length `D`. -/
theorem pow_lt_of_lt_levels (D lev : Nat) (h : lev < m_num_of_levels_z D) : 2 ^ lev < D := by
  simp only [m_num_of_levels_z] at h
  by_cases h9 : D < 9
  · have hraw : num_level_raw D = 0 := by simp [num_level_raw, h9]
    have harg : m_calc_approx_len D (num_level_arg D) = D := by
      unfold num_level_arg
      rw [hraw]
      rfl
    rw [harg, hraw] at h
    split at h
    · have : lev = 0 := by omega
      subst this
      omega
    · omega
  · have hraw : num_level_raw D = floor_log2 D (D / 9) + 1 := by simp [num_level_raw, h9]
    have harg : num_level_arg D = ((floor_log2 D (D / 9) : Nat) : Int) := by
      unfold num_level_arg
      rw [hraw]
      omega
    rw [harg, hraw, m_calc_approx_len_nat, iterate_halve] at h
    have hk := pow_floor_log2_le D (D / 9) (by omega)
    rw [Nat.le_div_iff_mul_le (by decide)] at hk
    generalize floor_log2 D (D / 9) = k at h hk
    have hpos : 0 < 2 ^ k := Nat.two_pow_pos k
    by_cases hle : lev ≤ k
    · have := Nat.pow_le_pow_right (by decide : 0 < 2) hle
      omega
    · split at h
      · rename_i h8
        have hlev : lev = k + 1 := by omega
        have := Nat.div_mul_le_self (D + 2 ^ k - 1) (2 ^ k)
        rw [h8] at this
        rw [hlev, Nat.pow_succ]
        omega
      · omega

/-- At every level of the 2D transform both lengths are at least 2 and at most
the extents of the plane. -/
theorem level_lengths (X Y lev : Nat) (h : lev < m_num_of_levels_xy X Y) :
    (2 ≤ m_calc_approx_len X lev ∧ m_calc_approx_len X lev ≤ X) ∧
    (2 ≤ m_calc_approx_len Y lev ∧ m_calc_approx_len Y lev ≤ Y) := by
  rw [m_num_of_levels_xy_eq] at h
  have hlt := pow_lt_of_lt_levels _ _ h
  have hx : min X Y ≤ X := Nat.min_le_left X Y
  have hy : min X Y ≤ Y := Nat.min_le_right X Y
  rw [m_calc_approx_len_nat, m_calc_approx_len_nat]
  exact ⟨⟨two_le_iterate_halve lev X (by omega), iterate_halve_le lev X⟩,
    ⟨two_le_iterate_halve lev Y (by omega), iterate_halve_le lev Y⟩⟩

theorem forLoop_one_eq_foldl {σ : Type} (body : Nat → σ → σ) (n : Nat) (s : σ) :
    forLoop n 1 body n 0 s = (List.range n).foldl (fun s i => body i s) s :=
  forLoop_one_invariant body n
    (fun i t => t = (List.range i).foldl (fun s i => body i s) s)
    (fun i t _ ht => by beta_reduce at ht ⊢; rw [List.range_succ, List.foldl_append, ← ht]; rfl)
    n 0 s (Nat.zero_le _) (by omega) rfl

theorem forLoop_one_succ {σ : Type} (body : Nat → σ → σ) (n : Nat) (s : σ) :
    forLoop (n + 1) 1 body (n + 1) 0 s = body n (forLoop n 1 body n 0 s) := by
  rw [forLoop_one_eq_foldl, forLoop_one_eq_foldl, List.range_succ, List.foldl_append]
  rfl

/-- A downward loop undoes an upward loop when each of its steps undoes the
step of the same index, on the states that satisfy an invariant `P` of the
upward steps. -/
theorem forDown_forLoop_cancel {σ : Type} (fwd inv : Nat → σ → σ) (P : σ → Prop) :
    ∀ L : Nat, (∀ lev, lev < L → ∀ q, P q → inv lev (fwd lev q) = q ∧ P (fwd lev q)) →
      ∀ p, P p → forDown inv L (forLoop L 1 fwd L 0 p) = p ∧ P (forLoop L 1 fwd L 0 p) := by
  intro L
  induction L with
  | zero => intro _ p hp; exact ⟨rfl, hp⟩
  | succ L ih =>
    intro h p hp
    obtain ⟨a, b⟩ := ih (fun lev hlev => h lev (by omega)) p hp
    obtain ⟨c, d⟩ := h L (by omega) _ b
    rw [forLoop_one_succ]
    refine ⟨?_, d⟩
    show forDown inv L (inv L (fwd L (forLoop L 1 fwd L 0 p))) = p
    rw [c, a]

end Levels

/-! ## Round trip of the 2D transform -/

section RoundTrip

variable {F : Type} [Field F]

/-- The forward column pass keeps the length of the plane. -/
theorem col_fwd_length (dx lx ly : Nat) (T1 : List F → List F) (hxd : lx ≤ dx) (p : List F)
    (hp : ly * dx ≤ p.length) :
    (forLoop lx 1 (fun x plane =>
      write_column dx plane x ly (T1 (read_column dx plane x ly))) lx 0 p).length =
      p.length := by
  by_cases hlx : lx = 0
  · subst hlx
    rfl
  have hdx : 0 < dx := by omega
  exact (linePass_spec (fun x y => y * dx + x) lx ly p.length T1 _
    (fun x q hx hq => col_update dx q x ly T1 hdx (fun y hy => by
      have := row_bound y ly dx (x + 1) q.length hy (by omega) (by rw [hq]; exact hp)
      omega))
    (fun x x' y y' hx hx' _ _ h =>
      have := grid_inj dx y y' x x' (by omega) (by omega) h
      ⟨this.2, this.1⟩)
    p rfl).1

/-- One level of the forward transform keeps the length of the plane. -/
theorem m_dwt2d_one_level_length (c : Lifting F) (dx lx ly : Nat) (p : List F)
    (hxd : lx ≤ dx) (hp : ly * dx ≤ p.length) :
    (m_dwt2d_one_level c dx p lx ly).length = p.length := by
  unfold m_dwt2d_one_level
  have ne : ¬ ((1 : Nat) = 0) := by decide
  rcases Nat.mod_two_eq_zero_or_one lx with hpx | hpx <;>
  rcases Nat.mod_two_eq_zero_or_one ly with hpy | hpy
  · simp only [hpx, hpy, if_true, if_neg ne]
    have hl := row_fwd_length dx lx ly _ m_gather_even (isRearr_gather_even lx hpx)
      (fun r => QccWAVCDF97AnalysisSymmetricEvenEven c r lx) hxd p hp
    have hc := col_fwd_length dx lx ly
      (fun r => m_gather_even (List.replicate ly 0)
        (QccWAVCDF97AnalysisSymmetricEvenEven c r ly) ly) hxd _ (by rw [hl]; exact hp)
    beta_reduce at hc hl
    rw [hc, hl]
  · simp only [hpx, hpy, if_true, if_neg ne]
    have hl := row_fwd_length dx lx ly _ m_gather_even (isRearr_gather_even lx hpx)
      (fun r => QccWAVCDF97AnalysisSymmetricEvenEven c r lx) hxd p hp
    have hc := col_fwd_length dx lx ly
      (fun r => m_gather_odd (List.replicate ly 0)
        (QccWAVCDF97AnalysisSymmetricOddEven c r ly) ly) hxd _ (by rw [hl]; exact hp)
    beta_reduce at hc hl
    rw [hc, hl]
  · simp only [hpx, hpy, if_true, if_neg ne]
    have hl := row_fwd_length dx lx ly _ m_gather_odd (isRearr_gather_odd lx hpx)
      (fun r => QccWAVCDF97AnalysisSymmetricOddEven c r lx) hxd p hp
    have hc := col_fwd_length dx lx ly
      (fun r => m_gather_even (List.replicate ly 0)
        (QccWAVCDF97AnalysisSymmetricEvenEven c r ly) ly) hxd _ (by rw [hl]; exact hp)
    beta_reduce at hc hl
    rw [hc, hl]
  · simp only [hpx, hpy, if_true, if_neg ne]
    have hl := row_fwd_length dx lx ly _ m_gather_odd (isRearr_gather_odd lx hpx)
      (fun r => QccWAVCDF97AnalysisSymmetricOddEven c r lx) hxd p hp
    have hc := col_fwd_length dx lx ly
      (fun r => m_gather_odd (List.replicate ly 0)
        (QccWAVCDF97AnalysisSymmetricOddEven c r ly) ly) hxd _ (by rw [hl]; exact hp)
    beta_reduce at hc hl
    rw [hc, hl]

/-- The inverse levels, taken from the last to the first, undo the forward
levels. -/
theorem levels_roundtrip (c : Lifting F) (he : c.EPSILON ≠ 0) (X Y : Nat) (p : List F)
    (hp : Y * X ≤ p.length) :
    forDown (fun lev buf =>
        m_idwt2d_one_level c X buf (m_calc_approx_len X lev) (m_calc_approx_len Y lev))
      (m_num_of_levels_xy X Y)
      (forLoop (m_num_of_levels_xy X Y) 1 (fun lev buf =>
        m_dwt2d_one_level c X buf (m_calc_approx_len X lev) (m_calc_approx_len Y lev))
        (m_num_of_levels_xy X Y) 0 p) = p := by
  refine (forDown_forLoop_cancel _ _ (fun q : List F => q.length = p.length)
    (m_num_of_levels_xy X Y) (fun lev hlev q hq => ?_) p rfl).1
  obtain ⟨⟨x2, xle⟩, ⟨y2, yle⟩⟩ := level_lengths X Y lev hlev
  have hb : m_calc_approx_len Y lev * X ≤ q.length := by
    rw [hq]
    exact (Nat.mul_le_mul_right X yle).trans hp
  exact ⟨one_level_roundtrip c he X _ _ q x2 y2 xle hb,
    (m_dwt2d_one_level_length c X _ _ q xle hb).trans hq⟩

/-- C1: over exact arithmetic `idwt2d` after `dwt2d`, on the same object,
restores the buffer: for every plane (so for every plane with extents
`Dx, Dy ≥ 2`) whose buffer holds `Dx * Dy * Dz` samples, `Dz ≥ 1`, and lifting
constants with `EPSILON ≠ 0`, the buffer after the two calls is the input
buffer, element for element (the error against the input is 0).  The levels
are undone from the last to the first and the subtracted mean is added back. -/
theorem dwt2d_idwt2d_roundtrip (c : Lifting F) (st : CDF97 F) (he : c.EPSILON ≠ 0)
    (hz : 1 ≤ st.m_dim_z)
    (hlen : st.m_data_buf.length = st.m_dim_x * st.m_dim_y * st.m_dim_z) :
    (idwt2d c (dwt2d c st)).m_data_buf = st.m_data_buf := by
  have key : (idwt2d c (dwt2d c st)).m_data_buf =
      forLoop (st.m_dim_x * st.m_dim_y * st.m_dim_z) 1
        (fun i buf => wr buf i (rd buf i + (m_calc_mean st).m_data_mean))
        (st.m_dim_x * st.m_dim_y * st.m_dim_z) 0
        (forDown (fun lev buf =>
            m_idwt2d_one_level c st.m_dim_x buf (m_calc_approx_len st.m_dim_x lev)
              (m_calc_approx_len st.m_dim_y lev))
          (m_num_of_levels_xy st.m_dim_x st.m_dim_y)
          (forLoop (m_num_of_levels_xy st.m_dim_x st.m_dim_y) 1 (fun lev buf =>
            m_dwt2d_one_level c st.m_dim_x buf (m_calc_approx_len st.m_dim_x lev)
              (m_calc_approx_len st.m_dim_y lev))
            (m_num_of_levels_xy st.m_dim_x st.m_dim_y) 0
            (dwt2d_preprocess st).m_data_buf)) := rfl
  have pre : (dwt2d_preprocess st).m_data_buf =
      forLoop (st.m_dim_x * st.m_dim_y * st.m_dim_z) 1
        (fun i buf => wr buf i (rd buf i - (m_calc_mean st).m_data_mean))
        (st.m_dim_x * st.m_dim_y * st.m_dim_z) 0 st.m_data_buf := rfl
  obtain ⟨a1, a2⟩ := map_loop_spec (fun x => x - (m_calc_mean st).m_data_mean)
    (st.m_dim_x * st.m_dim_y * st.m_dim_z) st.m_data_buf
  rw [← pre] at a1 a2
  have hb : st.m_dim_y * st.m_dim_x ≤ (dwt2d_preprocess st).m_data_buf.length := by
    rw [a1, hlen, Nat.mul_comm st.m_dim_x st.m_dim_y]
    exact Nat.le_mul_of_pos_right _ hz
  rw [key, levels_roundtrip c he st.m_dim_x st.m_dim_y _ hb]
  obtain ⟨b1, b2⟩ := map_loop_spec (fun x => x + (m_calc_mean st).m_data_mean)
    (st.m_dim_x * st.m_dim_y * st.m_dim_z) (dwt2d_preprocess st).m_data_buf
  refine ext_rd (by rw [b1, a1]) (fun j hj => ?_)
  rw [b1, a1] at hj
  rw [b2 j, a1, if_pos ⟨by omega, hj⟩, a2 j, if_pos ⟨by omega, hj⟩]
  ring

theorem dwt2d_idwt2d_roundtrip_witness :
    (idwt2d specLifting (dwt2d specLifting examplePlane)).m_data_buf =
      examplePlane.m_data_buf :=
  dwt2d_idwt2d_roundtrip specLifting examplePlane specLifting_EPSILON_ne_zero
    (by decide) (by decide)

end RoundTrip

/-! ## The level functions from length 9 on -/

section FromNine

theorem lt_pow_floor_log2_succ : ∀ fuel m : Nat, m < 2 ^ fuel → m < 2 ^ (floor_log2 fuel m + 1) := by
  intro fuel
  induction fuel with
  | zero => intro m hm; simp at hm; subst hm; simp [floor_log2]
  | succ fuel ih =>
    intro m hm
    unfold floor_log2
    split
    · simpa using (by omega : m < 2)
    · have := ih (m / 2) (by rw [Nat.pow_succ] at hm; omega)
      rw [Nat.pow_succ] at this ⊢
      omega

/-- From length 9 on the first two lines of the level functions give the `k`
with `9 * 2 ^ (k - 1) ≤ len < 9 * 2 ^ k`. -/
theorem num_level_raw_bounds (D : Nat) (h : 9 ≤ D) :
    1 ≤ num_level_raw D ∧ 9 * 2 ^ (num_level_raw D - 1) ≤ D ∧ D < 9 * 2 ^ num_level_raw D := by
  have hraw : num_level_raw D = floor_log2 D (D / 9) + 1 := by
    simp [num_level_raw, Nat.not_lt.mpr h]
  have h1 := pow_floor_log2_le D (D / 9) (by omega)
  have h2 := lt_pow_floor_log2_succ D (D / 9)
    (lt_of_le_of_lt (Nat.div_le_self D 9) (Nat.lt_two_pow D))
  rw [hraw, Nat.add_sub_cancel]
  generalize floor_log2 D (D / 9) = k at h1 h2
  rw [Nat.le_div_iff_mul_le (by decide)] at h1
  rw [Nat.div_lt_iff_lt_mul (by decide)] at h2
  exact ⟨by omega, by omega, by omega⟩

/-- C25: the level functions break the assertion `lev >= 0` of
`m_calc_approx_len` on every length below 9, for instance 8: there
`num_level` is 0 and the level argument `num_level - 1` is `-1`.  From length
9 on the assertion holds. -/
theorem level_assert_fails_at_eight :
    (num_level_arg 8 = -1 ∧ ¬ m_calc_approx_len_assert (num_level_arg 8)) ∧
    (∀ D : Nat, D < 9 → ¬ m_calc_approx_len_assert (num_level_arg D)) ∧
    (∀ D : Nat, 9 ≤ D → m_calc_approx_len_assert (num_level_arg D)) := by
  refine ⟨⟨by decide, by decide⟩, fun D hD => ?_, fun D hD => ?_⟩
  · have hraw : num_level_raw D = 0 := by simp [num_level_raw, hD]
    unfold m_calc_approx_len_assert num_level_arg
    omega
  · have := (num_level_raw_bounds D hD).1
    unfold m_calc_approx_len_assert num_level_arg
    omega

end FromNine

/-! ## What one level of the 2D transform leaves alone -/

section Frame

variable {F : Type} [Field F]

/-- The forward row pass changes nothing outside the rows it works on. -/
theorem row_fwd_frame (dx lx ly : Nat) (sigma : Nat → Nat)
    (G : List F → List F → Nat → List F) (hG : IsRearr sigma lx G) (K : List F → List F)
    (hxd : lx ≤ dx) (p : List F) (hp : ly * dx ≤ p.length) (j : Nat)
    (hj : ∀ i k, i < ly → k < lx → j ≠ i * dx + k) :
    rd (forLoop ly 1 (fun i plane => through plane (i * dx) (fun pos =>
      G pos (K (memcpy (List.replicate lx 0) (plane.drop (i * dx)) lx)) lx)) ly 0 p) j =
      rd p j :=
  (linePass_spec (fun i k => i * dx + k) ly lx p.length
    (fun r => G (List.replicate lx 0) (K r) lx) _
    (fun i q hi hq => row_fwd_update sigma lx G hG K q (i * dx)
      (row_bound i ly dx lx q.length hi hxd (by rw [hq]; exact hp)))
    (fun i i' k k' _ _ hk hk' h => grid_inj dx i i' k k' (by omega) (by omega) h)
    p rfl).2.2 j hj

/-- The inverse row pass changes nothing outside the rows it works on. -/
theorem row_inv_frame (dx lx ly : Nat) (sigma : Nat → Nat)
    (G : List F → List F → Nat → List F) (hG : IsRearr sigma lx G) (K : List F → List F)
    (hxd : lx ≤ dx) (p : List F) (hp : ly * dx ≤ p.length) (j : Nat)
    (hj : ∀ i k, i < ly → k < lx → j ≠ i * dx + k) :
    rd (forLoop ly 1 (fun i plane => through plane (i * dx) (fun pos =>
      memcpy pos (K (G (List.replicate lx 0) (plane.drop (i * dx)) lx)) lx)) ly 0 p) j =
      rd p j :=
  (linePass_spec (fun i k => i * dx + k) ly lx p.length
    (fun r => K (G (List.replicate lx 0) r lx)) _
    (fun i q hi hq => row_inv_update sigma lx G hG K q (i * dx)
      (row_bound i ly dx lx q.length hi hxd (by rw [hq]; exact hp)))
    (fun i i' k k' _ _ hk hk' h => grid_inj dx i i' k k' (by omega) (by omega) h)
    p rfl).2.2 j hj

/-- A column pass changes nothing outside the columns it works on. -/
theorem col_frame (dx lx ly : Nat) (T : List F → List F) (hxd : lx ≤ dx) (p : List F)
    (hp : ly * dx ≤ p.length) (j : Nat)
    (hj : ∀ x y, x < lx → y < ly → j ≠ y * dx + x) :
    rd (forLoop lx 1 (fun x plane =>
      write_column dx plane x ly (T (read_column dx plane x ly))) lx 0 p) j = rd p j := by
  by_cases hlx : lx = 0
  · subst hlx
    rfl
  have hdx : 0 < dx := by omega
  exact (linePass_spec (fun x y => y * dx + x) lx ly p.length T _
    (fun x q hx hq => col_update dx q x ly T hdx (fun y hy => by
      have := row_bound y ly dx (x + 1) q.length hy (by omega) (by rw [hq]; exact hp)
      omega))
    (fun x x' y y' hx hx' _ _ h =>
      have := grid_inj dx y y' x x' (by omega) (by omega) h
      ⟨this.2, this.1⟩)
    p rfl).2.2 j hj

theorem m_dwt2d_one_level_frame (c : Lifting F) (dx lx ly : Nat) (p : List F)
    (hxd : lx ≤ dx) (hp : ly * dx ≤ p.length) (j : Nat)
    (hj : ∀ x y, x < lx → y < ly → j ≠ y * dx + x) :
    rd (m_dwt2d_one_level c dx p lx ly) j = rd p j := by
  unfold m_dwt2d_one_level
  have ne : ¬ ((1 : Nat) = 0) := by decide
  rcases Nat.mod_two_eq_zero_or_one lx with hpx | hpx <;>
  rcases Nat.mod_two_eq_zero_or_one ly with hpy | hpy
  · simp only [hpx, hpy, if_true, if_neg ne]
    have hl := row_fwd_length dx lx ly _ m_gather_even (isRearr_gather_even lx hpx)
      (fun r => QccWAVCDF97AnalysisSymmetricEvenEven c r lx) hxd p hp
    have hr := row_fwd_frame dx lx ly _ m_gather_even (isRearr_gather_even lx hpx)
      (fun r => QccWAVCDF97AnalysisSymmetricEvenEven c r lx) hxd p hp j
      (fun i k hi hk => hj k i hk hi)
    have hc := col_frame dx lx ly
      (fun r => m_gather_even (List.replicate ly 0)
        (QccWAVCDF97AnalysisSymmetricEvenEven c r ly) ly) hxd _ (by rw [hl]; exact hp) j hj
    beta_reduce at hc hr
    rw [hc, hr]
  · simp only [hpx, hpy, if_true, if_neg ne]
    have hl := row_fwd_length dx lx ly _ m_gather_even (isRearr_gather_even lx hpx)
      (fun r => QccWAVCDF97AnalysisSymmetricEvenEven c r lx) hxd p hp
    have hr := row_fwd_frame dx lx ly _ m_gather_even (isRearr_gather_even lx hpx)
      (fun r => QccWAVCDF97AnalysisSymmetricEvenEven c r lx) hxd p hp j
      (fun i k hi hk => hj k i hk hi)
    have hc := col_frame dx lx ly
      (fun r => m_gather_odd (List.replicate ly 0)
        (QccWAVCDF97AnalysisSymmetricOddEven c r ly) ly) hxd _ (by rw [hl]; exact hp) j hj
    beta_reduce at hc hr
    rw [hc, hr]
  · simp only [hpx, hpy, if_true, if_neg ne]
    have hl := row_fwd_length dx lx ly _ m_gather_odd (isRearr_gather_odd lx hpx)
      (fun r => QccWAVCDF97AnalysisSymmetricOddEven c r lx) hxd p hp
    have hr := row_fwd_frame dx lx ly _ m_gather_odd (isRearr_gather_odd lx hpx)
      (fun r => QccWAVCDF97AnalysisSymmetricOddEven c r lx) hxd p hp j
      (fun i k hi hk => hj k i hk hi)
    have hc := col_frame dx lx ly
      (fun r => m_gather_even (List.replicate ly 0)
        (QccWAVCDF97AnalysisSymmetricEvenEven c r ly) ly) hxd _ (by rw [hl]; exact hp) j hj
    beta_reduce at hc hr
    rw [hc, hr]
  · simp only [hpx, hpy, if_true, if_neg ne]
    have hl := row_fwd_length dx lx ly _ m_gather_odd (isRearr_gather_odd lx hpx)
      (fun r => QccWAVCDF97AnalysisSymmetricOddEven c r lx) hxd p hp
    have hr := row_fwd_frame dx lx ly _ m_gather_odd (isRearr_gather_odd lx hpx)
      (fun r => QccWAVCDF97AnalysisSymmetricOddEven c r lx) hxd p hp j
      (fun i k hi hk => hj k i hk hi)
    have hc := col_frame dx lx ly
      (fun r => m_gather_odd (List.replicate ly 0)
        (QccWAVCDF97AnalysisSymmetricOddEven c r ly) ly) hxd _ (by rw [hl]; exact hp) j hj
    beta_reduce at hc hr
    rw [hc, hr]

theorem m_idwt2d_one_level_frame (c : Lifting F) (dx lx ly : Nat) (p : List F)
    (hxd : lx ≤ dx) (hp : ly * dx ≤ p.length) (j : Nat)
    (hj : ∀ x y, x < lx → y < ly → j ≠ y * dx + x) :
    rd (m_idwt2d_one_level c dx p lx ly) j = rd p j := by
  unfold m_idwt2d_one_level
  have ne : ¬ ((1 : Nat) = 0) := by decide
  rcases Nat.mod_two_eq_zero_or_one lx with hpx | hpx <;>
  rcases Nat.mod_two_eq_zero_or_one ly with hpy | hpy
  · simp only [hpx, hpy, if_true, if_neg ne]
    have hl := col_fwd_length dx lx ly
      (fun r => QccWAVCDF97SynthesisSymmetricEvenEven c
        (m_scatter_even (List.replicate ly 0) r ly) ly) hxd p hp
    have hc := col_frame dx lx ly
      (fun r => QccWAVCDF97SynthesisSymmetricEvenEven c
        (m_scatter_even (List.replicate ly 0) r ly) ly) hxd p hp j hj
    have hr := row_inv_frame dx lx ly _ m_scatter_even (isRearr_scatter_even lx hpx)
      (fun r => QccWAVCDF97SynthesisSymmetricEvenEven c r lx) hxd _ (by rw [hl]; exact hp) j
      (fun i k hi hk => hj k i hk hi)
    beta_reduce at hc hr
    rw [hr, hc]
  · simp only [hpx, hpy, if_true, if_neg ne]
    have hl := col_fwd_length dx lx ly
      (fun r => QccWAVCDF97SynthesisSymmetricOddEven c
        (m_scatter_odd (List.replicate ly 0) r ly) ly) hxd p hp
    have hc := col_frame dx lx ly
      (fun r => QccWAVCDF97SynthesisSymmetricOddEven c
        (m_scatter_odd (List.replicate ly 0) r ly) ly) hxd p hp j hj
    have hr := row_inv_frame dx lx ly _ m_scatter_even (isRearr_scatter_even lx hpx)
      (fun r => QccWAVCDF97SynthesisSymmetricEvenEven c r lx) hxd _ (by rw [hl]; exact hp) j
      (fun i k hi hk => hj k i hk hi)
    beta_reduce at hc hr
    rw [hr, hc]
  · simp only [hpx, hpy, if_true, if_neg ne]
    have hl := col_fwd_length dx lx ly
      (fun r => QccWAVCDF97SynthesisSymmetricEvenEven c
        (m_scatter_even (List.replicate ly 0) r ly) ly) hxd p hp
    have hc := col_frame dx lx ly
      (fun r => QccWAVCDF97SynthesisSymmetricEvenEven c
        (m_scatter_even (List.replicate ly 0) r ly) ly) hxd p hp j hj
    have hr := row_inv_frame dx lx ly _ m_scatter_odd (isRearr_scatter_odd lx hpx)
      (fun r => QccWAVCDF97SynthesisSymmetricOddEven c r lx) hxd _ (by rw [hl]; exact hp) j
      (fun i k hi hk => hj k i hk hi)
    beta_reduce at hc hr
    rw [hr, hc]
  · simp only [hpx, hpy, if_true, if_neg ne]
    have hl := col_fwd_length dx lx ly
      (fun r => QccWAVCDF97SynthesisSymmetricOddEven c
        (m_scatter_odd (List.replicate ly 0) r ly) ly) hxd p hp
    have hc := col_frame dx lx ly
      (fun r => QccWAVCDF97SynthesisSymmetricOddEven c
        (m_scatter_odd (List.replicate ly 0) r ly) ly) hxd p hp j hj
    have hr := row_inv_frame dx lx ly _ m_scatter_odd (isRearr_scatter_odd lx hpx)
      (fun r => QccWAVCDF97SynthesisSymmetricOddEven c r lx) hxd _ (by rw [hl]; exact hp) j
      (fun i k hi hk => hj k i hk hi)
    beta_reduce at hc hr
    rw [hr, hc]

/-- C27: on a plane of row stride `Dx` with `len_x ≤ Dx` and `len_y ≤ Dy`,
`m_dwt2d_one_level` and `m_idwt2d_one_level` leave every sample `(x, y)` with
`x ≥ len_x` or `y ≥ len_y` as it was; so does everything behind the plane, and
the length of the buffer stays. -/
theorem one_level_frame (c : Lifting F) (Dx Dy len_x len_y : Nat) (plane : List F)
    (hx : len_x ≤ Dx) (hy : len_y ≤ Dy) (hlen : Dx * Dy ≤ plane.length) :
    (∀ x y, x < Dx → (len_x ≤ x ∨ len_y ≤ y) →
      rd (m_dwt2d_one_level c Dx plane len_x len_y) (y * Dx + x) = rd plane (y * Dx + x) ∧
      rd (m_idwt2d_one_level c Dx plane len_x len_y) (y * Dx + x) = rd plane (y * Dx + x)) ∧
    (∀ j, Dx * Dy ≤ j →
      rd (m_dwt2d_one_level c Dx plane len_x len_y) j = rd plane j ∧
      rd (m_idwt2d_one_level c Dx plane len_x len_y) j = rd plane j) ∧
    (m_dwt2d_one_level c Dx plane len_x len_y).length = plane.length := by
  have hp : len_y * Dx ≤ plane.length := by
    have := Nat.mul_le_mul_right Dx hy
    rw [Nat.mul_comm Dy Dx] at this
    omega
  refine ⟨fun x y hxD hout => ?_, fun j hj => ?_, m_dwt2d_one_level_length c Dx _ _ plane hx hp⟩
  · have hne : ∀ x' y', x' < len_x → y' < len_y → y * Dx + x ≠ y' * Dx + x' := by
      intro x' y' hx' hy' heq
      have := grid_inj Dx y y' x x' hxD (by omega) heq
      omega
    exact ⟨m_dwt2d_one_level_frame c Dx len_x len_y plane hx hp _ hne,
      m_idwt2d_one_level_frame c Dx len_x len_y plane hx hp _ hne⟩
  · have hne : ∀ x' y', x' < len_x → y' < len_y → j ≠ y' * Dx + x' := by
      intro x' y' hx' hy' heq
      have h1 := row_bound y' len_y Dx (x' + 1) (Dx * Dy) hy' (by omega)
        (by rw [Nat.mul_comm Dx Dy]; exact Nat.mul_le_mul_right Dx hy)
      omega
    exact ⟨m_dwt2d_one_level_frame c Dx len_x len_y plane hx hp _ hne,
      m_idwt2d_one_level_frame c Dx len_x len_y plane hx hp _ hne⟩

theorem one_level_frame_witness :
    (∀ x y, x < 9 → (5 ≤ x ∨ 5 ≤ y) →
      rd (m_dwt2d_one_level specLifting 9 examplePlane.m_data_buf 5 5) (y * 9 + x) =
        rd examplePlane.m_data_buf (y * 9 + x) ∧
      rd (m_idwt2d_one_level specLifting 9 examplePlane.m_data_buf 5 5) (y * 9 + x) =
        rd examplePlane.m_data_buf (y * 9 + x)) ∧
    (∀ j, 9 * 10 ≤ j →
      rd (m_dwt2d_one_level specLifting 9 examplePlane.m_data_buf 5 5) j =
        rd examplePlane.m_data_buf j ∧
      rd (m_idwt2d_one_level specLifting 9 examplePlane.m_data_buf 5 5) j =
        rd examplePlane.m_data_buf j) ∧
    (m_dwt2d_one_level specLifting 9 examplePlane.m_data_buf 5 5).length =
      examplePlane.m_data_buf.length :=
  one_level_frame specLifting 9 10 5 5 examplePlane.m_data_buf (by decide) (by decide)
    (by decide)

end Frame

/-! ## The 2D transform of a constant plane -/

section Constant

variable {F : Type} [Field F]

theorem allZero_wr (s : List F) (i : Nat) (v : F) (hv : v = 0) (h : ∀ j, rd s j = 0) :
    ∀ j, rd (wr s i v) j = 0 := by
  intro j
  rw [rd_wr, hv, h j]
  split <;> rfl

theorem eq_replicate_of_allZero (l : List F) (n : Nat) (hl : l.length = n)
    (h : ∀ j, rd l j = 0) : l = List.replicate n 0 := by
  refine ext_rd (by rw [List.length_replicate, hl]) (fun j _ => ?_)
  rw [h j, rd_replicate_zero]

theorem loopStep_zero (phi : F → F → F → F) (hphi : phi 0 0 0 = 0) (hi : Nat) :
    ∀ (fuel lo : Nat) (l : List F), (∀ j, rd l j = 0) →
      ∀ j, rd (loopStep phi hi fuel lo l) j = 0 := by
  intro fuel
  induction fuel with
  | zero => intro lo l h; exact h
  | succ fuel ih =>
    intro lo l h
    unfold loopStep forLoop
    split
    · exact ih _ _ (allZero_wr l lo _ (by rw [h, h, h]; exact hphi) h)
    · exact h

theorem firstStep_zero (psi : F → F → F) (hpsi : psi 0 0 = 0) (l : List F)
    (h : ∀ j, rd l j = 0) : ∀ j, rd (firstStep psi l) j = 0 :=
  allZero_wr l 0 _ (by rw [h, h]; exact hpsi) h

theorem lastStep_zero (psi : F → F → F) (hpsi : psi 0 0 = 0) (n : Nat) (l : List F)
    (h : ∀ j, rd l j = 0) : ∀ j, rd (lastStep psi n l) j = 0 :=
  allZero_wr l (n - 1) _ (by rw [h, h]; exact hpsi) h

theorem AnalysisEvenEven_zero (c : Lifting F) (l : List F) (n : Nat) (h : ∀ j, rd l j = 0) :
    ∀ j, rd (QccWAVCDF97AnalysisSymmetricEvenEven c l n) j = 0 := by
  show ∀ j, rd (loopStep (fun x _ _ => x / (-c.EPSILON)) n n 1
      (loopStep (fun x a b => c.EPSILON * (x + c.DELTA * (b + a))) n n 2
      (firstStep (fun x b => c.EPSILON * (x + 2 * c.DELTA * b))
      (lastStep (fun x a => x + 2 * c.GAMMA * a) n
      (loopStep (fun x a b => x + c.GAMMA * (a + b)) (n - 2) n 1
      (loopStep (fun x a b => x + c.BETA * (b + a)) n n 2
      (firstStep (fun x b => x + 2 * c.BETA * b)
      (lastStep (fun x a => x + 2 * c.ALPHA * a) n
      (loopStep (fun x a b => x + c.ALPHA * (a + b)) (n - 2) n 1 l))))))))) j = 0
  repeat' first
    | exact h
    | refine loopStep_zero _ (by simp) _ _ _ _ ?_
    | refine firstStep_zero _ (by simp) _ ?_
    | refine lastStep_zero _ (by simp) _ _ ?_

theorem SynthesisEvenEven_zero (c : Lifting F) (l : List F) (n : Nat) (h : ∀ j, rd l j = 0) :
    ∀ j, rd (QccWAVCDF97SynthesisSymmetricEvenEven c l n) j = 0 := by
  show ∀ j, rd (lastStep (fun x a => x - 2 * c.ALPHA * a) n
      (loopStep (fun x a b => x - c.ALPHA * (a + b)) (n - 2) n 1
      (loopStep (fun x a b => x - c.BETA * (b + a)) n n 2
      (firstStep (fun x b => x - 2 * c.BETA * b)
      (lastStep (fun x a => x - 2 * c.GAMMA * a) n
      (loopStep (fun x a b => x - c.GAMMA * (a + b)) (n - 2) n 1
      (loopStep (fun x a b => x / c.EPSILON - c.DELTA * (b + a)) n n 2
      (firstStep (fun x b => x / c.EPSILON - 2 * c.DELTA * b)
      (loopStep (fun x _ _ => x * (-c.EPSILON)) n n 1 l))))))))) j = 0
  repeat' first
    | exact h
    | refine loopStep_zero _ (by simp) _ _ _ _ ?_
    | refine firstStep_zero _ (by simp) _ ?_
    | refine lastStep_zero _ (by simp) _ _ ?_

theorem AnalysisOddEven_zero (c : Lifting F) (l : List F) (n : Nat) (h : ∀ j, rd l j = 0) :
    ∀ j, rd (QccWAVCDF97AnalysisSymmetricOddEven c l n) j = 0 := by
  show ∀ j, rd (loopStep (fun x _ _ => x / (-c.EPSILON)) (n - 1) n 1
      (lastStep (fun x a => c.EPSILON * (x + 2 * c.DELTA * a)) n
      (loopStep (fun x a b => c.EPSILON * (x + c.DELTA * (b + a))) (n - 2) n 2
      (firstStep (fun x b => c.EPSILON * (x + 2 * c.DELTA * b))
      (loopStep (fun x a b => x + c.GAMMA * (a + b)) (n - 1) n 1
      (lastStep (fun x a => x + 2 * c.BETA * a) n
      (loopStep (fun x a b => x + c.BETA * (b + a)) (n - 2) n 2
      (firstStep (fun x b => x + 2 * c.BETA * b)
      (loopStep (fun x a b => x + c.ALPHA * (a + b)) (n - 1) n 1 l))))))))) j = 0
  repeat' first
    | exact h
    | refine loopStep_zero _ (by simp) _ _ _ _ ?_
    | refine firstStep_zero _ (by simp) _ ?_
    | refine lastStep_zero _ (by simp) _ _ ?_

theorem SynthesisOddEven_zero (c : Lifting F) (l : List F) (n : Nat) (h : ∀ j, rd l j = 0) :
    ∀ j, rd (QccWAVCDF97SynthesisSymmetricOddEven c l n) j = 0 := by
  show ∀ j, rd (loopStep (fun x a b => x - c.ALPHA * (a + b)) (n - 1) n 1
      (lastStep (fun x a => x - 2 * c.BETA * a) n
      (loopStep (fun x a b => x - c.BETA * (b + a)) (n - 2) n 2
      (firstStep (fun x b => x - 2 * c.BETA * b)
      (loopStep (fun x a b => x - c.GAMMA * (a + b)) (n - 1) n 1
      (lastStep (fun x a => x / c.EPSILON - 2 * c.DELTA * a) n
      (loopStep (fun x a b => x / c.EPSILON - c.DELTA * (b + a)) (n - 2) n 2
      (firstStep (fun x b => x / c.EPSILON - 2 * c.DELTA * b)
      (loopStep (fun x _ _ => x * (-c.EPSILON)) (n - 1) n 1 l))))))))) j = 0
  repeat' first
    | exact h
    | refine loopStep_zero _ (by simp) _ _ _ _ ?_
    | refine firstStep_zero _ (by simp) _ ?_
    | refine lastStep_zero _ (by simp) _ _ ?_

theorem length_SynthesisEvenEven (c : Lifting F) (l : List F) (n : Nat) :
    (QccWAVCDF97SynthesisSymmetricEvenEven c l n).length = l.length := by
  simp only [QccWAVCDF97SynthesisSymmetricEvenEven, length_forLoop_wr, length_wr]

theorem length_SynthesisOddEven (c : Lifting F) (l : List F) (n : Nat) :
    (QccWAVCDF97SynthesisSymmetricOddEven c l n).length = l.length := by
  simp only [QccWAVCDF97SynthesisSymmetricOddEven, length_forLoop_wr, length_wr]

theorem lineOf_zero (L : Nat) (idx : Nat → Nat) (n : Nat) :
    lineOf (List.replicate L (0 : F)) idx n = List.replicate n 0 := by
  symm
  apply eq_lineOf_of_rd _ _ _ _ (List.length_replicate _ _)
  intro k _
  rw [rd_replicate_zero, rd_replicate_zero]

/-- A pass whose line transform keeps the zero line keeps the zero plane. -/
theorem linePass_zero (idx : Nat → Nat → Nat) (m n L : Nat) (T : List F → List F)
    (body : Nat → List F → List F)
    (hbody : ∀ i p, i < m → p.length = L → LineUpdate (idx i) n T p (body i p))
    (hinj : ∀ i i' k k', i < m → i' < m → k < n → k' < n → idx i k = idx i' k' →
      i = i' ∧ k = k')
    (hT : T (List.replicate n 0) = List.replicate n 0) :
    forLoop m 1 body m 0 (List.replicate L 0) = List.replicate L 0 := by
  obtain ⟨a1, a2, a3⟩ := linePass_spec idx m n L T body hbody hinj (List.replicate L 0)
    (List.length_replicate _ _)
  apply eq_replicate_of_allZero _ _ a1
  intro j
  by_cases hj : ∃ i k, i < m ∧ k < n ∧ j = idx i k
  · obtain ⟨i, k, hi, hk, rfl⟩ := hj
    rw [a2 i k hi hk, lineOf_zero, hT, rd_replicate_zero]
  · rw [a3 j (fun i k hi hk heq => hj ⟨i, k, hi, hk, heq⟩), rd_replicate_zero]

theorem gather_kernel_zero (sigma : Nat → Nat) (n : Nat) (G : List F → List F → Nat → List F)
    (hG : IsRearr sigma n G) (K : List F → List F)
    (hK : ∀ r : List F, (∀ j, rd r j = 0) → ∀ j, rd (K r) j = 0) :
    G (List.replicate n 0) (K (List.replicate n 0)) n = List.replicate n 0 := by
  apply eq_replicate_of_allZero _ _ (length_gather_zero sigma n G hG _)
  intro j
  rw [(hG.2 _ _ (length_replicate_le n)).2 j]
  split
  · exact hK _ (fun j => rd_replicate_zero n j) _
  · exact rd_replicate_zero n j

theorem kernel_scatter_zero (sigma : Nat → Nat) (n : Nat) (G : List F → List F → Nat → List F)
    (hG : IsRearr sigma n G) (K : List F → List F)
    (hK : ∀ r : List F, (∀ j, rd r j = 0) → ∀ j, rd (K r) j = 0)
    (hlen : ∀ r : List F, (K r).length = r.length) :
    K (G (List.replicate n 0) (List.replicate n 0) n) = List.replicate n 0 := by
  apply eq_replicate_of_allZero _ _ (by rw [hlen, length_gather_zero sigma n G hG _])
  apply hK
  intro j
  rw [(hG.2 _ _ (length_replicate_le n)).2 j]
  split <;> exact rd_replicate_zero n _

theorem row_fwd_zero (dx lx ly : Nat) (sigma : Nat → Nat)
    (G : List F → List F → Nat → List F) (hG : IsRearr sigma lx G) (K : List F → List F)
    (hK : ∀ r : List F, (∀ j, rd r j = 0) → ∀ j, rd (K r) j = 0)
    (hxd : lx ≤ dx) (L : Nat) (hp : ly * dx ≤ L) :
    forLoop ly 1 (fun i plane => through plane (i * dx) (fun pos =>
      G pos (K (memcpy (List.replicate lx 0) (plane.drop (i * dx)) lx)) lx)) ly 0
      (List.replicate L 0) = List.replicate L 0 :=
  linePass_zero (fun i k => i * dx + k) ly lx L
    (fun r => G (List.replicate lx 0) (K r) lx) _
    (fun i q hi hq => row_fwd_update sigma lx G hG K q (i * dx)
      (row_bound i ly dx lx q.length hi hxd (by rw [hq]; exact hp)))
    (fun i i' k k' _ _ hk hk' h => grid_inj dx i i' k k' (by omega) (by omega) h)
    (gather_kernel_zero sigma lx G hG K hK)

theorem row_inv_zero (dx lx ly : Nat) (sigma : Nat → Nat)
    (G : List F → List F → Nat → List F) (hG : IsRearr sigma lx G) (K : List F → List F)
    (hK : ∀ r : List F, (∀ j, rd r j = 0) → ∀ j, rd (K r) j = 0)
    (hlen : ∀ r : List F, (K r).length = r.length)
    (hxd : lx ≤ dx) (L : Nat) (hp : ly * dx ≤ L) :
    forLoop ly 1 (fun i plane => through plane (i * dx) (fun pos =>
      memcpy pos (K (G (List.replicate lx 0) (plane.drop (i * dx)) lx)) lx)) ly 0
      (List.replicate L 0) = List.replicate L 0 :=
  linePass_zero (fun i k => i * dx + k) ly lx L
    (fun r => K (G (List.replicate lx 0) r lx)) _
    (fun i q hi hq => row_inv_update sigma lx G hG K q (i * dx)
      (row_bound i ly dx lx q.length hi hxd (by rw [hq]; exact hp)))
    (fun i i' k k' _ _ hk hk' h => grid_inj dx i i' k k' (by omega) (by omega) h)
    (kernel_scatter_zero sigma lx G hG K hK hlen)

theorem col_zero (dx lx ly : Nat) (T : List F → List F)
    (hT : T (List.replicate ly 0) = List.replicate ly 0) (hxd : lx ≤ dx) (L : Nat)
    (hp : ly * dx ≤ L) :
    forLoop lx 1 (fun x plane =>
      write_column dx plane x ly (T (read_column dx plane x ly))) lx 0
      (List.replicate L 0) = List.replicate L 0 := by
  by_cases hlx : lx = 0
  · subst hlx
    rfl
  have hdx : 0 < dx := by omega
  exact linePass_zero (fun x y => y * dx + x) lx ly L T _
    (fun x q hx hq => col_update dx q x ly T hdx (fun y hy => by
      have := row_bound y ly dx (x + 1) q.length hy (by omega) (by rw [hq]; exact hp)
      omega))
    (fun x x' y y' hx hx' _ _ h =>
      have := grid_inj dx y y' x x' (by omega) (by omega) h
      ⟨this.2, this.1⟩)
    hT

/-- One level of the forward transform keeps the zero plane. -/
theorem m_dwt2d_one_level_zero (c : Lifting F) (dx lx ly L : Nat) (hxd : lx ≤ dx)
    (hp : ly * dx ≤ L) :
    m_dwt2d_one_level c dx (List.replicate L 0) lx ly = List.replicate L 0 := by
  unfold m_dwt2d_one_level
  have ne : ¬ ((1 : Nat) = 0) := by decide
  rcases Nat.mod_two_eq_zero_or_one lx with hpx | hpx <;>
  rcases Nat.mod_two_eq_zero_or_one ly with hpy | hpy
  · simp only [hpx, hpy, if_true, if_neg ne]
    have hr := row_fwd_zero dx lx ly _ m_gather_even (isRearr_gather_even lx hpx)
      (fun r => QccWAVCDF97AnalysisSymmetricEvenEven c r lx)
      (fun r h => AnalysisEvenEven_zero c r lx h) hxd L hp
    have hc := col_zero dx lx ly
      (fun r => m_gather_even (List.replicate ly 0)
        (QccWAVCDF97AnalysisSymmetricEvenEven c r ly) ly)
      (gather_kernel_zero _ ly m_gather_even (isRearr_gather_even ly hpy) _
        (fun r h => AnalysisEvenEven_zero c r ly h)) hxd L hp
    beta_reduce at hc hr
    rw [hr, hc]
  · simp only [hpx, hpy, if_true, if_neg ne]
    have hr := row_fwd_zero dx lx ly _ m_gather_even (isRearr_gather_even lx hpx)
      (fun r => QccWAVCDF97AnalysisSymmetricEvenEven c r lx)
      (fun r h => AnalysisEvenEven_zero c r lx h) hxd L hp
    have hc := col_zero dx lx ly
      (fun r => m_gather_odd (List.replicate ly 0)
        (QccWAVCDF97AnalysisSymmetricOddEven c r ly) ly)
      (gather_kernel_zero _ ly m_gather_odd (isRearr_gather_odd ly hpy) _
        (fun r h => AnalysisOddEven_zero c r ly h)) hxd L hp
    beta_reduce at hc hr
    rw [hr, hc]
  · simp only [hpx, hpy, if_true, if_neg ne]
    have hr := row_fwd_zero dx lx ly _ m_gather_odd (isRearr_gather_odd lx hpx)
      (fun r => QccWAVCDF97AnalysisSymmetricOddEven c r lx)
      (fun r h => AnalysisOddEven_zero c r lx h) hxd L hp
    have hc := col_zero dx lx ly
      (fun r => m_gather_even (List.replicate ly 0)
        (QccWAVCDF97AnalysisSymmetricEvenEven c r ly) ly)
      (gather_kernel_zero _ ly m_gather_even (isRearr_gather_even ly hpy) _
        (fun r h => AnalysisEvenEven_zero c r ly h)) hxd L hp
    beta_reduce at hc hr
    rw [hr, hc]
  · simp only [hpx, hpy, if_true, if_neg ne]
    have hr := row_fwd_zero dx lx ly _ m_gather_odd (isRearr_gather_odd lx hpx)
      (fun r => QccWAVCDF97AnalysisSymmetricOddEven c r lx)
      (fun r h => AnalysisOddEven_zero c r lx h) hxd L hp
    have hc := col_zero dx lx ly
      (fun r => m_gather_odd (List.replicate ly 0)
        (QccWAVCDF97AnalysisSymmetricOddEven c r ly) ly)
      (gather_kernel_zero _ ly m_gather_odd (isRearr_gather_odd ly hpy) _
        (fun r h => AnalysisOddEven_zero c r ly h)) hxd L hp
    beta_reduce at hc hr
    rw [hr, hc]

/-- One level of the inverse transform keeps the zero plane. -/
theorem m_idwt2d_one_level_zero (c : Lifting F) (dx lx ly L : Nat) (hxd : lx ≤ dx)
    (hp : ly * dx ≤ L) :
    m_idwt2d_one_level c dx (List.replicate L 0) lx ly = List.replicate L 0 := by
  unfold m_idwt2d_one_level
  have ne : ¬ ((1 : Nat) = 0) := by decide
  rcases Nat.mod_two_eq_zero_or_one lx with hpx | hpx <;>
  rcases Nat.mod_two_eq_zero_or_one ly with hpy | hpy
  · simp only [hpx, hpy, if_true, if_neg ne]
    have hc := col_zero dx lx ly
      (fun r => QccWAVCDF97SynthesisSymmetricEvenEven c
        (m_scatter_even (List.replicate ly 0) r ly) ly)
      (kernel_scatter_zero _ ly m_scatter_even (isRearr_scatter_even ly hpy) _
        (fun r h => SynthesisEvenEven_zero c r ly h)
        (fun r => length_SynthesisEvenEven c r ly)) hxd L hp
    have hr := row_inv_zero dx lx ly _ m_scatter_even (isRearr_scatter_even lx hpx)
      (fun r => QccWAVCDF97SynthesisSymmetricEvenEven c r lx)
      (fun r h => SynthesisEvenEven_zero c r lx h)
      (fun r => length_SynthesisEvenEven c r lx) hxd L hp
    beta_reduce at hc hr
    rw [hc, hr]
  · simp only [hpx, hpy, if_true, if_neg ne]
    have hc := col_zero dx lx ly
      (fun r => QccWAVCDF97SynthesisSymmetricOddEven c
        (m_scatter_odd (List.replicate ly 0) r ly) ly)
      (kernel_scatter_zero _ ly m_scatter_odd (isRearr_scatter_odd ly hpy) _
        (fun r h => SynthesisOddEven_zero c r ly h)
        (fun r => length_SynthesisOddEven c r ly)) hxd L hp
    have hr := row_inv_zero dx lx ly _ m_scatter_even (isRearr_scatter_even lx hpx)
      (fun r => QccWAVCDF97SynthesisSymmetricEvenEven c r lx)
      (fun r h => SynthesisEvenEven_zero c r lx h)
      (fun r => length_SynthesisEvenEven c r lx) hxd L hp
    beta_reduce at hc hr
    rw [hc, hr]
  · simp only [hpx, hpy, if_true, if_neg ne]
    have hc := col_zero dx lx ly
      (fun r => QccWAVCDF97SynthesisSymmetricEvenEven c
        (m_scatter_even (List.replicate ly 0) r ly) ly)
      (kernel_scatter_zero _ ly m_scatter_even (isRearr_scatter_even ly hpy) _
        (fun r h => SynthesisEvenEven_zero c r ly h)
        (fun r => length_SynthesisEvenEven c r ly)) hxd L hp
    have hr := row_inv_zero dx lx ly _ m_scatter_odd (isRearr_scatter_odd lx hpx)
      (fun r => QccWAVCDF97SynthesisSymmetricOddEven c r lx)
      (fun r h => SynthesisOddEven_zero c r lx h)
      (fun r => length_SynthesisOddEven c r lx) hxd L hp
    beta_reduce at hc hr
    rw [hc, hr]
  · simp only [hpx, hpy, if_true, if_neg ne]
    have hc := col_zero dx lx ly
      (fun r => QccWAVCDF97SynthesisSymmetricOddEven c
        (m_scatter_odd (List.replicate ly 0) r ly) ly)
      (kernel_scatter_zero _ ly m_scatter_odd (isRearr_scatter_odd ly hpy) _
        (fun r h => SynthesisOddEven_zero c r ly h)
        (fun r => length_SynthesisOddEven c r ly)) hxd L hp
    have hr := row_inv_zero dx lx ly _ m_scatter_odd (isRearr_scatter_odd lx hpx)
      (fun r => QccWAVCDF97SynthesisSymmetricOddEven c r lx)
      (fun r h => SynthesisOddEven_zero c r lx h)
      (fun r => length_SynthesisOddEven c r lx) hxd L hp
    beta_reduce at hc hr
    rw [hc, hr]

theorem forDown_invariant {σ : Type} (body : Nat → σ → σ) (P : σ → Prop) :
    ∀ L : Nat, (∀ lev s, lev < L → P s → P (body lev s)) → ∀ s, P s → P (forDown body L s) := by
  intro L
  induction L with
  | zero => intro _ s hs; exact hs
  | succ L ih =>
    intro h s hs
    exact ih (fun lev s hlev hs => h lev s (by omega) hs) _ (h L s (by omega) hs)

/-- The forward levels of `dwt2d` keep the zero buffer. -/
theorem forward_levels_zero (c : Lifting F) (X Y N : Nat) (hN : Y * X ≤ N) :
    forLoop (m_num_of_levels_xy X Y) 1 (fun lev buf =>
      m_dwt2d_one_level c X buf (m_calc_approx_len X lev) (m_calc_approx_len Y lev))
      (m_num_of_levels_xy X Y) 0 (List.replicate N 0) = List.replicate N 0 := by
  refine forLoop_one_invariant _ (m_num_of_levels_xy X Y)
    (fun _ (q : List F) => q = List.replicate N 0) ?_ _ 0 _ (Nat.zero_le _) (by omega) rfl
  intro lev q hlev hq
  obtain ⟨⟨-, xle⟩, ⟨-, yle⟩⟩ := level_lengths X Y lev hlev
  rw [hq]
  exact m_dwt2d_one_level_zero c X _ _ N xle ((Nat.mul_le_mul_right X yle).trans hN)

/-- The inverse levels of `idwt2d` keep the zero buffer. -/
theorem inverse_levels_zero (c : Lifting F) (X Y N : Nat) (hN : Y * X ≤ N) :
    forDown (fun lev buf =>
      m_idwt2d_one_level c X buf (m_calc_approx_len X lev) (m_calc_approx_len Y lev))
      (m_num_of_levels_xy X Y) (List.replicate N 0) = List.replicate N 0 := by
  refine forDown_invariant _ (fun q : List F => q = List.replicate N 0)
    (m_num_of_levels_xy X Y) ?_ _ rfl
  intro lev q hlev hq
  obtain ⟨⟨-, xle⟩, ⟨-, yle⟩⟩ := level_lengths X Y lev hlev
  rw [hq]
  exact m_idwt2d_one_level_zero c X _ _ N xle ((Nat.mul_le_mul_right X yle).trans hN)

theorem rd_replicate_of_lt (n j : Nat) (c : F) (h : j < n) : rd (List.replicate n c) j = c := by
  simp [rd, List.getD_eq_getElem?_getD, List.getElem?_replicate, h]

/-- The mean that `m_calc_mean` stores for a constant buffer is the constant. -/
theorem m_calc_mean_const [CharZero F] (st : CDF97 F) (c : F)
    (hx : 1 ≤ st.m_dim_x) (hy : 1 ≤ st.m_dim_y) (hz : 1 ≤ st.m_dim_z)
    (hbuf : st.m_data_buf = List.replicate (st.m_dim_x * st.m_dim_y * st.m_dim_z) c) :
    (m_calc_mean st).m_data_mean = c := by
  have hX : (st.m_dim_x : F) ≠ 0 := Nat.cast_ne_zero.mpr (by omega)
  have hY : (st.m_dim_y : F) ≠ 0 := Nat.cast_ne_zero.mpr (by omega)
  have hZ : (st.m_dim_z : F) ≠ 0 := Nat.cast_ne_zero.mpr (by omega)
  have hrd : ∀ z ∈ Finset.range st.m_dim_z, ∀ y ∈ Finset.range st.m_dim_y,
      ∀ x ∈ Finset.range st.m_dim_x,
        rd st.m_data_buf ((z * st.m_dim_y + y) * st.m_dim_x + x) = c := by
    intro z hz' y hy' x hx'
    rw [Finset.mem_range] at hz' hy' hx'
    rw [hbuf]
    apply rd_replicate_of_lt
    have h1 := row_bound z st.m_dim_z st.m_dim_y (y + 1) (st.m_dim_z * st.m_dim_y) hz'
      (by omega) (le_refl _)
    have h2 := row_bound (z * st.m_dim_y + y) (st.m_dim_z * st.m_dim_y) st.m_dim_x (x + 1)
      (st.m_dim_z * st.m_dim_y * st.m_dim_x) (by omega) (by omega) (le_refl _)
    have e : st.m_dim_z * st.m_dim_y * st.m_dim_x = st.m_dim_x * st.m_dim_y * st.m_dim_z := by
      ring
    omega
  rw [m_calc_mean_eq]
  have e1 : ∀ z ∈ Finset.range st.m_dim_z, ∀ y ∈ Finset.range st.m_dim_y,
      (∑ x ∈ Finset.range st.m_dim_x,
        rd st.m_data_buf ((z * st.m_dim_y + y) * st.m_dim_x + x)) * (1 / (st.m_dim_x : F)) =
        c := by
    intro z hz' y hy'
    rw [Finset.sum_congr rfl (hrd z hz' y hy'), Finset.sum_const, Finset.card_range,
      nsmul_eq_mul]
    field_simp
  have e2 : ∀ z ∈ Finset.range st.m_dim_z,
      (∑ y ∈ Finset.range st.m_dim_y,
        (∑ x ∈ Finset.range st.m_dim_x,
          rd st.m_data_buf ((z * st.m_dim_y + y) * st.m_dim_x + x)) *
        (1 / (st.m_dim_x : F))) * (1 / (st.m_dim_y : F)) = c := by
    intro z hz'
    rw [Finset.sum_congr rfl (e1 z hz'), Finset.sum_const, Finset.card_range, nsmul_eq_mul]
    field_simp
  rw [Finset.sum_congr rfl e2, Finset.sum_const, Finset.card_range, nsmul_eq_mul]
  field_simp

/-- C28: over exact arithmetic `dwt2d` turns a plane whose samples all equal
one constant `c` into a coefficient buffer that is zero everywhere, with stored
mean `c`; and `idwt2d` turns the all-zero coefficient buffer with stored mean
`c` into the plane that equals `c` everywhere (extents at least 1, whatever
mean the object held before `dwt2d`). -/
theorem constant_plane [CharZero F] (k : Lifting F) (X Y Z : Nat) (c m0 : F)
    (hx : 1 ≤ X) (hy : 1 ≤ Y) (hz : 1 ≤ Z) :
    (dwt2d k (constantPlane X Y Z c m0)).m_data_buf = List.replicate (X * Y * Z) 0 ∧
    (dwt2d k (constantPlane X Y Z c m0)).m_data_mean = c ∧
    (idwt2d k (constantPlane X Y Z 0 c)).m_data_buf = List.replicate (X * Y * Z) c := by
  have hN : Y * X ≤ X * Y * Z := by
    rw [Nat.mul_comm X Y]
    exact Nat.le_mul_of_pos_right _ hz
  have hmean := m_calc_mean_const (constantPlane X Y Z c m0) c hx hy hz rfl
  have hpre : (dwt2d_preprocess (constantPlane X Y Z c m0)).m_data_buf =
      List.replicate (X * Y * Z) 0 := by
    obtain ⟨a1, a2⟩ := map_loop_spec (fun v => v - c) (X * Y * Z) (List.replicate (X * Y * Z) c)
    show forLoop (X * Y * Z) 1 (fun i buf => wr buf i (rd buf i -
      (m_calc_mean (constantPlane X Y Z c m0)).m_data_mean))
      (X * Y * Z) 0 (List.replicate (X * Y * Z) c) = _
    rw [hmean]
    apply eq_replicate_of_allZero _ _ (by rw [a1, List.length_replicate])
    intro j
    rw [a2 j, List.length_replicate]
    split
    · rename_i hj
      rw [rd_replicate_of_lt _ _ _ hj.1, sub_self]
    · rename_i hj
      exact rd_of_length_le _ _ (by rw [List.length_replicate]; omega)
  refine ⟨?_, hmean, ?_⟩
  · show forLoop (m_num_of_levels_xy X Y) 1 (fun lev buf =>
      m_dwt2d_one_level k X buf (m_calc_approx_len X lev) (m_calc_approx_len Y lev))
      (m_num_of_levels_xy X Y) 0 (dwt2d_preprocess (constantPlane X Y Z c m0)).m_data_buf = _
    rw [hpre]
    exact forward_levels_zero k X Y _ hN
  · show forLoop (X * Y * Z) 1 (fun i buf => wr buf i (rd buf i + c)) (X * Y * Z) 0
      (forDown (fun lev buf =>
        m_idwt2d_one_level k X buf (m_calc_approx_len X lev) (m_calc_approx_len Y lev))
        (m_num_of_levels_xy X Y) (List.replicate (X * Y * Z) 0)) = _
    rw [inverse_levels_zero k X Y _ hN]
    obtain ⟨a1, a2⟩ := map_loop_spec (fun v => v + c) (X * Y * Z) (List.replicate (X * Y * Z) 0)
    refine ext_rd (by rw [a1, List.length_replicate, List.length_replicate]) (fun j hj => ?_)
    rw [a1, List.length_replicate] at hj
    rw [a2 j, List.length_replicate, if_pos ⟨hj, hj⟩, rd_replicate_zero,
      rd_replicate_of_lt _ _ _ hj, zero_add]

theorem constant_plane_witness :
    (dwt2d specLifting (constantPlane 9 10 1 3 0)).m_data_buf = List.replicate (9 * 10 * 1) 0 ∧
    (dwt2d specLifting (constantPlane 9 10 1 3 0)).m_data_mean = 3 ∧
    (idwt2d specLifting (constantPlane 9 10 1 0 3)).m_data_buf =
      List.replicate (9 * 10 * 1) 3 :=
  constant_plane specLifting 9 10 1 3 0 (by decide) (by decide) (by decide)

end Constant

/-! ## The output of the decompressor -/

section Output

/-- The loop of `get_decompressed_volume` that adds the outliers: every element
in range ends as its old value plus the errors of the outliers at its index. -/
theorem outlier_loop_spec (los : List (Nat × ℚ)) :
    ∀ buf : List ℚ,
      (los.foldl (fun out_buf outlier =>
        wr out_buf outlier.1 (rd out_buf outlier.1 + outlier.2)) buf).length = buf.length ∧
      ∀ i, i < buf.length →
        rd (los.foldl (fun out_buf outlier =>
          wr out_buf outlier.1 (rd out_buf outlier.1 + outlier.2)) buf) i =
        rd buf i + ((los.filter (fun o => decide (o.1 = i))).map Prod.snd).sum := by
  induction los with
  | nil => intro buf; simp
  | cons o rest ih =>
    intro buf
    obtain ⟨a, b⟩ := ih (wr buf o.1 (rd buf o.1 + o.2))
    rw [length_wr] at a b
    refine ⟨a, fun i hi => ?_⟩
    rw [List.foldl_cons, b i hi, rd_wr, List.filter_cons]
    by_cases h : o.1 = i
    · subst h
      rw [if_pos ⟨rfl, hi⟩]
      simp
      ring
    · have h' : ¬ (i = o.1 ∧ o.1 < buf.length) := fun hc => h hc.1.symm
      rw [if_neg h']
      simp [h]

/-- The samples that `get_decompressed_volume` returns for a reconstruction
that is not empty, in the build with `QZ_TERM`. -/
theorem get_decompressed_volume_rd (env : Env) (st : SPECK3D_Decompressor)
    (hq : env.QZ_TERM = true) (h : st.m_cdf_data ≠ []) :
    (get_decompressed_volume env st).2 = st.m_cdf_data.length ∧
    (get_decompressed_volume env st).1.length = st.m_cdf_data.length ∧
    ∀ i, i < st.m_cdf_data.length →
      rd (get_decompressed_volume env st).1 i =
        rd st.m_cdf_data i +
          ((st.m_sperr_los.filter (fun o => decide (o.1 = i))).map Prod.snd).sum := by
  have hlen : ¬ st.m_cdf_data.length = 0 := by
    intro hc
    exact h (List.length_eq_zero.mp hc)
  obtain ⟨m1, m2⟩ := memcpy_spec (List.replicate st.m_cdf_data.length (0 : ℚ)) st.m_cdf_data
    st.m_cdf_data.length
  rw [List.length_replicate] at m1 m2
  obtain ⟨a, b⟩ := outlier_loop_spec st.m_sperr_los
    (memcpy (List.replicate st.m_cdf_data.length 0) st.m_cdf_data st.m_cdf_data.length)
  rw [m1] at a b
  have e : get_decompressed_volume env st =
      (st.m_sperr_los.foldl (fun out_buf outlier =>
        wr out_buf outlier.1 (rd out_buf outlier.1 + outlier.2))
        (memcpy (List.replicate st.m_cdf_data.length 0) st.m_cdf_data st.m_cdf_data.length),
       st.m_cdf_data.length) := by
    simp only [get_decompressed_volume, hq, if_neg hlen, if_true]
  rw [e]
  refine ⟨rfl, a, fun i hi => ?_⟩
  rw [b i hi, m2 i, if_pos ⟨hi, hi⟩]

theorem get_decompressed_volume_nil (env : Env) (st : SPECK3D_Decompressor)
    (h : st.m_cdf_data = []) : get_decompressed_volume env st = ([], 0) := by
  simp [get_decompressed_volume, h]

end Output

/-! ## The fixed-quality guarantee -/

section FixedQuality

/-- The errors that a decoded list holds at one location, for a decoded list
that matches a recorded list without repeated locations. -/
theorem decoded_sum_spec (tol : ℚ) (f : Nat → ℚ) :
    ∀ (L : List Nat) (D : List (Nat × ℚ)), L.Nodup →
      spec_sperr_decoded tol (L.map (fun i => (i, f i))) D = true →
      ∀ i,
        (i ∈ L → |((D.filter (fun o => decide (o.1 = i))).map Prod.snd).sum - f i| ≤ tol) ∧
        (i ∉ L → ((D.filter (fun o => decide (o.1 = i))).map Prod.snd).sum = 0) := by
  intro L
  induction L with
  | nil =>
    intro D _ h i
    cases D with
    | nil => simp
    | cons d ds => simp [spec_sperr_decoded] at h
  | cons a L ih =>
    intro D hnd h i
    cases D with
    | nil => simp [spec_sperr_decoded] at h
    | cons d ds =>
      rw [List.map_cons] at h
      simp only [spec_sperr_decoded, Bool.and_eq_true, decide_eq_true_eq] at h
      obtain ⟨⟨h1, h2⟩, h3⟩ := h
      rw [List.nodup_cons] at hnd
      obtain ⟨ha, hL⟩ := hnd
      obtain ⟨i1, i2⟩ := ih ds hL h3 i
      rw [List.filter_cons]
      by_cases hi : i = a
      · subst hi
        rw [if_pos (by simpa using h1), List.map_cons, List.sum_cons, i2 ha, add_zero]
        exact ⟨fun _ => h2, fun hc => absurd (List.mem_cons_self _ _) hc⟩
      · have hd : ¬ d.1 = i := by
          rw [h1]
          exact fun hc => hi hc.symm
        rw [if_neg (by simpa using hd)]
        refine ⟨fun hm => i1 ?_, fun hm => i2 ?_⟩
        · rcases List.mem_cons.mp hm with hc | hc
          · exact absurd hc hi
          · exact hc
        · exact fun hc => hm (List.mem_cons_of_mem _ hc)

/-- The fixed-quality bound on a decompressor that holds the outliers of its
own volume: in the build with `QZ_TERM` and for a tolerance `t`, when the
decompressor holds a reconstruction and the decoded outliers of the volume it
was made from (the outliers that section 4.4 of the spec records for the
original and the reconstruction, coded as it promises), every sample of the
volume that `get_decompressed_volume` returns differs from the original sample
by at most `t`.  Which outliers the decompressor holds depends on the
bitstreams it was handed before; the next section has a decompressor that holds
those of another volume. -/
theorem fixed_quality_guarantee (env : Env) (st : SPECK3D_Decompressor) (orig : List ℚ)
    (tol : ℚ) (hq : env.QZ_TERM = true)
    (hlen : orig.length = st.m_cdf_data.length)
    (hdec : spec_sperr_decoded tol (spec_outliers tol orig st.m_cdf_data) st.m_sperr_los = true) :
    (get_decompressed_volume env st).2 = orig.length ∧
    ∀ i, i < orig.length → |rd (get_decompressed_volume env st).1 i - rd orig i| ≤ tol := by
  by_cases hnil : st.m_cdf_data = []
  · rw [hnil] at hlen
    rw [get_decompressed_volume_nil env st hnil, hlen]
    exact ⟨rfl, fun i hi => absurd hi (Nat.not_lt_zero _)⟩
  obtain ⟨r1, -, r3⟩ := get_decompressed_volume_rd env st hq hnil
  refine ⟨by rw [r1, hlen], fun i hi => ?_⟩
  rw [hlen] at hi
  rw [r3 i hi]
  have hnd : ((List.range st.m_cdf_data.length).filter
      (fun i => decide (tol < |rd orig i - rd st.m_cdf_data i|))).Nodup :=
    (List.nodup_range _).filter _
  obtain ⟨d1, d2⟩ := decoded_sum_spec tol (fun i => rd orig i - rd st.m_cdf_data i) _
    st.m_sperr_los hnd hdec i
  by_cases hout : tol < |rd orig i - rd st.m_cdf_data i|
  · have hm : i ∈ (List.range st.m_cdf_data.length).filter
        (fun i => decide (tol < |rd orig i - rd st.m_cdf_data i|)) := by
      rw [List.mem_filter]
      exact ⟨List.mem_range.mpr hi, by simpa using hout⟩
    have := d1 hm
    have e : rd st.m_cdf_data i +
        ((st.m_sperr_los.filter (fun o => decide (o.1 = i))).map Prod.snd).sum - rd orig i =
        ((st.m_sperr_los.filter (fun o => decide (o.1 = i))).map Prod.snd).sum -
          (rd orig i - rd st.m_cdf_data i) := by ring
    rw [e]
    exact this
  · have hm : i ∉ (List.range st.m_cdf_data.length).filter
        (fun i => decide (tol < |rd orig i - rd st.m_cdf_data i|)) := by
      rw [List.mem_filter]
      rintro ⟨-, hc⟩
      exact hout (by simpa using hc)
    rw [d2 hm, add_zero, abs_sub_comm]
    exact not_lt.mp hout

/-- An original volume for examples: the reconstruction `[1, 2, 2]` of
`correctedDecompressor` misses its second sample by 3. -/
theorem fixed_quality_guarantee_witness :
    (get_decompressed_volume qzEnv correctedDecompressor).2 = [(1 : ℚ), 5, 2].length ∧
    ∀ i, i < [(1 : ℚ), 5, 2].length →
      |rd (get_decompressed_volume qzEnv correctedDecompressor).1 i - rd [(1 : ℚ), 5, 2] i| ≤ 1 :=
  fixed_quality_guarantee qzEnv correctedDecompressor [1, 5, 2] 1 rfl rfl (by
    have e : spec_outliers 1 [1, 5, 2] correctedDecompressor.m_cdf_data = [(1, 3)] := by
      simp [spec_outliers, correctedDecompressor, rd, List.range, List.range.loop]
      norm_num
    have e2 : correctedDecompressor.m_sperr_los = [(1, 5 / 2)] := rfl
    rw [e, e2]
    unfold spec_sperr_decoded
    simp [spec_sperr_decoded]
    rw [abs_le]
    constructor <;> norm_num)

end FixedQuality

/-! ## The fixed-quality guarantee and a decompressor that is used again -/

section Reused

/-- Without a SPERR stream `decompress` leaves the outliers alone, whatever it
returns. -/
theorem decompress_keeps_outliers (env : Env) (dec : Decoders) (st : SPECK3D_Decompressor)
    (h : st.m_sperr_stream = []) :
    (decompress env dec st).2.m_sperr_los = st.m_sperr_los := by
  unfold decompress
  simp only [h, List.length_nil, ne_eq, not_true_eq_false, if_false]
  split_ifs <;> rfl

/-- In the build with `QZ_TERM`, `use_bitstream` on a bitstream that is a SPECK
stream and nothing more returns `Good`, holds no SPERR stream afterwards and
leaves the outliers alone. -/
theorem use_bitstream_no_sperr_part (env : Env) (st : SPECK3D_Decompressor) (p : List Nat)
    (len : Nat) (hq : env.QZ_TERM = true) (h : env.get_speck_stream_size p = len) :
    (use_bitstream env st p len).1 = RTNType.Good ∧
    (use_bitstream env st p len).2.m_sperr_stream = [] ∧
    (use_bitstream env st p len).2.m_sperr_los = st.m_sperr_los := by
  unfold use_bitstream
  simp [h, hq]

theorem use_bitstream_no_sperr_part_witness :
    (use_bitstream qzEnv correctedDecompressor exampleStream 26).1 = RTNType.Good ∧
    (use_bitstream qzEnv correctedDecompressor exampleStream 26).2.m_sperr_stream = [] ∧
    (use_bitstream qzEnv correctedDecompressor exampleStream 26).2.m_sperr_los =
      correctedDecompressor.m_sperr_los :=
  use_bitstream_no_sperr_part qzEnv correctedDecompressor exampleStream 26 rfl (by decide)

/-- The sample at index 1 that `get_decompressed_volume` returns for a
reconstruction of 512 samples that all equal 2. -/
theorem get_decompressed_volume_at_one (st : SPECK3D_Decompressor) (los : List (Nat × ℚ))
    (hc : st.m_cdf_data = List.replicate 512 2) (hl : st.m_sperr_los = los) :
    (get_decompressed_volume qzEnv st).2 = 512 ∧
    rd (get_decompressed_volume qzEnv st).1 1 =
      2 + ((los.filter (fun o => decide (o.1 = 1))).map Prod.snd).sum := by
  have hne : st.m_cdf_data ≠ [] := by
    rw [hc]
    exact fun hx => absurd (congrArg List.length hx) (by
      rw [List.length_replicate, List.length_nil]
      exact Nat.succ_ne_zero 511)
  obtain ⟨r1, -, r3⟩ := get_decompressed_volume_rd qzEnv st rfl hne
  rw [hc, List.length_replicate] at r1 r3
  refine ⟨r1, ?_⟩
  rw [r3 1 (by norm_num), hl, rd_replicate_of_lt 512 1 2 (by norm_num)]

/-- C21: in the build with `QZ_TERM` the guarantee fails for a decompressor that
is used for a second bitstream.  `use_bitstream` on a bitstream without SPERR
part returns `Good` and `decompress` after it leaves `m_sperr_los` as it was:
the outliers of the bitstream decoded before stay (`use_bitstream` clears them
only when a SPERR part follows).  At the example the decompressor first decodes
a bitstream with one outlier, of signed error `5 / 2` at location 1, then one
without SPERR part whose reconstruction is 2 everywhere: all four calls return
`Good`, the outlier is still held and `get_decompressed_volume` returns `9 / 2`
at index 1, further than the tolerance 1 from the original sample 2, and from
every original sample that the reconstruction is within 1 of; a decompressor
that held no outlier returns 2 there for the same bitstream. -/
theorem stale_outliers_are_applied :
    (∀ (env : Env) (dec : Decoders) (st : SPECK3D_Decompressor) (p : List Nat) (len : Nat),
      env.QZ_TERM = true → env.get_speck_stream_size p = len →
        (use_bitstream env st p len).1 = RTNType.Good ∧
        (decompress env dec (use_bitstream env st p len).2).2.m_sperr_los = st.m_sperr_los) ∧
    ((use_bitstream qzEnv exampleDecompressor correctedStream 51).1 = RTNType.Good ∧
      (decompress qzEnv outlierDecoders reusedAfterUse1).1 = RTNType.Good ∧
      reusedAfterDecompress1.m_sperr_los = [(1, 5 / 2)]) ∧
    ((use_bitstream qzEnv reusedAfterDecompress1 exampleStream 26).1 = RTNType.Good ∧
      (decompress qzEnv outlierDecoders reusedAfterUse2).1 = RTNType.Good ∧
      reusedAfterDecompress2.m_cdf_data = List.replicate 512 2 ∧
      reusedAfterDecompress2.m_sperr_los = [(1, 5 / 2)]) ∧
    ((get_decompressed_volume qzEnv reusedAfterDecompress2).2 = 512 ∧
      rd (get_decompressed_volume qzEnv reusedAfterDecompress2).1 1 = 9 / 2 ∧
      rd (get_decompressed_volume qzEnv freshDecompressor).1 1 = 2) ∧
    ¬ |rd (get_decompressed_volume qzEnv reusedAfterDecompress2).1 1 -
        rd (List.replicate 512 (2 : ℚ)) 1| ≤ 1 ∧
    ∀ orig : List ℚ, |rd orig 1 - rd reusedAfterDecompress2.m_cdf_data 1| ≤ 1 →
      ¬ |rd (get_decompressed_volume qzEnv reusedAfterDecompress2).1 1 - rd orig 1| ≤ 1 := by
  have hc : reusedAfterDecompress2.m_cdf_data = List.replicate 512 2 := rfl
  have hl : reusedAfterDecompress2.m_sperr_los = [(1, 5 / 2)] := rfl
  have hv : rd (get_decompressed_volume qzEnv reusedAfterDecompress2).1 1 = 9 / 2 := by
    rw [(get_decompressed_volume_at_one reusedAfterDecompress2 [(1, 5 / 2)] hc hl).2]
    simp
    norm_num
  have hf : rd (get_decompressed_volume qzEnv freshDecompressor).1 1 = 2 := by
    rw [(get_decompressed_volume_at_one freshDecompressor [] rfl rfl).2]
    simp
  have hr : rd (List.replicate 512 (2 : ℚ)) 1 = 2 := rd_replicate_of_lt 512 1 2 (by norm_num)
  refine ⟨fun env dec st p len hq h => ?_, ⟨by decide, by decide, rfl⟩,
    ⟨by decide, by decide, hc, hl⟩,
    ⟨(get_decompressed_volume_at_one reusedAfterDecompress2 [(1, 5 / 2)] hc hl).1, hv, hf⟩,
    ?_, fun orig ho => ?_⟩
  · obtain ⟨u1, u2, u3⟩ := use_bitstream_no_sperr_part env st p len hq h
    exact ⟨u1, by rw [decompress_keeps_outliers env dec _ u2, u3]⟩
  · rw [hv, hr, abs_le]
    intro hx
    norm_num at hx
  · rw [hc, hr] at ho
    rw [hv]
    rw [abs_le] at ho ⊢
    intro hx
    linarith [ho.1, ho.2, hx.1, hx.2]

end Reused

/-! ## `decompress` after a rejected bitstream -/

section Rejected

/-- After the first `WrongSize` return of `use_bitstream` no SPECK stream is
held and `decompress` returns `Error`. -/
theorem use_bitstream_short_then_error (env : Env) (dec : Decoders)
    (st : SPECK3D_Decompressor) (p : List Nat) (len : Nat)
    (h : len < env.get_speck_stream_size p) :
    (use_bitstream env st p len).1 = RTNType.WrongSize ∧
    (use_bitstream env st p len).2.m_speck_stream = [] ∧
    (decompress env dec (use_bitstream env st p len).2).1 = RTNType.Error := by
  have e : use_bitstream env st p len =
      (RTNType.WrongSize, { st with m_speck_stream := [] }) := by
    simp only [use_bitstream, gt_iff_lt, h, if_true]
  rw [e]
  exact ⟨rfl, rfl, rfl⟩

/-- After the second `WrongSize` return of `use_bitstream` (build with
`QZ_TERM`, the SPERR part has not the size it declares) the SPECK part of the
rejected bitstream is held, without SPERR stream. -/
theorem use_bitstream_sperr_mismatch (env : Env) (st : SPECK3D_Decompressor) (p : List Nat)
    (len : Nat) (hq : env.QZ_TERM = true) (h1 : env.get_speck_stream_size p < len)
    (h2 : env.get_sperr_stream_size (p.drop (env.get_speck_stream_size p)) ≠
      len - env.get_speck_stream_size p) :
    use_bitstream env st p len =
      (RTNType.WrongSize,
        { st with
          m_speck_stream := memcpy (List.replicate (env.get_speck_stream_size p) 0) p
            (env.get_speck_stream_size p)
          m_sperr_stream := [] }) := by
  have h0 : ¬ (env.get_speck_stream_size p > len) := by omega
  simp only [use_bitstream, h0, hq, h1, h2, if_true, if_false, ne_eq, not_false_eq_true]

/-- C30, the behaviour of the code: in the build with `QZ_TERM`, when
`use_bitstream` rejects a bitstream because its SPERR part has not the size it
declares, it returns `WrongSize` and keeps the SPECK part of the rejected
bitstream; a `decompress` that follows returns `Good` whenever the SPECK
decoder accepts that part, and the outlier list is left as it was.  So it is at
the bitstream `brokenStream`.  After the other non-`Good` return (the SPECK
stream is longer than the bitstream), and so in the build without `QZ_TERM`
after every non-`Good` return, `decompress` returns `Error`. -/
theorem rejected_bitstream_is_decoded :
    (∀ (env : Env) (dec : Decoders) (st : SPECK3D_Decompressor) (p : List Nat) (len : Nat),
      env.QZ_TERM = true → 0 < env.get_speck_stream_size p →
      env.get_speck_stream_size p < len →
      env.get_sperr_stream_size (p.drop (env.get_speck_stream_size p)) ≠
        len - env.get_speck_stream_size p →
      dec.parse_encoded_bitstream (use_bitstream env st p len).2.m_speck_stream =
        RTNType.Good →
      (∀ budget, dec.decode (use_bitstream env st p len).2.m_speck_stream budget =
        RTNType.Good) →
      (use_bitstream env st p len).1 = RTNType.WrongSize ∧
      (decompress env dec (use_bitstream env st p len).2).1 = RTNType.Good ∧
      (decompress env dec (use_bitstream env st p len).2).2.m_sperr_los = st.m_sperr_los) ∧
    ((use_bitstream qzEnv exampleDecompressor brokenStream 29).1 = RTNType.WrongSize ∧
      (use_bitstream qzEnv exampleDecompressor brokenStream 29).2.m_speck_stream =
        exampleStream ∧
      (decompress qzEnv acceptingDecoders
        (use_bitstream qzEnv exampleDecompressor brokenStream 29).2).1 = RTNType.Good) ∧
    (∀ (env : Env) (dec : Decoders) (st : SPECK3D_Decompressor) (p : List Nat) (len : Nat),
      len < env.get_speck_stream_size p →
      (use_bitstream env st p len).1 = RTNType.WrongSize ∧
      (decompress env dec (use_bitstream env st p len).2).1 = RTNType.Error) ∧
    (∀ (env : Env) (dec : Decoders) (st : SPECK3D_Decompressor) (p : List Nat) (len : Nat),
      env.QZ_TERM = false → (use_bitstream env st p len).1 ≠ RTNType.Good →
      (decompress env dec (use_bitstream env st p len).2).1 = RTNType.Error) := by
  refine ⟨?_, ⟨by decide, by decide, by decide⟩, ?_, ?_⟩
  · intro env dec st p len hq h0 h1 h2 hp hd
    rw [use_bitstream_sperr_mismatch env st p len hq h1 h2] at hp hd ⊢
    have hl : (memcpy (List.replicate (env.get_speck_stream_size p) 0) p
        (env.get_speck_stream_size p)).length ≠ 0 := by
      rw [(memcpy_spec _ _ _).1, List.length_replicate]
      omega
    simp only [decompress, hl, hp, hd, hq, if_false, if_true, ne_eq, not_true_eq_false,
      List.length_nil, and_self]
  · intro env dec st p len h
    obtain ⟨a, -, c⟩ := use_bitstream_short_then_error env dec st p len h
    exact ⟨a, c⟩
  · intro env dec st p len hq hne
    by_cases h : len < env.get_speck_stream_size p
    · exact (use_bitstream_short_then_error env dec st p len h).2.2
    · exfalso
      apply hne
      have h0 : ¬ (env.get_speck_stream_size p > len) := h
      simp only [use_bitstream, h0, hq, if_false, Bool.false_eq_true]

end Rejected

/-! ## Memory safety of the 2D transform -/

section Safety

theorem mem_loop_values (stop : Int) :
    ∀ (fuel : Nat) (i v : Int), v ∈ loop_values stop 2 fuel i →
      i ≤ v ∧ v < stop ∧ v % 2 = i % 2 := by
  intro fuel
  induction fuel with
  | zero => intro i v h; simp [loop_values] at h
  | succ fuel ih =>
    intro i v h
    unfold loop_values at h
    split at h
    · rcases List.mem_cons.mp h with h | h
      · subst h
        exact ⟨le_refl _, by assumption, rfl⟩
      · obtain ⟨a, b, c⟩ := ih _ _ h
        exact ⟨by omega, b, by omega⟩
    · simp at h

/-- With enough fuel `loop_values` has every value that the loop variable
takes. -/
theorem loop_values_complete (stop : Int) :
    ∀ (fuel : Nat) (i v : Int), i ≤ v → v < stop → v % 2 = i % 2 → stop ≤ i + 2 * fuel →
      v ∈ loop_values stop 2 fuel i := by
  intro fuel
  induction fuel with
  | zero => intro i v h1 h2 _ h4; omega
  | succ fuel ih =>
    intro i v h1 h2 h3 h4
    unfold loop_values
    rw [if_pos (by omega)]
    by_cases h : v = i
    · subst h
      exact List.mem_cons_self _ _
    · exact List.mem_cons_of_mem _ (ih _ _ (by omega) h2 (by omega) (by push_cast at h4; omega))

theorem safe_append (l1 l2 : List Event) (h1 : ∀ e ∈ l1, e.safe) (h2 : ∀ e ∈ l2, e.safe) :
    ∀ e ∈ l1 ++ l2, e.safe := by
  intro e he
  rcases List.mem_append.mp he with h | h
  · exact h1 e h
  · exact h2 e h

theorem safe_flatMap {α : Type} (l : List α) (f : α → List Event)
    (h : ∀ a ∈ l, ∀ e ∈ f a, e.safe) : ∀ e ∈ l.flatMap f, e.safe := by
  intro e he
  obtain ⟨a, ha, hea⟩ := List.mem_flatMap.mp he
  exact h a ha e hea

theorem safe_access (size : Nat) (index : Int) (h0 : 0 ≤ index) (h1 : index < size) :
    (Event.access size index).safe := ⟨h0, h1⟩

theorem safe_access_nat (size index : Nat) (h : index < size) :
    (Event.access size (index : Int)).safe :=
  ⟨Int.natCast_nonneg _, by exact_mod_cast h⟩

theorem lift_loop_safe (N : Nat) (stop i : Int) (fuel : Nat)
    (h : ∀ v : Int, i ≤ v → v < stop → v % 2 = i % 2 → 1 ≤ v ∧ v + 1 < N) :
    ∀ e ∈ (loop_values stop 2 fuel i).flatMap (lift_accesses N), e.safe := by
  apply safe_flatMap
  intro v hv e he
  obtain ⟨a, b, c⟩ := mem_loop_values stop fuel i v hv
  obtain ⟨d1, d2⟩ := h v a b c
  simp only [lift_accesses, List.mem_cons, List.mem_singleton, List.not_mem_nil, or_false] at he
  rcases he with rfl | rfl | rfl
  · exact safe_access _ _ (by omega) (by omega)
  · exact safe_access _ _ (by omega) (by omega)
  · exact safe_access _ _ (by omega) (by omega)

theorem scale_loop_safe (N : Nat) (stop i : Int) (fuel : Nat)
    (h : ∀ v : Int, i ≤ v → v < stop → v % 2 = i % 2 → 0 ≤ v ∧ v < N) :
    ∀ e ∈ (loop_values stop 2 fuel i).flatMap (scale_accesses N), e.safe := by
  apply safe_flatMap
  intro v hv e he
  obtain ⟨a, b, c⟩ := mem_loop_values stop fuel i v hv
  obtain ⟨d1, d2⟩ := h v a b c
  simp only [scale_accesses, List.mem_singleton] at he
  subst he
  exact safe_access _ _ d1 d2

theorem edge_safe (N : Nat) (i j : Int) (hi : 0 ≤ i ∧ i < N) (hj : 0 ≤ j ∧ j < N) :
    ∀ e ∈ edge_accesses N i j, e.safe := by
  intro e he
  simp only [edge_accesses, List.mem_cons, List.mem_singleton, List.not_mem_nil, or_false] at he
  rcases he with rfl | rfl
  · exact safe_access _ _ hi.1 hi.2
  · exact safe_access _ _ hj.1 hj.2

theorem AnalysisEvenEven_safe (N : Nat) (h2 : 2 ≤ N) (hp : N % 2 = 0) :
    ∀ e ∈ AnalysisEvenEven_accesses N, e.safe := by
  unfold AnalysisEvenEven_accesses
  repeat' first
    | apply safe_append
    | (apply lift_loop_safe; intro v a b c; omega)
    | (apply scale_loop_safe; intro v a b c; omega)
    | (apply edge_safe <;> omega)

theorem SynthesisEvenEven_safe (N : Nat) (h2 : 2 ≤ N) (hp : N % 2 = 0) :
    ∀ e ∈ SynthesisEvenEven_accesses N, e.safe := by
  unfold SynthesisEvenEven_accesses
  repeat' first
    | apply safe_append
    | (apply lift_loop_safe; intro v a b c; omega)
    | (apply scale_loop_safe; intro v a b c; omega)
    | (apply edge_safe <;> omega)

theorem AnalysisOddEven_safe (N : Nat) (h2 : 2 ≤ N) (hp : N % 2 = 1) :
    ∀ e ∈ AnalysisOddEven_accesses N, e.safe := by
  unfold AnalysisOddEven_accesses
  repeat' first
    | apply safe_append
    | (apply lift_loop_safe; intro v a b c; omega)
    | (apply scale_loop_safe; intro v a b c; omega)
    | (apply edge_safe <;> omega)

theorem SynthesisOddEven_safe (N : Nat) (h2 : 2 ≤ N) (hp : N % 2 = 1) :
    ∀ e ∈ SynthesisOddEven_accesses N, e.safe := by
  unfold SynthesisOddEven_accesses
  repeat' first
    | apply safe_append
    | (apply lift_loop_safe; intro v a b c; omega)
    | (apply scale_loop_safe; intro v a b c; omega)
    | (apply edge_safe <;> omega)

theorem kernel_events_safe (analysis : Bool) (len : Nat) (h2 : 2 ≤ len) :
    ∀ e ∈ kernel_events analysis (decide (len % 2 = 0)) len, e.safe := by
  intro e he
  unfold kernel_events at he
  rcases List.mem_cons.mp he with h | h
  · subst h
    exact ⟨h2, by simp⟩
  · rcases Nat.mod_two_eq_zero_or_one len with hp | hp
    · have hd : decide (len % 2 = 0) = true := by simp [hp]
      rw [hd] at h
      cases analysis
      · exact SynthesisEvenEven_safe len h2 hp e (by simpa using h)
      · exact AnalysisEvenEven_safe len h2 hp e (by simpa using h)
    · have hd : decide (len % 2 = 0) = false := by simp [hp]
      rw [hd] at h
      cases analysis
      · exact SynthesisOddEven_safe len h2 hp e (by simpa using h)
      · exact AnalysisOddEven_safe len h2 hp e (by simpa using h)

theorem memcpy_accesses_safe (dst_size dst src_size src n : Nat) (hd : dst + n ≤ dst_size)
    (hs : src + n ≤ src_size) : ∀ e ∈ memcpy_accesses dst_size dst src_size src n, e.safe := by
  apply safe_flatMap
  intro k hk e he
  rw [List.mem_range] at hk
  simp only [List.mem_cons, List.mem_singleton, List.not_mem_nil, or_false] at he
  rcases he with rfl | rfl
  · exact safe_access_nat _ _ (by omega)
  · exact safe_access_nat _ _ (by omega)

theorem gather_accesses_safe (dest_size dest orig_size orig low_count high_count : Nat)
    (hd : dest + (low_count + high_count) ≤ dest_size)
    (h1 : orig + 2 * low_count ≤ orig_size + 1) (h2 : orig + 2 * high_count ≤ orig_size) :
    ∀ e ∈ gather_accesses dest_size dest orig_size orig low_count high_count, e.safe := by
  unfold gather_accesses
  apply safe_append <;> apply safe_flatMap <;> intro k hk e he <;> rw [List.mem_range] at hk <;>
    simp only [List.mem_cons, List.mem_singleton, List.not_mem_nil, or_false] at he <;>
    rcases he with rfl | rfl <;> exact safe_access_nat _ _ (by omega)

theorem scatter_accesses_safe (dest_size dest orig_size orig low_count high_count : Nat)
    (ho : orig + (low_count + high_count) ≤ orig_size)
    (h1 : dest + 2 * low_count ≤ dest_size + 1) (h2 : dest + 2 * high_count ≤ dest_size) :
    ∀ e ∈ scatter_accesses dest_size dest orig_size orig low_count high_count, e.safe := by
  unfold scatter_accesses
  apply safe_append <;> apply safe_flatMap <;> intro k hk e he <;> rw [List.mem_range] at hk <;>
    simp only [List.mem_cons, List.mem_singleton, List.not_mem_nil, or_false] at he <;>
    rcases he with rfl | rfl <;> exact safe_access_nat _ _ (by omega)

theorem m_gather_accesses_safe (dest_size dest orig_size orig len : Nat)
    (hd : dest + len ≤ dest_size) (ho : orig + len ≤ orig_size) :
    ∀ e ∈ m_gather_accesses dest_size dest orig_size orig len, e.safe := by
  unfold m_gather_accesses
  split
  · exact gather_accesses_safe _ _ _ _ _ _ (by omega) (by omega) (by omega)
  · exact gather_accesses_safe _ _ _ _ _ _ (by omega) (by omega) (by omega)

theorem m_scatter_accesses_safe (dest_size dest orig_size orig len : Nat)
    (hd : dest + len ≤ dest_size) (ho : orig + len ≤ orig_size) :
    ∀ e ∈ m_scatter_accesses dest_size dest orig_size orig len, e.safe := by
  unfold m_scatter_accesses
  split
  · exact scatter_accesses_safe _ _ _ _ _ _ (by omega) (by omega) (by omega)
  · exact scatter_accesses_safe _ _ _ _ _ _ (by omega) (by omega) (by omega)

theorem column_accesses_safe (plane_size m_dim_x x len_xy len_y : Nat) (hx : x < m_dim_x)
    (hy : len_y ≤ len_xy) (hp : len_y * m_dim_x ≤ plane_size) :
    ∀ e ∈ column_accesses plane_size m_dim_x x len_xy len_y, e.safe := by
  apply safe_flatMap
  intro y hy' e he
  rw [List.mem_range] at hy'
  simp only [List.mem_cons, List.mem_singleton, List.not_mem_nil, or_false] at he
  rcases he with rfl | rfl
  · exact safe_access_nat _ _ (by omega)
  · have := row_bound y len_y m_dim_x (x + 1) plane_size hy' (by omega) hp
    exact safe_access_nat _ _ (by omega)

/-- Every event of one level of the forward transform is safe when both
lengths are at least 2 and within the plane. -/
theorem m_dwt2d_one_level_safe (Dx Dy lx ly : Nat) (hx2 : 2 ≤ lx) (hy2 : 2 ≤ ly)
    (hx : lx ≤ Dx) (hy : ly ≤ Dy) : ∀ e ∈ m_dwt2d_one_level_events Dx Dy lx ly, e.safe := by
  have hp : ly * Dx ≤ Dx * Dy := by
    rw [Nat.mul_comm Dx Dy]
    exact Nat.mul_le_mul_right Dx hy
  have hmx : lx ≤ max lx ly := Nat.le_max_left _ _
  have hmy : ly ≤ max lx ly := Nat.le_max_right _ _
  unfold m_dwt2d_one_level_events
  apply safe_append
  · apply safe_flatMap
    intro i hi
    rw [List.mem_range] at hi
    have hb := row_bound i ly Dx lx (Dx * Dy) hi hx hp
    exact safe_append _ _ (safe_append _ _
      (memcpy_accesses_safe _ _ _ _ _ (by omega) hb)
      (kernel_events_safe true lx hx2))
      (m_gather_accesses_safe _ _ _ _ _ hb (by omega))
  · apply safe_flatMap
    intro x hx'
    rw [List.mem_range] at hx'
    exact safe_append _ _ (safe_append _ _ (safe_append _ _
      (column_accesses_safe _ _ _ _ _ (by omega) hmy hp)
      (kernel_events_safe true ly hy2))
      (m_gather_accesses_safe _ _ _ _ _ (by omega) (by omega)))
      (column_accesses_safe _ _ _ _ _ (by omega) hmy hp)

/-- Every event of one level of the inverse transform is safe when both
lengths are at least 2 and within the plane. -/
theorem m_idwt2d_one_level_safe (Dx Dy lx ly : Nat) (hx2 : 2 ≤ lx) (hy2 : 2 ≤ ly)
    (hx : lx ≤ Dx) (hy : ly ≤ Dy) : ∀ e ∈ m_idwt2d_one_level_events Dx Dy lx ly, e.safe := by
  have hp : ly * Dx ≤ Dx * Dy := by
    rw [Nat.mul_comm Dx Dy]
    exact Nat.mul_le_mul_right Dx hy
  have hmx : lx ≤ max lx ly := Nat.le_max_left _ _
  have hmy : ly ≤ max lx ly := Nat.le_max_right _ _
  unfold m_idwt2d_one_level_events
  apply safe_append
  · apply safe_flatMap
    intro x hx'
    rw [List.mem_range] at hx'
    exact safe_append _ _ (safe_append _ _ (safe_append _ _
      (column_accesses_safe _ _ _ _ _ (by omega) hmy hp)
      (m_scatter_accesses_safe _ _ _ _ _ (by omega) (by omega)))
      (kernel_events_safe false ly hy2))
      (column_accesses_safe _ _ _ _ _ (by omega) hmy hp)
  · apply safe_flatMap
    intro i hi
    rw [List.mem_range] at hi
    have hb := row_bound i ly Dx lx (Dx * Dy) hi hx hp
    exact safe_append _ _ (safe_append _ _
      (m_scatter_accesses_safe _ _ _ _ _ (by omega) hb)
      (kernel_events_safe false lx hx2))
      (memcpy_accesses_safe _ _ _ _ _ hb (by omega))

/-- C26: for all plane dims every event of the level loops of `dwt2d` and
`idwt2d` is safe: every kernel call has a length of the parity of the kernel
that is at least 2, every element `signal[i]` that a kernel touches has
`0 ≤ i < signal_length`, every access of a gather, a scatter or a copy to a
scratch half stays within its `max(len_x, len_y)` elements, and every access
to the plane within its `Dx * Dy` elements.  The events are there: at every
level the kernel calls of the first row and of the first column are among
them. -/
theorem transform_events_safe :
    (∀ Dx Dy : Nat, (∀ e ∈ dwt2d_events Dx Dy, e.safe) ∧ (∀ e ∈ idwt2d_events Dx Dy, e.safe)) ∧
    (∀ Dx Dy lev : Nat, lev < m_num_of_levels_xy Dx Dy →
      Event.kernel (decide (m_calc_approx_len Dx lev % 2 = 0)) (m_calc_approx_len Dx lev) ∈
        dwt2d_events Dx Dy ∧
      Event.kernel (decide (m_calc_approx_len Dy lev % 2 = 0)) (m_calc_approx_len Dy lev) ∈
        idwt2d_events Dx Dy) := by
  refine ⟨fun Dx Dy => ⟨?_, ?_⟩, fun Dx Dy lev hlev => ?_⟩
  · apply safe_flatMap
    intro lev hlev
    rw [List.mem_range] at hlev
    obtain ⟨⟨x2, xle⟩, ⟨y2, yle⟩⟩ := level_lengths Dx Dy lev hlev
    exact m_dwt2d_one_level_safe Dx Dy _ _ x2 y2 xle yle
  · apply safe_flatMap
    intro lev hlev
    rw [List.mem_reverse, List.mem_range] at hlev
    obtain ⟨⟨x2, xle⟩, ⟨y2, yle⟩⟩ := level_lengths Dx Dy lev hlev
    exact m_idwt2d_one_level_safe Dx Dy _ _ x2 y2 xle yle
  · obtain ⟨⟨x2, xle⟩, ⟨y2, yle⟩⟩ := level_lengths Dx Dy lev hlev
    constructor
    · refine List.mem_flatMap.mpr ⟨lev, List.mem_range.mpr hlev, ?_⟩
      unfold m_dwt2d_one_level_events
      refine List.mem_append_left _ (List.mem_flatMap.mpr ⟨0, List.mem_range.mpr (by omega), ?_⟩)
      refine List.mem_append_left _ (List.mem_append_right _ ?_)
      exact List.mem_cons_self _ _
    · refine List.mem_flatMap.mpr ⟨lev, by rw [List.mem_reverse]; exact List.mem_range.mpr hlev, ?_⟩
      unfold m_idwt2d_one_level_events
      refine List.mem_append_left _ (List.mem_flatMap.mpr ⟨0, List.mem_range.mpr (by omega), ?_⟩)
      refine List.mem_append_left _ (List.mem_append_right _ ?_)
      exact List.mem_cons_self _ _

end Safety

/-! ## The level functions in single precision -/

section SinglePrecision

theorem floor_log2_lt (fuel n b : Nat) (h : n < 2 ^ b) (hb : 0 < b) : floor_log2 fuel n < b := by
  by_cases h0 : n = 0
  · subst h0
    cases fuel <;> simp [floor_log2, hb]
  · have h1 := pow_floor_log2_le fuel n (by omega)
    exact (Nat.pow_lt_pow_iff_right (by decide)).mp (lt_of_le_of_lt h1 h)

/-- Below `2 ^ 24` the conversion to single precision is exact and the level
function with the conversion rounded is the level function. -/
theorem m_num_of_levels_z_float_eq (D : Nat) (h : D < 2 ^ 24) :
    float_of_long D = D ∧ m_num_of_levels_z_float D = m_num_of_levels_z D := by
  have e : float_of_long D = D := by
    unfold float_of_long
    simp only []
    rw [if_pos (floor_log2_lt 64 D 24 h (by decide))]
  refine ⟨e, ?_⟩
  unfold m_num_of_levels_z_float m_num_of_levels_z num_level_arg
  rw [e]

end SinglePrecision

/-! ## Monotonicity of the level function -/

section Monotone

end Monotone

/-! ## `compress` and `get_encoded_bitstream` on an object that is not ready -/

section NotReady

theorem any_isEmpty_of_mem_nil (bufs : List (List ℚ)) (h : ∃ v ∈ bufs, v = []) :
    bufs.any (fun v => v.isEmpty) = true := by
  obtain ⟨v, hv, hnil⟩ := h
  rw [List.any_eq_true]
  exact ⟨v, hv, by rw [hnil]; rfl⟩

/-- C31: `compress` returns `Error` and leaves the object as it is, its
encoded streams and outlier statistics included, whenever the number of chunk
buffers differs from the number of chunks of the current volume and chunk dims
or a chunk buffer is empty; in particular before a successful `use_volume`,
when there is no chunk buffer and the dims give a chunk. -/
theorem compress_not_ready (env : Env) (outcome : Nat → ChunkOutcome) (st : SPECK3D_OMP_C)
    (h : st.m_chunk_buffers.length ≠ (env.chunk_volume st.m_dims st.m_chunk_dims).length ∨
      (∃ v ∈ st.m_chunk_buffers, v = []) ∨
      (st.m_chunk_buffers = [] ∧ env.chunk_volume st.m_dims st.m_chunk_dims ≠ [])) :
    compress env outcome st = (RTNType.Error, st) ∧
    (compress env outcome st).2.m_encoded_streams = st.m_encoded_streams ∧
    (compress env outcome st).2.m_outlier_stats = st.m_outlier_stats := by
  have e : compress env outcome st = (RTNType.Error, st) := by
    unfold compress
    simp only []
    by_cases h1 : st.m_chunk_buffers.length ≠ (env.chunk_volume st.m_dims st.m_chunk_dims).length
    · rw [if_pos h1]
    · rw [if_neg h1]
      rcases h with h | h | ⟨h2, h3⟩
      · exact absurd h h1
      · rw [if_pos (any_isEmpty_of_mem_nil _ h)]
      · exfalso
        apply h1
        rw [h2]
        intro hc
        exact h3 (List.length_eq_zero.mp hc.symm)
  rw [e]
  exact ⟨rfl, rfl, rfl⟩

theorem compress_not_ready_witness :
    compress exampleEnv goodOutcome exampleState = (RTNType.Error, exampleState) ∧
    (compress exampleEnv goodOutcome exampleState).2.m_encoded_streams =
      exampleState.m_encoded_streams ∧
    (compress exampleEnv goodOutcome exampleState).2.m_outlier_stats =
      exampleState.m_outlier_stats :=
  compress_not_ready exampleEnv goodOutcome exampleState (Or.inr (Or.inr ⟨rfl, by decide⟩))

theorem m_generate_header_mismatch (env : Env) (st : SPECK3D_OMP_C)
    (h : st.m_encoded_streams.length ≠ (env.chunk_volume st.m_dims st.m_chunk_dims).length) :
    m_generate_header env st = [] := by
  unfold m_generate_header m_generate_header_run
  simp only []
  rw [if_pos (fun hc => h hc.symm)]

theorem m_generate_header_length (env : Env) (st : SPECK3D_OMP_C)
    (h : st.m_encoded_streams.length = (env.chunk_volume st.m_dims st.m_chunk_dims).length) :
    (m_generate_header env st).length = env.m_header_magic + 4 * st.m_encoded_streams.length :=
  (m_generate_header_run_spec env st h.symm).2.1

/-- C32: `get_encoded_bitstream` returns the empty vector whenever the number
of stored encoded streams differs from the number of chunks of the current
volume and chunk dims, and in every other case a vector that is not empty: the
header, of `m_header_magic + 4 n > 0` bytes, and the streams. -/
theorem get_encoded_bitstream_empty_iff (env : Env) (st : SPECK3D_OMP_C)
    (hmagic : 0 < env.m_header_magic) :
    (st.m_encoded_streams.length ≠ (env.chunk_volume st.m_dims st.m_chunk_dims).length →
      get_encoded_bitstream env st = []) ∧
    (st.m_encoded_streams.length = (env.chunk_volume st.m_dims st.m_chunk_dims).length →
      get_encoded_bitstream env st ≠ [] ∧
      (get_encoded_bitstream env st).length =
        env.m_header_magic + 4 * st.m_encoded_streams.length +
          st.m_encoded_streams.flatten.length) ∧
    (get_encoded_bitstream env st = [] ↔
      st.m_encoded_streams.length ≠ (env.chunk_volume st.m_dims st.m_chunk_dims).length) ∧
    (st.m_encoded_streams = [] → env.chunk_volume st.m_dims st.m_chunk_dims ≠ [] →
      get_encoded_bitstream env st = []) := by
  have hA : st.m_encoded_streams.length ≠ (env.chunk_volume st.m_dims st.m_chunk_dims).length →
      get_encoded_bitstream env st = [] := by
    intro h
    unfold get_encoded_bitstream
    simp only []
    rw [m_generate_header_mismatch env st h]
    rfl
  have hB : st.m_encoded_streams.length = (env.chunk_volume st.m_dims st.m_chunk_dims).length →
      get_encoded_bitstream env st ≠ [] ∧
      (get_encoded_bitstream env st).length =
        env.m_header_magic + 4 * st.m_encoded_streams.length +
          st.m_encoded_streams.flatten.length := by
    intro h
    have hl := m_generate_header_length env st h
    have hne : m_generate_header env st ≠ [] := by
      intro hc
      rw [hc] at hl
      simp only [List.length_nil] at hl
      omega
    have hlen : (get_encoded_bitstream env st).length =
        env.m_header_magic + 4 * st.m_encoded_streams.length +
          st.m_encoded_streams.flatten.length := by
      rw [get_encoded_bitstream_eq env st hne, List.length_append, hl]
    refine ⟨fun hc => ?_, hlen⟩
    rw [hc] at hlen
    simp only [List.length_nil] at hlen
    omega
  refine ⟨hA, hB, ⟨fun he => ?_, hA⟩, fun hs hc => hA ?_⟩
  · intro hc
    exact (hB hc).1 he
  · rw [hs]
    intro h0
    exact hc (List.length_eq_zero.mp h0.symm)

theorem get_encoded_bitstream_empty_iff_witness :
    (exampleState.m_encoded_streams.length ≠
        (exampleEnv.chunk_volume exampleState.m_dims exampleState.m_chunk_dims).length →
      get_encoded_bitstream exampleEnv exampleState = []) ∧
    (exampleState.m_encoded_streams.length =
        (exampleEnv.chunk_volume exampleState.m_dims exampleState.m_chunk_dims).length →
      get_encoded_bitstream exampleEnv exampleState ≠ [] ∧
      (get_encoded_bitstream exampleEnv exampleState).length =
        exampleEnv.m_header_magic + 4 * exampleState.m_encoded_streams.length +
          exampleState.m_encoded_streams.flatten.length) ∧
    (get_encoded_bitstream exampleEnv exampleState = [] ↔
      exampleState.m_encoded_streams.length ≠
        (exampleEnv.chunk_volume exampleState.m_dims exampleState.m_chunk_dims).length) ∧
    (exampleState.m_encoded_streams = [] →
      exampleEnv.chunk_volume exampleState.m_dims exampleState.m_chunk_dims ≠ [] →
      get_encoded_bitstream exampleEnv exampleState = []) :=
  get_encoded_bitstream_empty_iff exampleEnv exampleState (by decide)

end NotReady

/-! ## Linearity of the kernels -/

section LinearKernels

variable {F : Type} [Field F]

theorem isAxpy_axpy (a : F) (s t : List F) (h : s.length = t.length) :
    IsAxpy a s t (axpy a s t) := by
  refine ⟨h, by simp [axpy, h], fun j => ?_⟩
  unfold axpy rd
  simp only [List.getD_eq_getElem?_getD, List.getElem?_zipWith]
  by_cases hj : j < s.length
  · have hj' : j < t.length := by omega
    simp [List.getElem?_eq_getElem hj, List.getElem?_eq_getElem hj']
  · have hj' : ¬ j < t.length := by omega
    simp [List.getElem?_eq_none (Nat.le_of_not_lt hj), List.getElem?_eq_none (Nat.le_of_not_lt hj')]

theorem isAxpy_eq {a : F} {s t u : List F} (h : IsAxpy a s t u) : u = axpy a s t := by
  obtain ⟨h1, h2, h3⟩ := h
  obtain ⟨-, g2, g3⟩ := isAxpy_axpy a s t h1
  exact ext_rd (by rw [h2, g2]) (fun j _ => by rw [h3 j, g3 j])

theorem isAxpy_wr {a : F} {s t u : List F} (h : IsAxpy a s t u) (i : Nat) (vs vt vu : F)
    (hv : vu = a * vs + vt) : IsAxpy a (wr s i vs) (wr t i vt) (wr u i vu) := by
  obtain ⟨h1, h2, h3⟩ := h
  refine ⟨by rw [length_wr, length_wr, h1], by rw [length_wr, length_wr, h2], fun j => ?_⟩
  rw [rd_wr, rd_wr, rd_wr, h2, ← h1, h3 j, hv]
  split <;> rfl

/-- A lifting loop with a linear update rule maps linear combinations to
linear combinations. -/
theorem isAxpy_loopStep {a : F} (phi : F → F → F → F)
    (hphi : ∀ x y z x1 y1 z1 : F,
      phi (a * x + x1) (a * y + y1) (a * z + z1) = a * phi x y z + phi x1 y1 z1)
    (hi : Nat) :
    ∀ (fuel lo : Nat) (s t u : List F), IsAxpy a s t u →
      IsAxpy a (loopStep phi hi fuel lo s) (loopStep phi hi fuel lo t)
        (loopStep phi hi fuel lo u) := by
  intro fuel
  induction fuel with
  | zero => intro lo s t u h; exact h
  | succ fuel ih =>
    intro lo s t u h
    unfold loopStep forLoop
    split
    · exact ih _ _ _ _
        (isAxpy_wr h lo _ _ _ (by rw [h.2.2, h.2.2, h.2.2]; exact hphi _ _ _ _ _ _))
    · exact h

theorem isAxpy_firstStep {a : F} (psi : F → F → F)
    (hpsi : ∀ x y x1 y1 : F, psi (a * x + x1) (a * y + y1) = a * psi x y + psi x1 y1)
    (s t u : List F) (h : IsAxpy a s t u) :
    IsAxpy a (firstStep psi s) (firstStep psi t) (firstStep psi u) :=
  isAxpy_wr h 0 _ _ _ (by rw [h.2.2, h.2.2]; exact hpsi _ _ _ _)

theorem isAxpy_lastStep {a : F} (psi : F → F → F)
    (hpsi : ∀ x y x1 y1 : F, psi (a * x + x1) (a * y + y1) = a * psi x y + psi x1 y1)
    (n : Nat) (s t u : List F) (h : IsAxpy a s t u) :
    IsAxpy a (lastStep psi n s) (lastStep psi n t) (lastStep psi n u) :=
  isAxpy_wr h (n - 1) _ _ _ (by rw [h.2.2, h.2.2]; exact hpsi _ _ _ _)

theorem AnalysisEvenEven_linear (c : Lifting F) (a : F) (s t u : List F) (n : Nat)
    (h : IsAxpy a s t u) :
    IsAxpy a (QccWAVCDF97AnalysisSymmetricEvenEven c s n)
      (QccWAVCDF97AnalysisSymmetricEvenEven c t n)
      (QccWAVCDF97AnalysisSymmetricEvenEven c u n) := by
  have hA : ∀ l : List F, QccWAVCDF97AnalysisSymmetricEvenEven c l n =
      loopStep (fun x _ _ => x / (-c.EPSILON)) n n 1
      (loopStep (fun x a b => c.EPSILON * (x + c.DELTA * (b + a))) n n 2
      (firstStep (fun x b => c.EPSILON * (x + 2 * c.DELTA * b))
      (lastStep (fun x a => x + 2 * c.GAMMA * a) n
      (loopStep (fun x a b => x + c.GAMMA * (a + b)) (n - 2) n 1
      (loopStep (fun x a b => x + c.BETA * (b + a)) n n 2
      (firstStep (fun x b => x + 2 * c.BETA * b)
      (lastStep (fun x a => x + 2 * c.ALPHA * a) n
      (loopStep (fun x a b => x + c.ALPHA * (a + b)) (n - 2) n 1 l)))))))) :=
    fun _ => rfl
  rw [hA s, hA t, hA u]
  repeat' first
    | exact h
    | refine isAxpy_loopStep _ (by intros; ring) _ _ _ _ _ _ ?_
    | refine isAxpy_firstStep _ (by intros; ring) _ _ _ ?_
    | refine isAxpy_lastStep _ (by intros; ring) _ _ _ _ ?_

theorem SynthesisEvenEven_linear (c : Lifting F) (a : F) (s t u : List F) (n : Nat)
    (h : IsAxpy a s t u) :
    IsAxpy a (QccWAVCDF97SynthesisSymmetricEvenEven c s n)
      (QccWAVCDF97SynthesisSymmetricEvenEven c t n)
      (QccWAVCDF97SynthesisSymmetricEvenEven c u n) := by
  have hA : ∀ l : List F, QccWAVCDF97SynthesisSymmetricEvenEven c l n =
      lastStep (fun x a => x - 2 * c.ALPHA * a) n
      (loopStep (fun x a b => x - c.ALPHA * (a + b)) (n - 2) n 1
      (loopStep (fun x a b => x - c.BETA * (b + a)) n n 2
      (firstStep (fun x b => x - 2 * c.BETA * b)
      (lastStep (fun x a => x - 2 * c.GAMMA * a) n
      (loopStep (fun x a b => x - c.GAMMA * (a + b)) (n - 2) n 1
      (loopStep (fun x a b => x / c.EPSILON - c.DELTA * (b + a)) n n 2
      (firstStep (fun x b => x / c.EPSILON - 2 * c.DELTA * b)
      (loopStep (fun x _ _ => x * (-c.EPSILON)) n n 1 l)))))))) :=
    fun _ => rfl
  rw [hA s, hA t, hA u]
  repeat' first
    | exact h
    | refine isAxpy_loopStep _ (by intros; ring) _ _ _ _ _ _ ?_
    | refine isAxpy_firstStep _ (by intros; ring) _ _ _ ?_
    | refine isAxpy_lastStep _ (by intros; ring) _ _ _ _ ?_

theorem AnalysisOddEven_linear (c : Lifting F) (a : F) (s t u : List F) (n : Nat)
    (h : IsAxpy a s t u) :
    IsAxpy a (QccWAVCDF97AnalysisSymmetricOddEven c s n)
      (QccWAVCDF97AnalysisSymmetricOddEven c t n)
      (QccWAVCDF97AnalysisSymmetricOddEven c u n) := by
  have hA : ∀ l : List F, QccWAVCDF97AnalysisSymmetricOddEven c l n =
      loopStep (fun x _ _ => x / (-c.EPSILON)) (n - 1) n 1
      (lastStep (fun x a => c.EPSILON * (x + 2 * c.DELTA * a)) n
      (loopStep (fun x a b => c.EPSILON * (x + c.DELTA * (b + a))) (n - 2) n 2
      (firstStep (fun x b => c.EPSILON * (x + 2 * c.DELTA * b))
      (loopStep (fun x a b => x + c.GAMMA * (a + b)) (n - 1) n 1
      (lastStep (fun x a => x + 2 * c.BETA * a) n
      (loopStep (fun x a b => x + c.BETA * (b + a)) (n - 2) n 2
      (firstStep (fun x b => x + 2 * c.BETA * b)
      (loopStep (fun x a b => x + c.ALPHA * (a + b)) (n - 1) n 1 l)))))))) :=
    fun _ => rfl
  rw [hA s, hA t, hA u]
  repeat' first
    | exact h
    | refine isAxpy_loopStep _ (by intros; ring) _ _ _ _ _ _ ?_
    | refine isAxpy_firstStep _ (by intros; ring) _ _ _ ?_
    | refine isAxpy_lastStep _ (by intros; ring) _ _ _ _ ?_

theorem SynthesisOddEven_linear (c : Lifting F) (a : F) (s t u : List F) (n : Nat)
    (h : IsAxpy a s t u) :
    IsAxpy a (QccWAVCDF97SynthesisSymmetricOddEven c s n)
      (QccWAVCDF97SynthesisSymmetricOddEven c t n)
      (QccWAVCDF97SynthesisSymmetricOddEven c u n) := by
  have hA : ∀ l : List F, QccWAVCDF97SynthesisSymmetricOddEven c l n =
      loopStep (fun x a b => x - c.ALPHA * (a + b)) (n - 1) n 1
      (lastStep (fun x a => x - 2 * c.BETA * a) n
      (loopStep (fun x a b => x - c.BETA * (b + a)) (n - 2) n 2
      (firstStep (fun x b => x - 2 * c.BETA * b)
      (loopStep (fun x a b => x - c.GAMMA * (a + b)) (n - 1) n 1
      (lastStep (fun x a => x / c.EPSILON - 2 * c.DELTA * a) n
      (loopStep (fun x a b => x / c.EPSILON - c.DELTA * (b + a)) (n - 2) n 2
      (firstStep (fun x b => x / c.EPSILON - 2 * c.DELTA * b)
      (loopStep (fun x _ _ => x * (-c.EPSILON)) (n - 1) n 1 l)))))))) :=
    fun _ => rfl
  rw [hA s, hA t, hA u]
  repeat' first
    | exact h
    | refine isAxpy_loopStep _ (by intros; ring) _ _ _ _ _ _ ?_
    | refine isAxpy_firstStep _ (by intros; ring) _ _ _ ?_
    | refine isAxpy_lastStep _ (by intros; ring) _ _ _ _ ?_

/-- C34: each 1D lifting kernel is a linear map over exact arithmetic: for all
signals `s`, `t` of length `N` and every scalar `a` the kernel of `a * s + t`
is `a` times the kernel of `s` plus the kernel of `t`, element by element, and
the kernel of the zero signal is the zero signal.  This holds for every `N`, in
particular for the EvenEven kernels at even `N ≥ 2` and the OddEven kernels at
odd `N ≥ 3`. -/
theorem kernels_linear (c : Lifting F) (a : F) (s t : List F) (N : Nat)
    (hs : s.length = N) (ht : t.length = N) :
    QccWAVCDF97AnalysisSymmetricEvenEven c (axpy a s t) N =
      axpy a (QccWAVCDF97AnalysisSymmetricEvenEven c s N) (QccWAVCDF97AnalysisSymmetricEvenEven c t N) ∧
    QccWAVCDF97SynthesisSymmetricEvenEven c (axpy a s t) N =
      axpy a (QccWAVCDF97SynthesisSymmetricEvenEven c s N) (QccWAVCDF97SynthesisSymmetricEvenEven c t N) ∧
    QccWAVCDF97AnalysisSymmetricOddEven c (axpy a s t) N =
      axpy a (QccWAVCDF97AnalysisSymmetricOddEven c s N) (QccWAVCDF97AnalysisSymmetricOddEven c t N) ∧
    QccWAVCDF97SynthesisSymmetricOddEven c (axpy a s t) N =
      axpy a (QccWAVCDF97SynthesisSymmetricOddEven c s N) (QccWAVCDF97SynthesisSymmetricOddEven c t N) ∧
    QccWAVCDF97AnalysisSymmetricEvenEven c (List.replicate N 0) N = List.replicate N 0 ∧
    QccWAVCDF97SynthesisSymmetricEvenEven c (List.replicate N 0) N = List.replicate N 0 ∧
    QccWAVCDF97AnalysisSymmetricOddEven c (List.replicate N 0) N = List.replicate N 0 ∧
    QccWAVCDF97SynthesisSymmetricOddEven c (List.replicate N 0) N = List.replicate N 0 := by
  have h := isAxpy_axpy a s t (by rw [hs, ht])
  have z : ∀ j, rd (List.replicate N (0 : F)) j = 0 := fun j => rd_replicate_zero N j
  refine ⟨isAxpy_eq (AnalysisEvenEven_linear c a s t _ N h),
    isAxpy_eq (SynthesisEvenEven_linear c a s t _ N h),
    isAxpy_eq (AnalysisOddEven_linear c a s t _ N h),
    isAxpy_eq (SynthesisOddEven_linear c a s t _ N h), ?_, ?_, ?_, ?_⟩
  · exact eq_replicate_of_allZero _ N
      (by rw [length_AnalysisEvenEven, List.length_replicate])
      (AnalysisEvenEven_zero c _ N z)
  · exact eq_replicate_of_allZero _ N
      (by rw [length_SynthesisEvenEven, List.length_replicate])
      (SynthesisEvenEven_zero c _ N z)
  · exact eq_replicate_of_allZero _ N
      (by rw [length_AnalysisOddEven, List.length_replicate])
      (AnalysisOddEven_zero c _ N z)
  · exact eq_replicate_of_allZero _ N
      (by rw [length_SynthesisOddEven, List.length_replicate])
      (SynthesisOddEven_zero c _ N z)

theorem kernels_linear_witness :
    QccWAVCDF97AnalysisSymmetricEvenEven specLifting (axpy 2 [1, 2, 3, 4] [0, 1, 0, 5]) 4 =
      axpy 2 (QccWAVCDF97AnalysisSymmetricEvenEven specLifting [1, 2, 3, 4] 4) (QccWAVCDF97AnalysisSymmetricEvenEven specLifting [0, 1, 0, 5] 4) ∧
    QccWAVCDF97SynthesisSymmetricEvenEven specLifting (axpy 2 [1, 2, 3, 4] [0, 1, 0, 5]) 4 =
      axpy 2 (QccWAVCDF97SynthesisSymmetricEvenEven specLifting [1, 2, 3, 4] 4) (QccWAVCDF97SynthesisSymmetricEvenEven specLifting [0, 1, 0, 5] 4) ∧
    QccWAVCDF97AnalysisSymmetricOddEven specLifting (axpy 2 [1, 2, 3, 4] [0, 1, 0, 5]) 4 =
      axpy 2 (QccWAVCDF97AnalysisSymmetricOddEven specLifting [1, 2, 3, 4] 4) (QccWAVCDF97AnalysisSymmetricOddEven specLifting [0, 1, 0, 5] 4) ∧
    QccWAVCDF97SynthesisSymmetricOddEven specLifting (axpy 2 [1, 2, 3, 4] [0, 1, 0, 5]) 4 =
      axpy 2 (QccWAVCDF97SynthesisSymmetricOddEven specLifting [1, 2, 3, 4] 4) (QccWAVCDF97SynthesisSymmetricOddEven specLifting [0, 1, 0, 5] 4) ∧
    QccWAVCDF97AnalysisSymmetricEvenEven specLifting (List.replicate 4 0) 4 = List.replicate 4 0 ∧
    QccWAVCDF97SynthesisSymmetricEvenEven specLifting (List.replicate 4 0) 4 = List.replicate 4 0 ∧
    QccWAVCDF97AnalysisSymmetricOddEven specLifting (List.replicate 4 0) 4 = List.replicate 4 0 ∧
    QccWAVCDF97SynthesisSymmetricOddEven specLifting (List.replicate 4 0) 4 = List.replicate 4 0 :=
  kernels_linear specLifting 2 [1, 2, 3, 4] [0, 1, 0, 5] 4 rfl rfl

end LinearKernels

end Sperr
